import Mathlib

/-!
Verification of the policy-and-encoding core of the agent-task-manager
repository.  JavaScript strings are modelled as `List Char`; the metadata
codec (`src/linear-metadata.ts`), the effort and uncertainty policies, the
task filter, the tree evaluator, the uncertainty merge of the Linear
service, the batch-create validation and the orchestrator's `createTask`
are embedded as executable Lean functions, and the behavioural claims about
them are proved below the definitions.
-/

set_option maxHeartbeats 1000000

namespace ATM

/-- Text is modelled as the list of characters of the runtime JS string. -/
abbrev Str := List Char

/-- Characters of a Lean string literal, used to write embedded constants. -/
def chars (s : String) : Str := s.data

/-- JS whitespace class `\s`, restricted to the ASCII characters that can
appear here (space, tab, newline, carriage return, vertical tab, form feed). -/
def isWs (c : Char) : Bool :=
  c == ' ' || c == '\t' || c == '\n' || c == '\r' || c == Char.ofNat 11 || c == Char.ofNat 12

/-- JS regexp `.` (without the `s` flag): any character except a line
terminator. -/
def isDot (c : Char) : Bool := !(c == '\n' || c == '\r')

/-- JS word-character class `\w`. -/
def isWordC (c : Char) : Bool := c.isAlphanum || c == '_'

/-- JS `String.prototype.trim`. -/
def jsTrim (s : Str) : Str := ((s.dropWhile isWs).reverse.dropWhile isWs).reverse

/-- Truthiness of an optional JS string: present and non-empty. -/
def optTruthy : Option Str → Bool
  | some s => !s.isEmpty
  | none => false

/-- Lower-case image of a string (`String.prototype.toLowerCase`, ASCII). -/
def lowerStr (s : Str) : Str := s.map Char.toLower

/-- Does `tok` occur at the very start of `s`? -/
def leadTok : Str → Str → Bool
  | [], _ => true
  | _ :: _, [] => false
  | p :: ps, c :: cs => p == c && leadTok ps cs

/-- Index of the first occurrence of `tok` in `s` (JS `match`/`indexOf`
semantics: leftmost position at which `tok` is a prefix of the remainder). -/
def firstOcc (tok : Str) : Str → Option Nat
  | [] => if tok.isEmpty then some 0 else none
  | c :: rest =>
    if leadTok tok (c :: rest) then some 0
    else (firstOcc tok rest).map (· + 1)

/-- Substring occurrence test. -/
def occursIn (tok s : Str) : Bool := (firstOcc tok s).isSome

/-- JS `String.prototype.split('\n')`. -/
def splitNL : Str → List Str
  | [] => [[]]
  | c :: rest =>
    match splitNL rest with
    | [] => [[]]
    | l :: ls => if c == '\n' then [] :: l :: ls else (c :: l) :: ls

/-- Each line followed by a newline, concatenated; the normal form used to
reason about the encoder's output. -/
def joinLines (ls : List Str) : Str := (ls.map (fun l => l ++ ['\n'])).flatten

/-- Fuel-driven digit extraction (structural recursion on the fuel so that
concrete values reduce by `rfl`); the fuel is always sufficient because a
number has at most `n + 1` digits. -/
def natDigitsAux : Nat → Nat → Str
  | 0, _ => []
  | fuel + 1, n =>
    if n < 10 then [Char.ofNat (48 + n)]
    else natDigitsAux fuel (n / 10) ++ [Char.ofNat (48 + n % 10)]

/-- Decimal digits of a natural number, as produced by JS template
interpolation of an integer. -/
def natDigits (n : Nat) : Str := natDigitsAux (n + 1) n

/-- Value of `parseInt` on a run of decimal digits. -/
def digitsToNat (s : Str) : Nat := s.foldl (fun acc c => acc * 10 + (c.toNat - 48)) 0

/-! ### Data model (runtime shapes of `src/types.ts`)

Optional enum-typed fields (`complexityBias`, lesson `category`) are modelled
as their runtime strings, because the decoder stores raw captured text in
them (`as 'low' | 'medium' | 'high'` is an unchecked cast). -/

/-- Runtime shape of an `Uncertainty` record. -/
structure Uncertainty where
  title : Str
  description : Option Str := none
  resolution : Option Str := none
  resolvedAt : Option Str := none
  resolvedBy : Option Str := none
deriving DecidableEq, Repr

/-- Runtime shape of a `LessonLearned` record. -/
structure LessonLearned where
  content : Str
  category : Option Str := none
  tags : Option (List Str) := none
deriving DecidableEq, Repr

/-- Runtime shape of `IssueMetadata`.  `effort` is a bare number at runtime;
the decoder performs no membership check against the Fibonacci set. -/
structure IssueMetadata where
  goal : Option Str := none
  effort : Nat
  effortReason : Option Str := none
  complexityBias : Option Str := none
  uncertainties : List Uncertainty
  lessonsLearned : List LessonLearned
deriving DecidableEq, Repr

/-! ### Metadata codec (`src/linear-metadata.ts`) -/

/-- The opening sentinel marker. -/
def METADATA_SEPARATOR : Str := chars "---WORKFLOW-METADATA---"

/-- The closing sentinel marker. -/
def METADATA_END : Str := chars "---END-METADATA---"

/-- JS `a || b` for an optional string: `b` when `a` is absent or empty. -/
def jsOr (a : Option Str) (b : Str) : Str :=
  match a with
  | some s => if s.isEmpty then b else s
  | none => b

/-- Lines emitted for one uncertainty by `buildDescriptionWithMetadata`. -/
def uncertaintyLines (u : Uncertainty) : List Str :=
  [chars "- [" ++ (if optTruthy u.resolution then ['x'] else [' ']) ++ chars "] " ++ u.title]
  ++ (match u.description with
      | some d => if d.isEmpty then [] else [chars "  - Description: " ++ d]
      | none => [])
  ++ (match u.resolution with
      | some r => if r.isEmpty then [] else [chars "  - Resolution: " ++ r]
      | none => [])
  ++ (match u.resolvedBy with
      | some rb => if rb.isEmpty then [] else [chars "  - Resolved By: " ++ rb]
      | none => [])
  ++ (match u.resolvedAt with
      | some ra => if ra.isEmpty then [] else [chars "  - Resolved At: " ++ ra]
      | none => [])

/-- Line emitted for one lesson by `buildDescriptionWithMetadata`. -/
def lessonLine (l : LessonLearned) : Str :=
  chars "- "
  ++ (match l.category with
      | some c => if c.isEmpty then [] else '[' :: c ++ [']']
      | none => [])
  ++ [' '] ++ l.content

/-- The full ordered line list of the metadata block. -/
def buildLines (m : IssueMetadata) : List Str :=
  [METADATA_SEPARATOR,
   chars "**Goal:** " ++ jsOr m.goal (chars "Not specified"),
   chars "**Effort:** " ++ natDigits m.effort]
  ++ (match m.effortReason with
      | some r => if r.isEmpty then [] else [chars "**Effort Reason:** " ++ r]
      | none => [])
  ++ (match m.complexityBias with
      | some b => if b.isEmpty then [] else [chars "**Complexity Bias:** " ++ b]
      | none => [])
  ++ ([[], chars "**Uncertainties:**"])
  ++ (m.uncertainties.map uncertaintyLines).flatten
  ++ ([[], chars "**Lessons Learned:**"])
  ++ m.lessonsLearned.map lessonLine
  ++ [METADATA_END]

/-- `buildDescriptionWithMetadata`: the block lines joined with `\n`,
a blank-line separator, then the unmodified plain text. -/
def buildDescriptionWithMetadata (plainDescription : Str) (m : IssueMetadata) : Str :=
  List.intercalate ['\n'] (buildLines m) ++ chars "\n\n" ++ plainDescription

/-- Text strictly between the first separator and the first end marker after
it (the non-greedy block match of `parseMetadata`). -/
def extractBlock (s : Str) : Option Str :=
  match firstOcc METADATA_SEPARATOR s with
  | none => none
  | some i =>
    let rest := s.drop (i + METADATA_SEPARATOR.length)
    match firstOcc METADATA_END rest with
    | none => none
    | some j => some (rest.take j)

/-- Backtracking tail of `\s*(.+)`: when the greedy whitespace run reaches
the end of the text, the engine gives characters back until `.` can match. -/
def backtrackDotCapture (pre : Str) : Option Str :=
  match pre.reverse.dropWhile (fun c => !(isDot c)) with
  | [] => none
  | c :: _ => some [c]

/-- Capture of `\s*(.+)` (no end anchor) starting at the current position. -/
def wsDotCapture (tail : Str) : Option Str :=
  let rest := tail.dropWhile isWs
  if rest.isEmpty then backtrackDotCapture tail
  else some (rest.takeWhile isDot)

/-- Search loop of `text.match(/TOK\s*(.+)/)`: try each occurrence of the
token from the left until the continuation matches. -/
def searchCaptureAux (tok : Str) : Nat → Str → Option Str
  | 0, _ => none
  | fuel + 1, s =>
    match firstOcc tok s with
    | none => none
    | some i =>
      match wsDotCapture (s.drop (i + tok.length)) with
      | some cap => some cap
      | none => searchCaptureAux tok fuel (s.drop (i + 1))

/-- First successful capture of `/TOK\s*(.+)/` in `s`. -/
def searchCapture (tok : Str) (s : Str) : Option Str :=
  if tok.isEmpty then none else searchCaptureAux tok (s.length + 1) s

/-- Capture of `\s*(RUN+)` where `RUN` is a character class (digits or word
characters); whitespace backtracking cannot expose a class character. -/
def runCapture (p : Char → Bool) (tail : Str) : Option Str :=
  let run := (tail.dropWhile isWs).takeWhile p
  if run.isEmpty then none else some run

/-- Search loop of `text.match(/TOK\s*(CLASS+)/)`. -/
def searchRunAux (tok : Str) (p : Char → Bool) : Nat → Str → Option Str
  | 0, _ => none
  | fuel + 1, s =>
    match firstOcc tok s with
    | none => none
    | some i =>
      match runCapture p (s.drop (i + tok.length)) with
      | some cap => some cap
      | none => searchRunAux tok p fuel (s.drop (i + 1))

/-- First successful capture of `/TOK\s*(CLASS+)/` in `s`. -/
def searchRun (tok : Str) (p : Char → Bool) (s : Str) : Option Str :=
  if tok.isEmpty then none else searchRunAux tok p (s.length + 1) s

/-- Section body of `/TOK([\s\S]*?)(?=\*\*|$)/`: text after the first token
occurrence up to (excluding) the next `**` or the end of the text. -/
def sectionAfter (tok : Str) (s : Str) : Option Str :=
  match firstOcc tok s with
  | none => none
  | some i =>
    let tail := s.drop (i + tok.length)
    match firstOcc (chars "**") tail with
    | some j => some (tail.take j)
    | none => some tail

/-- Match of `\s*(.+)$` (anchored at the end of the line). -/
def anchoredWsDot (u : Str) : Option Str :=
  let rest := u.dropWhile isWs
  if rest.isEmpty then
    match u.reverse with
    | [] => none
    | c :: _ => if isDot c then some [c] else none
  else if rest.all isDot then some rest else none

/-- Match of the checklist-line pattern `^- \[([ x])\]\s*(.+)$` against an
already-trimmed line. -/
def bulletCapture (t : Str) : Option (Char × Str) :=
  match t with
  | '-' :: ' ' :: '[' :: b :: ']' :: rest =>
    if b == ' ' || b == 'x' then (anchoredWsDot rest).map (fun cap => (b, cap))
    else none
  | _ => none

/-- Backtracking of `\s+` before the `(?!\[)` lookahead in the detail-line
pattern: try consuming `k` whitespace characters, largest first. -/
def detailBacktrack (v : Str) : Nat → Option Str
  | 0 => none
  | k + 1 =>
    let rest := v.drop (k + 1)
    if (match rest with | '[' :: _ => false | _ => true) && rest.all isDot
    then some rest
    else detailBacktrack v k

/-- Match of the raw-line pattern `^\s*-\s+(?!\[)(.*)$`. -/
def detailCapture (u : Str) : Option Str :=
  match u.dropWhile isWs with
  | '-' :: v =>
    let k1 := (v.takeWhile isWs).length
    if k1 = 0 then none else detailBacktrack v k1
  | _ => none

/-- Case-insensitive prefix test, as used by the `/^Key:\s*/i` detail tests. -/
def ciLeadTok (pat : Str) (s : Str) : Bool := leadTok pat (lowerStr s)

/-- Value after removing a keyed prefix: `detail.replace(/^Key:\s*/i, '').trim()`. -/
def stripKey (n : Nat) (s : Str) : Str := jsTrim ((s.drop n).dropWhile isWs)

/-- Dispatch of one keyed detail line onto the current uncertainty record,
in the source's test order. -/
def applyDetail (detail : Str) (u : Uncertainty) : Uncertainty :=
  if ciLeadTok (chars "resolution:") detail then
    { u with resolution := some (stripKey 11 detail) }
  else if ciLeadTok (chars "resolved by:") detail then
    { u with resolvedBy := some (stripKey 12 detail) }
  else if ciLeadTok (chars "resolved at:") detail then
    { u with resolvedAt := some (stripKey 12 detail) }
  else if ciLeadTok (chars "description:") detail then
    { u with description := some (stripKey 12 detail) }
  else
    { u with description := some detail }

/-- `flushCurrent`: a checked box without explicit resolution text
synthesizes a fixed resolution string. -/
def finalizeUnc (resolved : Bool) (u : Uncertainty) : Uncertainty :=
  if resolved && !(optTruthy u.resolution) then
    { u with resolution := some (chars "Resolved (no details provided)") }
  else u

/-- Append the pending record (if any) to the accumulator. -/
def flushAcc : Option (Bool × Uncertainty) → List Uncertainty → List Uncertainty
  | none, acc => acc
  | some (r, u), acc => acc ++ [finalizeUnc r u]

/-- The line loop of the Uncertainties section parser.  State: the pending
record with its checkbox flag, and the accumulated records. -/
def uncLinesRun : List Str → Option (Bool × Uncertainty) → List Uncertainty → List Uncertainty
  | [], cur, acc => flushAcc cur acc
  | line :: rest, cur, acc =>
    let t := jsTrim line
    if t.isEmpty then uncLinesRun rest cur acc
    else
      match bulletCapture t with
      | some (b, cap) =>
        uncLinesRun rest (some (b == 'x', { title := jsTrim cap })) (flushAcc cur acc)
      | none =>
        match detailCapture line with
        | some rawCap =>
          match cur with
          | some (r, u) =>
            let detail := jsTrim rawCap
            if detail.isEmpty then uncLinesRun rest cur acc
            else uncLinesRun rest (some (r, applyDetail detail u)) acc
          | none => uncLinesRun rest cur acc
        | none => uncLinesRun rest cur acc

/-- Attempted match of `- \[(\w+)\]\s*(.+)` at the current position. -/
def lessonCatAt (s : Str) : Option (Str × Str) :=
  match s with
  | '-' :: ' ' :: '[' :: rest =>
    let w := rest.takeWhile isWordC
    if w.isEmpty then none
    else
      match rest.drop w.length with
      | ']' :: after => (wsDotCapture after).map (fun cap => (w, cap))
      | _ => none
  | _ => none

/-- Unanchored scan for `- \[(\w+)\]\s*(.+)` (leftmost match). -/
def lessonCatScan : Str → Option (Str × Str)
  | [] => none
  | c :: rest =>
    match lessonCatAt (c :: rest) with
    | some r => some r
    | none => lessonCatScan rest

/-- Membership in the `LessonCategorySchema` enum (the successful
`safeParse` outcomes). -/
def isLessonCategory (w : Str) : Bool :=
  w == chars "pattern" || w == chars "decision" || w == chars "gotcha"
  || w == chars "solution" || w == chars "performance" || w == chars "balance"

/-- Processing of one candidate lesson line. -/
def parseLessonLine (acc : List LessonLearned) (line : Str) : List LessonLearned :=
  match lessonCatScan line with
  | some (w, cap) =>
    let categoryValue := jsTrim w
    let contentValue := jsTrim cap
    if isLessonCategory categoryValue then
      acc ++ [{ content := contentValue, category := some categoryValue }]
    else if !contentValue.isEmpty then acc ++ [{ content := contentValue }]
    else acc
  | none =>
    let content := jsTrim (if leadTok (chars "- ") line then line.drop 2 else line)
    if !content.isEmpty then acc ++ [{ content := content }] else acc

/-- `parseMetadata`: decode a description into metadata, with the silent
default (effort 5, empty lists) when no block or field is found. -/
def parseMetadata (description : Str) : IssueMetadata :=
  match extractBlock description with
  | none => { effort := 5, uncertainties := [], lessonsLearned := [] }
  | some metadataText =>
    { goal :=
        match searchCapture (chars "**Goal:**") metadataText with
        | some cap => if cap = chars "Not specified" then none else some (jsTrim cap)
        | none => none,
      effort :=
        match searchRun (chars "**Effort:**") Char.isDigit metadataText with
        | some ds => digitsToNat ds
        | none => 5,
      effortReason :=
        match searchCapture (chars "**Effort Reason:**") metadataText with
        | some cap => if (jsTrim cap).isEmpty then none else some (jsTrim cap)
        | none => none,
      complexityBias :=
        match searchRun (chars "**Complexity Bias:**") isWordC metadataText with
        | some w => some w
        | none => none,
      uncertainties :=
        match sectionAfter (chars "**Uncertainties:**") metadataText with
        | some content => uncLinesRun (splitNL content) none []
        | none => [],
      lessonsLearned :=
        match sectionAfter (chars "**Lessons Learned:**") metadataText with
        | some content =>
          ((splitNL content).filter (fun l => leadTok (chars "- ") (jsTrim l))).foldl
            parseLessonLine []
        | none => [] }

/-- The pattern removed by `extractPlainDescription`: the end marker
followed by the blank-line separator. -/
def endMarkNN : Str := METADATA_END ++ chars "\n\n"

/-- `extractPlainDescription`: remove the first
`SEPARATOR[\s\S]*?END\n\n` match, then trim. -/
def extractPlainDescription (s : Str) : Str :=
  match firstOcc METADATA_SEPARATOR s with
  | none => jsTrim s
  | some i =>
    match firstOcc endMarkNN (s.drop (i + METADATA_SEPARATOR.length)) with
    | none => jsTrim s
    | some j =>
      jsTrim (s.take i ++ s.drop (i + METADATA_SEPARATOR.length + j + endMarkNN.length))

/-! ### Effort policy (`src/domain/effort/effort-policy.ts`, `src/types.ts`) -/

/-- Decimal rendering of a JS integer (`String(n)`). -/
def intStr (i : Int) : Str := if i < 0 then '-' :: natDigits i.natAbs else natDigits i.natAbs

/-- The fixed ordinal effort scale. -/
def FIBONACCI_EFFORT_VALUES : List Int := [1, 2, 3, 5, 8, 13, 21]

/-- `isFibonacciEffort`: exact membership in the scale. -/
def isFibonacciEffort (value : Int) : Bool := FIBONACCI_EFFORT_VALUES.contains value

/-- `needsDecomposition`: effort strictly above 3. -/
def needsDecomposition (effort : Int) : Bool := effort > 3

/-- `assertValidEffort`: throws `InvalidEffort` on a non-member. -/
def assertValidEffort (effort : Int) : Except Str Unit :=
  if isFibonacciEffort effort then .ok ()
  else .error (chars "Task effort must be one of 1, 2, 3, 5, 8, 13, 21, got " ++ intStr effort)

/-- `validateEffortReason`: non-fatal advisory when a high-effort task lacks
a reason. -/
def validateEffortReason (effort : Int) (effortReason : Option Str) : Option Str :=
  if effort > 3 && !(optTruthy effortReason) then
    some (chars "⚠️ Effort " ++ intStr effort ++ chars " task should include effortReason to document complexity")
  else none

/-! ### Task model (runtime shape of `Task` in `src/types.ts`, restricted to
the fields the embedded components read) -/

/-- Task status enum. -/
inductive TaskStatus
  | backlog | todo | inProgress | inReview | done | canceled
deriving DecidableEq, Repr

/-- Task record; `subtasks` makes it a genuine tree. -/
inductive Task where
  | mk
    (taskID : Str) (title : Str) (description : Option Str)
    (linearIssueKey : Option Str) (status : TaskStatus)
    (subtasks : Option (List Task))
    (uncertainties : Option (List Uncertainty))
    (labels : Option (List Str))

/-- Task identifier field. -/
def Task.taskID : Task → Str
  | .mk a _ _ _ _ _ _ _ => a

/-- Task title field. -/
def Task.title : Task → Str
  | .mk _ a _ _ _ _ _ _ => a

/-- Task description field. -/
def Task.description : Task → Option Str
  | .mk _ _ a _ _ _ _ _ => a

/-- Linear issue key field. -/
def Task.linearIssueKey : Task → Option Str
  | .mk _ _ _ a _ _ _ _ => a

/-- Task status field. -/
def Task.status : Task → TaskStatus
  | .mk _ _ _ _ a _ _ _ => a

/-- Task subtasks field. -/
def Task.subtasks : Task → Option (List Task)
  | .mk _ _ _ _ _ a _ _ => a

/-- Task uncertainties field. -/
def Task.uncertainties : Task → Option (List Uncertainty)
  | .mk _ _ _ _ _ _ a _ => a

/-- Task labels field. -/
def Task.labels : Task → Option (List Str)
  | .mk _ _ _ _ _ _ _ a => a

/-! ### Uncertainty policy (`src/domain/uncertainty/uncertainty-policy.ts`) -/

/-- The resolution mode the policy is parameterized by. -/
inductive UncertaintyMode
  | off | warn | block
deriving DecidableEq, Repr

/-- Inputs accepted wherever the API allows `Uncertainty | string`. -/
inductive UncInput
  | str (s : Str)
  | obj (u : Uncertainty)
deriving DecidableEq

/-- Length of a possibly absent uncertainty list
(`Array.isArray(uncertainties) ? uncertainties.length : 0`). -/
def uncCount (uncertainties : Option (List UncInput)) : Nat :=
  match uncertainties with
  | some l => l.length
  | none => 0

/-- `validateForCreation`: fails iff the effort needs decomposition and the
uncertainty list is empty or absent. -/
def validateForCreation (taskTitle : Str) (effort : Int)
    (uncertainties : Option (List UncInput)) : Except Str Unit :=
  if !(needsDecomposition effort) then .ok ()
  else
    let count := uncCount uncertainties
    if count = 0 then
      .error (chars "Task \"" ++ taskTitle ++ chars "\" has effort " ++ intStr effort
        ++ chars " (>3) but no uncertainties. Add at least one uncertainty before decomposition.")
    else .ok ()

/-- Number of uncertainties lacking both `resolution` and `resolvedAt`. -/
def unresolvedCount (task : Task) : Nat :=
  match task.uncertainties with
  | some us => (us.filter (fun u => !(optTruthy u.resolution) && !(optTruthy u.resolvedAt))).length
  | none => 0

/-- Outcome of the decomposition guard: an optional thrown error and the
advisories written through the bound logger. -/
structure GuardResult where
  thrown : Option Str
  warnings : List Str
deriving DecidableEq, Repr

/-- `handleDecompositionGuard`. -/
def handleDecompositionGuard (mode : UncertaintyMode) (task : Task) : GuardResult :=
  if mode = .off then ⟨none, []⟩
  else
    let n := unresolvedCount task
    if n = 0 then ⟨none, []⟩
    else
      let taskKey := task.linearIssueKey.getD task.taskID
      let message := chars "Task " ++ taskKey ++ chars " has " ++ natDigits n
        ++ chars " unresolved uncertainties"
      if mode = .block then
        ⟨some (message ++ chars ". Resolve them before decomposing using update_task with resolve operation."), []⟩
      else ⟨none, [chars "⚠️  " ++ message ++ chars ". Proceeding anyway (warn mode)."]⟩

/-! ### Task filter (`src/domain/tasks/task-filters.ts`) -/

/-- Runtime shape of the filter spec. -/
structure TaskFilter where
  project : Option Str := none
  status_in : Option (List TaskStatus) := none
  labels_has_every : Option (List Str) := none
  has_unresolved_uncertainties : Option Bool := none
  ready : Option Bool := none
  search : Option Str := none

/-- Caller-supplied filter context. -/
structure TaskFilterContext where
  readyStatuses : Option (List TaskStatus) := none

/-- The unresolved test used by the filter: some uncertainty lacks
`resolution` (only). -/
def taskHasUnresolved (t : Task) : Bool :=
  (t.uncertainties.getD []).any (fun u => !(optTruthy u.resolution))

/-- Status clause: `status_in` when present and non-empty, else the ready
fallback statuses when `ready` is set and a context set is supplied. -/
def clauseStatus (f : TaskFilter) (context : TaskFilterContext) (ts : List Task) : List Task :=
  match f.status_in with
  | some (s :: ss) => ts.filter (fun t => (s :: ss).contains t.status)
  | _ =>
    if f.ready = some true then
      match context.readyStatuses with
      | some rs => ts.filter (fun t => rs.contains t.status)
      | none => ts
    else ts

/-- Labels clause: every requested label present. -/
def clauseLabels (f : TaskFilter) (ts : List Task) : List Task :=
  match f.labels_has_every with
  | some (l :: ls) =>
    ts.filter (fun t => (l :: ls).all (fun lab => (t.labels.getD []).contains lab))
  | _ => ts

/-- Unresolved-uncertainties clause: partitions on `taskHasUnresolved`. -/
def clauseUnresolved (f : TaskFilter) (ts : List Task) : List Task :=
  match f.has_unresolved_uncertainties with
  | some b => ts.filter (fun t => taskHasUnresolved t == b)
  | none => ts

/-- Ready clause: no unresolved uncertainty and no pending-decomposition
label. -/
def clauseReady (f : TaskFilter) (ts : List Task) : List Task :=
  if f.ready = some true then
    ts.filter (fun t =>
      !(taskHasUnresolved t)
      && !((t.labels.getD []).contains (chars "needs-decomposition")))
  else ts

/-- Search clause: case-insensitive substring on title or description. -/
def clauseSearch (f : TaskFilter) (ts : List Task) : List Task :=
  match f.search with
  | some s =>
    if s.length > 0 then
      ts.filter (fun t =>
        occursIn (lowerStr s) (lowerStr t.title)
        || (match t.description with
            | some d => occursIn (lowerStr s) (lowerStr d)
            | none => false))
    else ts
  | none => ts

/-- `filterTasks`: sequential AND-narrowing of the clauses, in source
order. -/
def filterTasks (tasks : List Task) (filter : Option TaskFilter)
    (context : TaskFilterContext) : List Task :=
  match filter with
  | none => tasks
  | some f =>
    clauseSearch f (clauseReady f (clauseUnresolved f (clauseLabels f (clauseStatus f context tasks))))

/-! ### Tree evaluator (`src/domain/tasks/task-tree.ts`)

The source recurses through tasks produced by an external loader, with no
cycle guard; the embedding makes the recursion explicit with a fuel
parameter, `none` meaning the fuel ran out. -/

/-- Enrichment of one subtask: keep it when it carries a populated subtree,
otherwise ask the loader and fall back to the stub. -/
def enrichSubtask (loader : Str → Option Task) (s : Task) : Task :=
  match s.subtasks with
  | some (_ :: _) => s
  | _ => (loader s.taskID).getD s

/-- The subtask loop, short-circuiting on the first non-`true` answer. -/
def subtreeLoop (f : Task → Option Bool) (loader : Str → Option Task) : List Task → Option Bool
  | [] => some true
  | s :: rest =>
    match f (enrichSubtask loader s) with
    | some true => subtreeLoop f loader rest
    | r => r

/-- `isEntireTreeDone`. -/
def isEntireTreeDone (loader : Str → Option Task) : Nat → Task → Option Bool
  | 0, _ => none
  | fuel + 1, task =>
    if task.status ≠ TaskStatus.done then some false
    else
      match task.subtasks with
      | none => some true
      | some subs => subtreeLoop (isEntireTreeDone loader fuel) loader subs

/-! ### Uncertainty normalization and merge
(`normalizeUncertainties` and `addUncertainties` in
`src/integrations/linear/service.ts`) -/

/-- `normalizeUncertainties` on one candidate. -/
def normalizeOne : UncInput → Option Uncertainty
  | .str s =>
    let t := jsTrim s
    if t.isEmpty then none else some { title := t }
  | .obj c =>
    let t := jsTrim c.title
    if t.isEmpty then none
    else some
      { title := t,
        description := match c.description with
          | some d => if (jsTrim d).isEmpty then none else some (jsTrim d)
          | none => none,
        resolution := match c.resolution with
          | some r => if (jsTrim r).isEmpty then none else some (jsTrim r)
          | none => none,
        resolvedAt := match c.resolvedAt with
          | some ra => if (jsTrim ra).isEmpty then none else some (jsTrim ra)
          | none => none,
        resolvedBy := match c.resolvedBy with
          | some rb => if (jsTrim rb).isEmpty then none else some (jsTrim rb)
          | none => none }

/-- `normalizeUncertainties`. -/
def normalizeUncertainties (input : Option (List UncInput)) : List Uncertainty :=
  match input with
  | none => []
  | some l => l.filterMap normalizeOne

/-- The de-duplication key of an uncertainty title
(`title.trim().toLowerCase()`). -/
def titleKey (u : Uncertainty) : Str := lowerStr (jsTrim u.title)

/-- The merge loop of `addUncertainties`: case/whitespace-insensitive title
de-duplication against the seen set, first occurrence winning; only title
and description of a new record are stored. -/
def mergeLoop : List Uncertainty → List Str → List Uncertainty → List Uncertainty
  | [], _, acc => acc
  | u :: rest, seen, acc =>
    let t := jsTrim u.title
    if t.isEmpty || seen.contains (lowerStr t) then mergeLoop rest seen acc
    else mergeLoop rest (seen ++ [lowerStr t]) (acc ++ [{ title := t, description := u.description }])

/-- The metadata-level effect of `addUncertainties` on the stored
uncertainty list (the surrounding parse/re-encode of the description is the
codec, treated separately). -/
def addUncertaintiesMerge (existing : List Uncertainty) (inputs : List UncInput) : List Uncertainty :=
  let norm := normalizeUncertainties (some inputs)
  if norm.isEmpty then existing
  else mergeLoop norm (existing.map titleKey) existing

/-! ### Batch creation (`LinearService.batchCreateTasks`)

The external Linear client is abstracted by an environment giving, per batch
position, the id of the created issue (or `none` for a creation failure);
the calls made against it are recorded in a trace. -/

/-- External dependency reference of a batch item. -/
structure BatchDep where
  taskID : Str
  depType : Str
deriving DecidableEq

/-- Runtime shape of one batch item (fields read by `batchCreateTasks`). -/
structure BatchTaskInput where
  title : Str
  effort : Int
  uncertainties : Option (List UncInput) := none
  dependsOnBatchIndex : Option (List Nat) := none
  dependencies : List BatchDep := []
  labels : Option (List Str) := none

/-- One call against the external store. -/
inductive BatchCall
  | createIssue (index : Nat)
  | addLabels (issueId : Str) (labels : List Str)
  | createComment (issueId : Str) (body : Str)
deriving DecidableEq

/-- The in-batch dependency index checks, in source order: range, self,
forward. -/
def validateBatchIndexes (i n : Nat) : List Nat → Option Str
  | [] => none
  | idx :: rest =>
    if idx ≥ n then
      some (chars "Task " ++ natDigits i ++ chars ": dependsOnBatchIndex[" ++ natDigits idx
        ++ chars "] out of range (batch size: " ++ natDigits n ++ chars ")")
    else if idx = i then
      some (chars "Task " ++ natDigits i ++ chars ": cannot depend on itself")
    else if idx > i then
      some (chars "Task " ++ natDigits i ++ chars ": dependsOnBatchIndex[" ++ natDigits idx
        ++ chars "] references a later task. Dependencies must reference earlier tasks in the batch.")
    else validateBatchIndexes i n rest

/-- Step-1 validation of one batch item. -/
def validateBatchItem (i n : Nat) (t : BatchTaskInput) : Option Str :=
  if !(isFibonacciEffort t.effort) then
    some (chars "Task " ++ natDigits i ++ chars " (\"" ++ t.title
      ++ chars "\") effort must be one of 1, 2, 3, 5, 8, 13, 21, got " ++ intStr t.effort)
  else if t.effort > 3 && (normalizeUncertainties t.uncertainties).isEmpty then
    some (chars "Task " ++ natDigits i ++ chars " (\"" ++ t.title
      ++ chars "\") with effort >3 must include at least one uncertainty")
  else validateBatchIndexes i n (t.dependsOnBatchIndex.getD [])

/-- Step-1 loop over all items, first error wins. -/
def validateBatchAux (n : Nat) : Nat → List BatchTaskInput → Option Str
  | _, [] => none
  | i, t :: rest =>
    match validateBatchItem i n t with
    | some e => some e
    | none => validateBatchAux n (i + 1) rest

/-- The full up-front validation pass of `batchCreateTasks`. -/
def validateBatch (tasks : List BatchTaskInput) : Option Str :=
  validateBatchAux tasks.length 0 tasks

/-- Step-2 creation loop: one `createIssue` then one label write per item;
aborts on a failed creation. -/
def batchCreateLoop (env : Nat → Option Str) :
    Nat → List BatchTaskInput → List Str → List BatchCall → Except Str (List Str) × List BatchCall
  | _, [], ids, trace => (.ok ids, trace)
  | i, t :: rest, ids, trace =>
    let trace1 := trace ++ [.createIssue i]
    match env i with
    | none =>
      (.error (chars "Failed to create task " ++ natDigits i ++ chars " (\"" ++ t.title ++ chars "\")"),
       trace1)
    | some issueId =>
      let allLabels := (t.labels.getD []) ++ [chars "effort:" ++ intStr t.effort]
        ++ (if t.effort > 3 then [chars "needs-decomposition"] else [])
      batchCreateLoop env (i + 1) rest (ids ++ [issueId]) (trace1 ++ [.addLabels issueId allLabels])

/-- Step-3 dependency annotation: one comment per item with dependencies. -/
def batchDepsCalls : Nat → List BatchTaskInput → List Str → List BatchCall
  | _, [], _ => []
  | i, t :: rest, ids =>
    let batchDeps := (t.dependsOnBatchIndex.getD []).map (fun idx => (ids.get? idx).getD [])
    let externalDeps := (t.dependencies.filter (fun d => d.depType == chars "blocked_by")).map
      (fun d => d.taskID)
    let allDeps := batchDeps ++ externalDeps
    (if allDeps.isEmpty then []
     else [.createComment ((ids.get? i).getD [])
       (chars "**Dependencies:** Blocked by " ++ List.intercalate (chars ", ") allDeps)])
    ++ batchDepsCalls (i + 1) rest ids

/-- `batchCreateTasks`: size gate, full validation, sequential creation,
then dependency annotation.  Result: created issue ids and the trace of
external calls. -/
def batchCreateTasks (env : Nat → Option Str) (tasks : List BatchTaskInput) :
    Except Str (List Str) × List BatchCall :=
  if tasks.length = 0 then (.ok [], [])
  else if tasks.length > 50 then (.error (chars "Batch size cannot exceed 50 tasks"), [])
  else
    match validateBatch tasks with
    | some e => (.error e, [])
    | none =>
      match batchCreateLoop env 0 tasks [] [] with
      | (.error e, trace) => (.error e, trace)
      | (.ok ids, trace) => (.ok ids, trace ++ batchDepsCalls 0 tasks ids)

/-! ### Orchestrator `createTask` (`src/workflow-orchestrator.ts`)

The project resolver and the Linear service are abstracted by environment
functions; `logger.log` call sites are modelled as tagged log entries. -/

/-- Runtime shape of `CreateTaskInput` (fields `createTask` reads). -/
structure CreateTaskInput where
  title : Str
  effort : Int
  project : Option Str := none
  effortReason : Option Str := none
  uncertainties : Option (List UncInput) := none

/-- One `logger.log` call site inside `createTask`. -/
inductive LogEntry
  | effortReasonWarning (msg : Str)
  | lowEffortNote (effort : Int)
  | decompositionRequired (issueKey : Str) (effort : Int)
  | highUncertaintyEscalation (count : Nat)
deriving DecidableEq

/-- Project-substitution step of `createTask`: replace the input's project
by the resolved key when one was resolved and differs. -/
def resolveCreateInput (input : CreateTaskInput) (projectKey : Option Str) : CreateTaskInput :=
  match projectKey with
  | some k => if !k.isEmpty && some k ≠ input.project then { input with project := some k } else input
  | none => input

/-- The `logger.log` entries written by a successful `createTask` run, in
call order: the optional effort-reason warning, the optional low-effort
note, then — for efforts needing decomposition — the decomposition advisory
followed by the escalated advisory when the uncertainty count is ≥ 3. -/
def createTaskLogs (createInput : CreateTaskInput) (task : Task) : List LogEntry :=
  (match validateEffortReason createInput.effort createInput.effortReason with
   | some w => [LogEntry.effortReasonWarning w]
   | none => [])
  ++ (if createInput.effort < 3 then [LogEntry.lowEffortNote createInput.effort] else [])
  ++ (if needsDecomposition createInput.effort then
        [LogEntry.decompositionRequired (task.linearIssueKey.getD task.taskID) createInput.effort]
        ++ (match createInput.uncertainties with
            | some us => if us.length ≥ 3 then [LogEntry.highUncertaintyEscalation us.length] else []
            | none => [])
      else [])

/-- `WorkflowOrchestrator.createTask`. -/
def createTask (resolve : Option Str → Except Str (Option Str))
    (linearCreate : CreateTaskInput → Except Str Task)
    (input : CreateTaskInput) : Except Str (Task × List LogEntry) :=
  match resolve input.project with
  | .error e => .error e
  | .ok projectKey =>
    let createInput := resolveCreateInput input projectKey
    match assertValidEffort createInput.effort with
    | .error e => .error e
    | .ok _ =>
      match validateForCreation createInput.title createInput.effort
          (some (createInput.uncertainties.getD [])) with
      | .error e => .error e
      | .ok _ =>
        match linearCreate createInput with
        | .error e => .error e
        | .ok task => .ok (task, createTaskLogs createInput task)

/-! ### Auxiliary transformer used to state resolvedAt-irrelevance (C8) -/

/-- Rewrite every top-level uncertainty's `resolvedAt` field by an arbitrary
function of the record; all other task data unchanged. -/
def setUncResolvedAt (f : Uncertainty → Option Str) : Task → Task
  | .mk id ti d k st sub unc lab =>
    .mk id ti d k st sub (unc.map (fun us => us.map (fun u => { u with resolvedAt := f u }))) lab

/-! ### Concrete inputs used by the claim theorems -/

/-- Metadata whose goal is literally the "Not specified" sentinel text. -/
def goalNotSpecifiedMeta : IssueMetadata :=
  { goal := some (chars "Not specified"), effort := 5, uncertainties := [], lessonsLearned := [] }

/-- Metadata whose goal embeds the end marker followed by a newline. -/
def endInGoalMeta : IssueMetadata :=
  { goal := some (chars "---END-METADATA---" ++ ['\n']), effort := 5,
    uncertainties := [], lessonsLearned := [] }

/-- A description whose metadata block carries the non-Fibonacci effort 4. -/
def effortFourDesc : Str :=
  chars "---WORKFLOW-METADATA---\n**Effort:** 4\n---END-METADATA---"

/-- A fully populated metadata value with codec-safe strings. -/
def cleanMeta : IssueMetadata :=
  { goal := some (chars "Ship it"), effort := 5, effortReason := some (chars "spike"),
    complexityBias := some (chars "high"),
    uncertainties :=
      [{ title := chars "OAuth flow", resolution := some (chars "PKCE") },
       { title := chars "Rate limits", description := some (chars "unknown caps"),
         resolvedBy := some (chars "alice"), resolvedAt := some (chars "2024-01-01") }],
    lessonsLearned :=
      [{ content := chars "use retries", category := some (chars "pattern") },
       { content := chars "plain lesson" }] }

/-- Uncertainty-add input containing "Risk". -/
def riskInputFirst : List UncInput := [UncInput.str (chars "Risk")]

/-- Uncertainty-add input containing "risk " (case/whitespace variant). -/
def riskInputSecond : List UncInput := [UncInput.str (chars "risk ")]

/-- Environment in which every issue creation succeeds with a fresh id. -/
def batchEnvSeq : Nat → Option Str := fun i => some (chars "id-" ++ natDigits i)

/-- The two-item batch where item 1 depends on index 0. -/
def batchOkExample : List BatchTaskInput :=
  [{ title := chars "A", effort := 2 },
   { title := chars "B", effort := 3, dependsOnBatchIndex := some [0] }]

/-- The same batch with item 0 depending on index 1 (a forward reference). -/
def batchForwardExample : List BatchTaskInput :=
  [{ title := chars "A", effort := 2, dependsOnBatchIndex := some [1] },
   { title := chars "B", effort := 3 }]

/-- Resolver environment returning the requested project unchanged. -/
def resolveIdentity : Option Str → Except Str (Option Str) := fun p => .ok p

/-- A fixed task returned by the abstract store. -/
def fixedTask : Task := .mk (chars "task-1") (chars "T") none none .todo none none none

/-- Store environment whose creation always succeeds with `fixedTask`. -/
def linearCreateFixed : CreateTaskInput → Except Str Task := fun _ => .ok fixedTask

/-- A valid effort-5 creation input carrying exactly three uncertainties. -/
def threeUncInput : CreateTaskInput :=
  { title := chars "X", effort := 5, effortReason := some (chars "spike"),
    uncertainties := some [UncInput.str (chars "u1"), UncInput.str (chars "u2"),
      UncInput.str (chars "u3")] }

/-- A valid effort-5 creation input carrying four uncertainties. -/
def fourUncInput : CreateTaskInput :=
  { title := chars "Y", effort := 5, effortReason := some (chars "spike"),
    uncertainties := some [UncInput.str (chars "u1"), UncInput.str (chars "u2"),
      UncInput.str (chars "u3"), UncInput.str (chars "u4")] }

/-- A task with one uncertainty that has `resolvedAt` but no `resolution`. -/
def resolvedAtOnlyTask : Task :=
  .mk (chars "t") (chars "T") none none .todo none
    (some [{ title := chars "q", resolvedAt := some (chars "2024-01-01") }]) none

/-- A done task with no subtasks. -/
def doneLeaf : Task := .mk (chars "c") (chars "C") none none .done none none none

/-- A done parent whose only child is `doneLeaf`. -/
def doneParent : Task := .mk (chars "p") (chars "P") none none .done (some [doneLeaf]) none none

/-- A not-done child that itself has a populated (done) subtree. -/
def todoChildWithKids : Task :=
  .mk (chars "c2") (chars "C2") none none .todo (some [doneLeaf]) none none

/-- A done parent whose first child is `todoChildWithKids`. -/
def mixedParent : Task :=
  .mk (chars "p2") (chars "P2") none none .done (some [todoChildWithKids]) none none

/-- A loader that never finds anything. -/
def emptyLoader : Str → Option Task := fun _ => none

/-- A not-done root used for the tree witness. -/
def todoRoot : Task := .mk (chars "r") (chars "R") none none .todo none none none

/-! ### Side-condition predicates and structural views for the codec proofs -/

/-- The body of the metadata block: every line strictly between the two
sentinel lines, with the same grouping as `buildLines`. -/
def bodyLines (m : IssueMetadata) : List Str :=
  [chars "**Goal:** " ++ jsOr m.goal (chars "Not specified"),
   chars "**Effort:** " ++ natDigits m.effort]
  ++ (match m.effortReason with
      | some r => if r.isEmpty then [] else [chars "**Effort Reason:** " ++ r]
      | none => [])
  ++ (match m.complexityBias with
      | some b => if b.isEmpty then [] else [chars "**Complexity Bias:** " ++ b]
      | none => [])
  ++ ([[], chars "**Uncertainties:**"])
  ++ (m.uncertainties.map uncertaintyLines).flatten
  ++ ([[], chars "**Lessons Learned:**"])
  ++ m.lessonsLearned.map lessonLine

/-- The zero-or-one lines emitted for an optional keyed field (the common
shape of the encoder's optional segments). -/
def optLines (lit : Str) : Option Str → List Str
  | some v => if v.isEmpty then [] else [lit ++ v]
  | none => []

/-- No non-empty suffix of `p` is a prefix of `tok` (rules out a token
occurrence spanning the junction of `p` and whatever follows it). -/
def noSpanB (tok p : Str) : Bool :=
  (List.range p.length).all (fun i => !(leadTok (p.drop i) tok))

/-- Every listed line is free of the token. -/
def linesAvoid (tok : Str) (ls : List Str) : Prop :=
  ∀ l ∈ ls, occursIn tok l = false

/-- A codec-transparent text: line-terminator-free, free of the bold-key
marker `**` and of the end sentinel. -/
def cleanTextB (s : Str) : Bool :=
  s.all isDot && !(occursIn (chars "**") s) && !(occursIn METADATA_END s)

/-- A codec-safe field value: transparent, trimmed and non-empty. -/
def cleanFieldB (s : Str) : Bool :=
  cleanTextB s && (jsTrim s == s) && !s.isEmpty

/-- A codec-safe optional field. -/
def cleanOptFieldB : Option Str → Bool
  | some s => cleanFieldB s
  | none => true

/-- A codec-safe uncertainty: all stored fields safe. -/
def cleanUncertaintyB (u : Uncertainty) : Bool :=
  cleanFieldB u.title && cleanOptFieldB u.description && cleanOptFieldB u.resolution
  && cleanOptFieldB u.resolvedAt && cleanOptFieldB u.resolvedBy

/-- A codec-safe lesson: safe content that cannot fake a category marker, a
valid category when present, and no tags (the encoder drops tags). -/
def cleanLessonB (l : LessonLearned) : Bool :=
  cleanFieldB l.content && !(occursIn (chars "- [") l.content)
  && (match l.category with
      | some c => isLessonCategory c
      | none => true)
  && (match l.tags with
      | some _ => false
      | none => true)

/-- A codec-safe metadata value: the hypothesis set of the amended
round-trip claim. -/
def cleanMetadataB (m : IssueMetadata) : Bool :=
  (match m.goal with
   | some g => cleanFieldB g && !(g == chars "Not specified")
   | none => true)
  && cleanOptFieldB m.effortReason
  && (match m.complexityBias with
      | some b => (b == chars "low") || (b == chars "medium") || (b == chars "high")
      | none => true)
  && m.uncertainties.all cleanUncertaintyB
  && m.lessonsLearned.all cleanLessonB

/-- Freedom from both sentinel tokens. -/
def sentinelFreeB (s : Str) : Bool :=
  !(occursIn METADATA_SEPARATOR s) && !(occursIn METADATA_END s)

/-- A sentinel-free optional field. -/
def sentinelFreeOptB : Option Str → Bool
  | some s => sentinelFreeB s
  | none => true

/-- Every string of the metadata value is free of the sentinel tokens: the
hypothesis of the amended strip claim. -/
def sentinelFreeMetaB (m : IssueMetadata) : Bool :=
  sentinelFreeOptB m.goal && sentinelFreeOptB m.effortReason
  && sentinelFreeOptB m.complexityBias
  && m.uncertainties.all (fun u =>
      sentinelFreeB u.title && sentinelFreeOptB u.description
      && sentinelFreeOptB u.resolution && sentinelFreeOptB u.resolvedAt
      && sentinelFreeOptB u.resolvedBy)
  && m.lessonsLearned.all (fun l =>
      sentinelFreeB l.content && sentinelFreeOptB l.category)

/-! ## Theorems -/

/-- C2: `validateForCreation` throws the missing-uncertainties error iff the
effort exceeds 3 and the uncertainty list is empty or absent; otherwise it
returns unit, i.e. it never fails for effort ≤ 3 and is a no-op when it does
not throw. -/
theorem c2_validateForCreation_iff (title : Str) (effort : Int)
    (us : Option (List UncInput)) :
    ((∃ msg, validateForCreation title effort us = Except.error msg)
      ↔ 3 < effort ∧ uncCount us = 0)
    ∧ (validateForCreation title effort us = Except.ok ()
      ↔ ¬(3 < effort ∧ uncCount us = 0)) := by
  unfold validateForCreation needsDecomposition
  by_cases h : 3 < effort
  · by_cases hc : uncCount us = 0 <;> simp [h, hc]
  · simp [h]

/-- C3: the decomposition guard counts uncertainties with neither
`resolution` nor `resolvedAt`; mode `off` is always a no-op; mode `block`
throws exactly when that count is positive and never warns; mode `warn`
never throws and emits exactly one advisory exactly when that count is
positive. -/
theorem c3_decompositionGuard_characterization (task : Task) :
    handleDecompositionGuard UncertaintyMode.off task = ⟨none, []⟩
    ∧ ((handleDecompositionGuard UncertaintyMode.block task).thrown.isSome
        ↔ 0 < unresolvedCount task)
    ∧ (handleDecompositionGuard UncertaintyMode.block task).warnings = []
    ∧ (handleDecompositionGuard UncertaintyMode.warn task).thrown = none
    ∧ (handleDecompositionGuard UncertaintyMode.warn task).warnings.length
        = (if 0 < unresolvedCount task then 1 else 0) := by
  unfold handleDecompositionGuard
  by_cases h : unresolvedCount task = 0
  · simp [h]
  · have hpos : 0 < unresolvedCount task := Nat.pos_of_ne_zero h
    simp [h, hpos]

/-- C10: `parseMetadata` returns the integer written after the
`**Effort:**` key without any membership check: on a block containing
`**Effort:** 4` it returns effort 4, which is outside the Fibonacci effort
set, so decoding alone does not maintain the data-model effort invariant. -/
theorem c10_parse_effort_unchecked :
    (parseMetadata effortFourDesc).effort = 4
    ∧ isFibonacciEffort 4 = false := by
  constructor
  · rfl
  · rfl

/-- C1 counterexample: the metadata whose goal is literally "Not specified"
contains no sentinel token in any of its strings (nor does the plain text),
yet decoding the encoding loses the goal, so the round-trip claim fails as
stated. -/
theorem c1_roundtrip_counterexample :
    occursIn METADATA_SEPARATOR (chars "Not specified") = false
    ∧ occursIn METADATA_END (chars "Not specified") = false
    ∧ occursIn METADATA_SEPARATOR (chars "Hello") = false
    ∧ occursIn METADATA_END (chars "Hello") = false
    ∧ goalNotSpecifiedMeta.goal = some (chars "Not specified")
    ∧ (parseMetadata (buildDescriptionWithMetadata (chars "Hello") goalNotSpecifiedMeta)).goal
        = none := by
  exact ⟨rfl, rfl, rfl, rfl, rfl, rfl⟩

/-- C9 counterexample: for a plain text free of sentinel tokens but a
metadata value whose goal embeds the end marker and a newline, stripping
the encoding does not return the trimmed plain text, so the claim fails for
unrestricted metadata values. -/
theorem c9_strip_counterexample :
    occursIn METADATA_SEPARATOR (chars "P") = false
    ∧ occursIn METADATA_END (chars "P") = false
    ∧ extractPlainDescription (buildDescriptionWithMetadata (chars "P") endInGoalMeta)
        ≠ jsTrim (chars "P") := by
  refine ⟨rfl, rfl, ?_⟩
  decide

/-- C7: `isEntireTreeDone` returns false whenever the root is not done;
returns true for a done task with no subtasks (absent or empty); returns
true for a done parent whose only child is a done leaf fetched through the
loader fallback; and returns false for a done parent whose first child is
not done, regardless of that child's own populated subtree and of the
remaining children (short-circuit on the first false). -/
theorem c7_isEntireTreeDone_cases :
    (∀ (loader : Str → Option Task) (t : Task) (n : Nat),
      t.status ≠ TaskStatus.done → isEntireTreeDone loader (n + 1) t = some false)
    ∧ (∀ (loader : Str → Option Task) (t : Task) (n : Nat),
      t.status = TaskStatus.done → (t.subtasks = none ∨ t.subtasks = some []) →
      isEntireTreeDone loader (n + 1) t = some true)
    ∧ (∀ (loader : Str → Option Task) (p c : Task) (n : Nat),
      p.status = TaskStatus.done → p.subtasks = some [c] →
      c.status = TaskStatus.done → c.subtasks = none → loader c.taskID = none →
      isEntireTreeDone loader (n + 2) p = some true)
    ∧ (∀ (loader : Str → Option Task) (p c g : Task) (gs rest : List Task) (n : Nat),
      p.status = TaskStatus.done → p.subtasks = some (c :: rest) →
      c.status ≠ TaskStatus.done → c.subtasks = some (g :: gs) →
      isEntireTreeDone loader (n + 2) p = some false) := by
  refine ⟨?_, ?_, ?_, ?_⟩
  · intro loader t n h
    simp [isEntireTreeDone, h]
  · intro loader t n h hsub
    rcases hsub with hsub | hsub <;> simp [isEntireTreeDone, h, hsub, subtreeLoop]
  · intro loader p c n hp hsub hc hcsub hload
    simp [isEntireTreeDone, hp, hsub, subtreeLoop, enrichSubtask, hcsub, hload, hc]
  · intro loader p c g gs rest n hp hsub hc hcsub
    simp [isEntireTreeDone, hp, hsub, subtreeLoop, enrichSubtask, hcsub, hc]

/-- C7 witness: the four cases at concrete trees. -/
theorem c7_isEntireTreeDone_cases_witness :
    isEntireTreeDone emptyLoader 1 todoRoot = some false
    ∧ isEntireTreeDone emptyLoader 1 doneLeaf = some true
    ∧ isEntireTreeDone emptyLoader 2 doneParent = some true
    ∧ isEntireTreeDone emptyLoader 2 mixedParent = some false :=
  ⟨c7_isEntireTreeDone_cases.1 emptyLoader todoRoot 0 (by decide),
   c7_isEntireTreeDone_cases.2.1 emptyLoader doneLeaf 0 rfl (Or.inl rfl),
   c7_isEntireTreeDone_cases.2.2.1 emptyLoader doneParent doneLeaf 0 rfl rfl rfl rfl rfl,
   c7_isEntireTreeDone_cases.2.2.2 emptyLoader mixedParent todoChildWithKids doneLeaf [] [] 0
     rfl rfl (by decide) rfl⟩

/-! ### Helper lemmas for C8 (filter commutes with resolvedAt rewrites) -/

/-- Filtering commutes with mapping a predicate-preserving function. -/
theorem filterMapInv (p : Task → Bool) (g : Task → Task)
    (h : ∀ t, p (g t) = p t) (l : List Task) :
    (l.map g).filter p = (l.filter p).map g := by
  induction l with
  | nil => rfl
  | cons t ts ih =>
    simp only [List.map_cons, List.filter_cons, h t]
    cases hpt : p t <;> simp [hpt, ih]

/-- Rewriting `resolvedAt` does not change an uncertainty's resolution. -/
theorem updResolvedAt_resolution (u : Uncertainty) (v : Option Str) :
    ({ u with resolvedAt := v } : Uncertainty).resolution = u.resolution := rfl

/-- Rewriting `resolvedAt` preserves the filter's unresolved test. -/
theorem setUncResolvedAt_hasUnresolved (rf : Uncertainty → Option Str) (t : Task) :
    taskHasUnresolved (setUncResolvedAt rf t) = taskHasUnresolved t := by
  cases t with
  | mk id ti d k st sub unc lab =>
    cases unc with
    | none => rfl
    | some us =>
      show ((us.map _).any _) = us.any _
      rw [List.any_map]
      rfl

/-- Status clause commutes with a resolvedAt rewrite. -/
theorem clauseStatus_setRA (f : TaskFilter) (ctx : TaskFilterContext)
    (rf : Uncertainty → Option Str) (l : List Task) :
    clauseStatus f ctx (l.map (setUncResolvedAt rf))
      = (clauseStatus f ctx l).map (setUncResolvedAt rf) := by
  unfold clauseStatus
  split
  · exact filterMapInv _ _ (fun t => by cases t; rfl) l
  · split
    · split
      · exact filterMapInv _ _ (fun t => by cases t; rfl) l
      · rfl
    · rfl

/-- Labels clause commutes with a resolvedAt rewrite. -/
theorem clauseLabels_setRA (f : TaskFilter) (rf : Uncertainty → Option Str) (l : List Task) :
    clauseLabels f (l.map (setUncResolvedAt rf))
      = (clauseLabels f l).map (setUncResolvedAt rf) := by
  unfold clauseLabels
  split
  · exact filterMapInv _ _ (fun t => by cases t; rfl) l
  · rfl

/-- Unresolved clause commutes with a resolvedAt rewrite. -/
theorem clauseUnresolved_setRA (f : TaskFilter) (rf : Uncertainty → Option Str) (l : List Task) :
    clauseUnresolved f (l.map (setUncResolvedAt rf))
      = (clauseUnresolved f l).map (setUncResolvedAt rf) := by
  unfold clauseUnresolved
  split
  · exact filterMapInv _ _ (fun t => by rw [setUncResolvedAt_hasUnresolved]) l
  · rfl

/-- Ready clause commutes with a resolvedAt rewrite. -/
theorem clauseReady_setRA (f : TaskFilter) (rf : Uncertainty → Option Str) (l : List Task) :
    clauseReady f (l.map (setUncResolvedAt rf))
      = (clauseReady f l).map (setUncResolvedAt rf) := by
  unfold clauseReady
  split
  · refine filterMapInv _ _ (fun t => ?_) l
    rw [show taskHasUnresolved (setUncResolvedAt rf t) = taskHasUnresolved t from
      setUncResolvedAt_hasUnresolved rf t]
    cases t; rfl
  · rfl

/-- Search clause commutes with a resolvedAt rewrite. -/
theorem clauseSearch_setRA (f : TaskFilter) (rf : Uncertainty → Option Str) (l : List Task) :
    clauseSearch f (l.map (setUncResolvedAt rf))
      = (clauseSearch f l).map (setUncResolvedAt rf) := by
  unfold clauseSearch
  split
  · split
    · exact filterMapInv _ _ (fun t => by cases t; rfl) l
    · rfl
  · rfl

/-- C8: the `has_unresolved_uncertainties` clause partitions strictly on a
missing `resolution` field.  First conjunct: `filterTasks` under any filter
and context commutes with arbitrary rewrites of every `resolvedAt` field, so
`resolvedAt` never affects the result.  Second conjunct: with only that
clause set, the filter keeps exactly the tasks whose unresolved test
(`resolution` missing on some uncertainty) equals the requested boolean.
Remaining conjuncts: a task whose only uncertainty has `resolvedAt` but no
`resolution` is "unresolved" for the filter yet passes the decomposition
guard in block mode, the divergence the claim records. -/
theorem c8_filter_unresolved_resolution_only :
    (∀ (rf : Uncertainty → Option Str) (fl : Option TaskFilter) (ctx : TaskFilterContext)
      (ts : List Task),
      filterTasks (ts.map (setUncResolvedAt rf)) fl ctx
        = (filterTasks ts fl ctx).map (setUncResolvedAt rf))
    ∧ (∀ (b : Bool) (ts : List Task),
      filterTasks ts (some { has_unresolved_uncertainties := some b }) {}
        = ts.filter (fun t => taskHasUnresolved t == b))
    ∧ taskHasUnresolved resolvedAtOnlyTask = true
    ∧ (handleDecompositionGuard UncertaintyMode.block resolvedAtOnlyTask).thrown = none := by
  refine ⟨?_, ?_, rfl, rfl⟩
  · intro rf fl ctx ts
    cases fl with
    | none => rfl
    | some f =>
      show clauseSearch f (clauseReady f (clauseUnresolved f (clauseLabels f
        (clauseStatus f ctx (ts.map (setUncResolvedAt rf)))))) = _
      rw [clauseStatus_setRA, clauseLabels_setRA, clauseUnresolved_setRA, clauseReady_setRA,
        clauseSearch_setRA]
      rfl
  · intro b ts
    rfl

/-! ### Helper lemmas for C6 (trim idempotence and the merge loop) -/

/-- The head surviving `dropWhile` does not satisfy the predicate. -/
theorem dropWhile_head_false (p : Char → Bool) (l : Str) (c : Char) (cs : Str)
    (h : l.dropWhile p = c :: cs) : p c = false := by
  induction l with
  | nil => simp at h
  | cons a as ih =>
    rw [List.dropWhile_cons] at h
    cases hpa : p a
    · rw [hpa] at h
      simp at h
      rw [h.1] at hpa
      exact hpa
    · rw [hpa] at h
      simp at h
      exact ih h

/-- `dropWhile` is idempotent. -/
theorem dropWhile_idem (p : Char → Bool) (l : Str) :
    (l.dropWhile p).dropWhile p = l.dropWhile p := by
  cases h : l.dropWhile p with
  | nil => rfl
  | cons c cs =>
    rw [List.dropWhile_cons, dropWhile_head_false p l c cs h]
    simp

/-- Trimming the right-hand end of a left-trimmed string keeps it
left-trimmed. -/
theorem trim_right_pres (p : Char → Bool) (x : Str) (hx : x.dropWhile p = x) :
    ((x.reverse.dropWhile p).reverse).dropWhile p = (x.reverse.dropWhile p).reverse := by
  obtain ⟨t, ht⟩ := List.dropWhile_suffix (l := x.reverse) p
  have hx2 : x = (x.reverse.dropWhile p).reverse ++ t.reverse := by
    have h := congrArg List.reverse ht
    simpa [List.reverse_append] using h.symm
  cases hyr : (x.reverse.dropWhile p).reverse with
  | nil => simp [hyr]
  | cons c cs =>
    have hxc : x = c :: (cs ++ t.reverse) := by rw [hx2, hyr]; simp
    have hpc : p c = false := by
      refine dropWhile_head_false p x c (cs ++ t.reverse) ?_
      rw [hx, hxc]
    rw [List.dropWhile_cons, hpc]
    simp

/-- JS `trim` is idempotent. -/
theorem jsTrim_idem (s : Str) : jsTrim (jsTrim s) = jsTrim s := by
  have h1 : (jsTrim s).dropWhile isWs = jsTrim s :=
    trim_right_pres isWs (s.dropWhile isWs) (dropWhile_idem isWs s)
  have h2 : (jsTrim s).reverse.dropWhile isWs = (jsTrim s).reverse := by
    show ((((s.dropWhile isWs).reverse.dropWhile isWs).reverse).reverse).dropWhile isWs
      = (((s.dropWhile isWs).reverse.dropWhile isWs).reverse).reverse
    simp only [List.reverse_reverse]
    exact dropWhile_idem isWs (s.dropWhile isWs).reverse
  show (((jsTrim s).dropWhile isWs).reverse.dropWhile isWs).reverse = jsTrim s
  rw [h1, h2, List.reverse_reverse]

/-- Elements of a normalized uncertainty list have trimmed, non-empty
titles. -/
theorem norm_elem_title (inp : List UncInput) (u : Uncertainty)
    (hu : u ∈ normalizeUncertainties (some inp)) :
    jsTrim u.title = u.title ∧ u.title.isEmpty = false := by
  rw [show normalizeUncertainties (some inp) = inp.filterMap normalizeOne from rfl] at hu
  obtain ⟨x, _, hx⟩ := List.mem_filterMap.mp hu
  cases x with
  | str s =>
    simp only [normalizeOne] at hx
    by_cases he : (jsTrim s).isEmpty
    · simp [he] at hx
    · rw [if_neg (by simpa using he)] at hx
      obtain rfl := Option.some.inj hx
      exact ⟨jsTrim_idem s, by simpa using he⟩
  | obj c =>
    simp only [normalizeOne] at hx
    by_cases he : (jsTrim c.title).isEmpty
    · simp [he] at hx
    · rw [if_neg (by simpa using he)] at hx
      obtain rfl := Option.some.inj hx
      exact ⟨jsTrim_idem c.title, by simpa using he⟩

/-- The merge loop appends only records with fresh, mutually distinct
de-duplication keys. -/
theorem mergeLoop_spec (rest : List Uncertainty) :
    ∀ (seen : List Str) (acc : List Uncertainty),
      ∃ added, mergeLoop rest seen acc = acc ++ added
        ∧ (added.map titleKey).Nodup
        ∧ ∀ k ∈ added.map titleKey, k ∉ seen := by
  induction rest with
  | nil => intro seen acc; exact ⟨[], by simp [mergeLoop], by simp, by simp⟩
  | cons u rest ih =>
    intro seen acc
    cases hcond : ((jsTrim u.title).isEmpty || seen.contains (lowerStr (jsTrim u.title))) with
    | true =>
      obtain ⟨added, h1, h2, h3⟩ := ih seen acc
      exact ⟨added, by rw [mergeLoop, hcond]; exact h1, h2, h3⟩
    | false =>
      obtain ⟨added, h1, h2, h3⟩ :=
        ih (seen ++ [lowerStr (jsTrim u.title)])
          (acc ++ [{ title := jsTrim u.title, description := u.description }])
      have hkey : titleKey { title := jsTrim u.title, description := u.description } =
          lowerStr (jsTrim u.title) := by
        show lowerStr (jsTrim (jsTrim u.title)) = _
        rw [jsTrim_idem]
      have hnotin : lowerStr (jsTrim u.title) ∉ added.map titleKey := by
        intro hmem
        exact (h3 _ hmem) (by simp)
      have hseen : lowerStr (jsTrim u.title) ∉ seen := by
        intro hmem
        have hc : seen.contains (lowerStr (jsTrim u.title)) = true := List.elem_iff.mpr hmem
        rw [Bool.or_eq_false_iff] at hcond
        rw [hcond.2] at hc
        cases hc
      refine ⟨{ title := jsTrim u.title, description := u.description } :: added, ?_, ?_, ?_⟩
      · rw [mergeLoop, hcond]
        rw [h1, List.append_assoc]
        rfl
      · simp only [List.map_cons, List.nodup_cons, hkey]
        exact ⟨hnotin, h2⟩
      · intro k hk
        simp only [List.map_cons, List.mem_cons, hkey] at hk
        rcases hk with rfl | hk
        · exact hseen
        · intro hmem
          exact (h3 k hk) (by simp [hmem])

/-- A loop whose every candidate key is already seen adds nothing. -/
theorem mergeLoop_all_seen (rest : List Uncertainty) :
    ∀ seen acc,
      (∀ u ∈ rest, (jsTrim u.title).isEmpty = true ∨ lowerStr (jsTrim u.title) ∈ seen) →
      mergeLoop rest seen acc = acc := by
  induction rest with
  | nil => intro seen acc _; rfl
  | cons u rest ih =>
    intro seen acc h
    have hu := h u (by simp)
    have hcond : ((jsTrim u.title).isEmpty || seen.contains (lowerStr (jsTrim u.title))) = true := by
      rcases hu with hu | hu
      · rw [hu, Bool.true_or]
      · have hc : seen.contains (lowerStr (jsTrim u.title)) = true := List.elem_iff.mpr hu
        rw [hc, Bool.or_true]
    rw [mergeLoop, hcond]
    exact ih seen acc (fun v hv => h v (by simp [hv]))

/-- After the loop, every non-empty candidate key is present in the result's
key set (either it was already seen into the accumulator or it was added). -/
theorem mergeLoop_keys (rest : List Uncertainty) :
    ∀ seen acc, (∀ k ∈ seen, k ∈ acc.map titleKey) →
      ∀ u ∈ rest, (jsTrim u.title).isEmpty = true
        ∨ lowerStr (jsTrim u.title) ∈ (mergeLoop rest seen acc).map titleKey := by
  induction rest with
  | nil => intro seen acc _ u hu; simp at hu
  | cons v rest ih =>
    intro seen acc hseen u hu
    cases hcond : ((jsTrim v.title).isEmpty || seen.contains (lowerStr (jsTrim v.title))) with
    | true =>
      rw [show mergeLoop (v :: rest) seen acc = mergeLoop rest seen acc by
        rw [mergeLoop, hcond]; rfl]
      rcases List.mem_cons.mp hu with rfl | hu
      · cases hb : (jsTrim u.title).isEmpty
        · right
          rw [hb, Bool.false_or] at hcond
          have hus : lowerStr (jsTrim u.title) ∈ seen := List.elem_iff.mp hcond
          have hacc := hseen _ hus
          obtain ⟨added, h1, _, _⟩ := mergeLoop_spec rest seen acc
          rw [h1]
          simp only [List.map_append, List.mem_append]
          exact Or.inl hacc
        · exact Or.inl rfl
      · exact ih seen acc hseen u hu
    | false =>
      rw [show mergeLoop (v :: rest) seen acc
          = mergeLoop rest (seen ++ [lowerStr (jsTrim v.title)])
              (acc ++ [({ title := jsTrim v.title, description := v.description } : Uncertainty)]) by
        rw [mergeLoop, hcond]; rfl]
      have hkey : titleKey { title := jsTrim v.title, description := v.description } =
          lowerStr (jsTrim v.title) := by
        show lowerStr (jsTrim (jsTrim v.title)) = _
        rw [jsTrim_idem]
      have hseen' : ∀ k ∈ seen ++ [lowerStr (jsTrim v.title)],
          k ∈ (acc ++ [({ title := jsTrim v.title, description := v.description } : Uncertainty)]).map titleKey := by
        intro k hk
        simp only [List.mem_append, List.mem_singleton] at hk
        simp only [List.map_append, List.mem_append, List.map_cons, List.map_nil]
        rcases hk with hk | rfl
        · exact Or.inl (hseen k hk)
        · exact Or.inr (by simp [hkey])
      rcases List.mem_cons.mp hu with rfl | hu
      · right
        have hin : lowerStr (jsTrim u.title)
            ∈ ((acc ++ [({ title := jsTrim u.title, description := u.description } : Uncertainty)]).map titleKey) := by
          simp [hkey]
        obtain ⟨added, h1, _, _⟩ := mergeLoop_spec rest
          (seen ++ [lowerStr (jsTrim u.title)])
          (acc ++ [({ title := jsTrim u.title, description := u.description } : Uncertainty)])
        rw [h1]
        simp only [List.map_append, List.mem_append] at hin ⊢
        rcases hin with h | h
        · exact Or.inl (Or.inl h)
        · exact Or.inl (Or.inr h)
      · exact ih _ _ hseen' u hu

/-- C6: the uncertainty add de-duplicates by case- and whitespace-insensitive
title.  First conjunct: the concrete scenario — adding "Risk" and then
"risk " to an empty task leaves exactly one stored uncertainty titled
"Risk".  Second conjunct: the add is idempotent — replaying the same input
against the merged result changes nothing.  Third conjunct: the merge only
ever appends records whose de-duplication keys are fresh with respect to
the existing records and mutually distinct (duplicates silently dropped,
first occurrence winning). -/
theorem c6_addUncertainties_dedup :
    (addUncertaintiesMerge (addUncertaintiesMerge [] riskInputFirst) riskInputSecond
        = [{ title := chars "Risk" }])
    ∧ (∀ (ex : List Uncertainty) (inp : List UncInput),
        addUncertaintiesMerge (addUncertaintiesMerge ex inp) inp = addUncertaintiesMerge ex inp)
    ∧ (∀ (ex : List Uncertainty) (inp : List UncInput),
        ∃ added, addUncertaintiesMerge ex inp = ex ++ added
          ∧ (added.map titleKey).Nodup
          ∧ ∀ k ∈ added.map titleKey, k ∉ ex.map titleKey) := by
  refine ⟨by decide, ?_, ?_⟩
  · intro ex inp
    by_cases hn : (normalizeUncertainties (some inp)).isEmpty
    · rw [show addUncertaintiesMerge ex inp = ex by rw [addUncertaintiesMerge]; simp [hn]]
      rw [addUncertaintiesMerge]; simp [hn]
    · have hfirst : addUncertaintiesMerge ex inp
          = mergeLoop (normalizeUncertainties (some inp)) (ex.map titleKey) ex := by
        rw [addUncertaintiesMerge]; simp [hn]
      rw [hfirst, addUncertaintiesMerge]
      simp only [hn, Bool.false_eq_true, if_false]
      apply mergeLoop_all_seen
      intro u hu
      right
      have hkeys := mergeLoop_keys (normalizeUncertainties (some inp))
        (ex.map titleKey) ex (fun k hk => hk) u hu
      rcases hkeys with hk | hk
      · have := (norm_elem_title inp u hu).2
        rw [(norm_elem_title inp u hu).1] at hk
        rw [this] at hk
        simp at hk
      · exact hk
  · intro ex inp
    by_cases hn : (normalizeUncertainties (some inp)).isEmpty
    · refine ⟨[], by rw [addUncertaintiesMerge]; simp [hn], by simp, by simp⟩
    · obtain ⟨added, h1, h2, h3⟩ :=
        mergeLoop_spec (normalizeUncertainties (some inp)) (ex.map titleKey) ex
      refine ⟨added, ?_, h2, h3⟩
      rw [addUncertaintiesMerge]
      simp only [hn, Bool.false_eq_true, if_false]
      exact h1

/-! ### Helper lemmas for C4 (batch-create validation) -/

/-- An index list passing the range/self/forward checks references only
strictly earlier batch positions (which are in range a fortiori). -/
theorem validateBatchIndexes_none (idxs : List Nat) :
    ∀ i n, validateBatchIndexes i n idxs = none → ∀ idx ∈ idxs, idx < i ∧ idx < n := by
  induction idxs with
  | nil => intro i n _ idx h; simp at h
  | cons idx0 rest ih =>
    intro i n h idx hidx
    rw [validateBatchIndexes] at h
    by_cases h1 : idx0 ≥ n
    · rw [if_pos h1] at h; cases h
    · rw [if_neg h1] at h
      by_cases h2 : idx0 = i
      · rw [if_pos h2] at h; cases h
      · rw [if_neg h2] at h
        by_cases h3 : idx0 > i
        · rw [if_pos h3] at h; cases h
        · rw [if_neg h3] at h
          rcases List.mem_cons.mp hidx with rfl | hidx
          · omega
          · exact ih i n h idx hidx

/-- A batch item passing validation has passed its index checks. -/
theorem validateBatchItem_none (i n : Nat) (t : BatchTaskInput)
    (h : validateBatchItem i n t = none) :
    validateBatchIndexes i n (t.dependsOnBatchIndex.getD []) = none := by
  rw [validateBatchItem] at h
  by_cases h1 : isFibonacciEffort t.effort
  · rw [if_neg (by simp [h1])] at h
    by_cases h2 : (t.effort > 3 && (normalizeUncertainties t.uncertainties).isEmpty) = true
    · rw [if_pos h2] at h; cases h
    · rw [if_neg h2] at h; exact h
  · rw [if_pos (by simp [h1])] at h; cases h

/-- The validation loop checks item `j + i` against the whole batch size. -/
theorem validateBatchAux_none (l : List BatchTaskInput) :
    ∀ n j, validateBatchAux n j l = none →
      ∀ i t, l.get? i = some t → validateBatchItem (j + i) n t = none := by
  induction l with
  | nil => intro n j _ i t h; simp at h
  | cons t0 rest ih =>
    intro n j h i t hget
    rw [validateBatchAux] at h
    cases hv : validateBatchItem j n t0 with
    | some e => rw [hv] at h; cases h
    | none =>
      rw [hv] at h
      cases i with
      | zero =>
        obtain rfl := Option.some.inj hget
        simpa using hv
      | succ i =>
        have := ih n (j + 1) h i t (by simpa using hget)
        simpa [Nat.add_assoc, Nat.add_comm 1 i] using this

/-- C4: `batchCreateTasks` validates every item before creating anything:
whenever the up-front validation rejects the batch, the call fails and the
trace of external calls is empty; a batch that validates has every
`dependsOnBatchIndex` entry strictly earlier than its own position (hence
in range and non-self); the two-item batch where item 1 depends on index 0
succeeds, while the same batch with item 0 depending on index 1 fails with
the forward-dependency error before any create call. -/
theorem c4_batchCreate_validation :
    (∀ (env : Nat → Option Str) (tasks : List BatchTaskInput),
      validateBatch tasks ≠ none →
      (∃ e, (batchCreateTasks env tasks).1 = Except.error e)
        ∧ (batchCreateTasks env tasks).2 = [])
    ∧ (∀ (tasks : List BatchTaskInput), validateBatch tasks = none →
        ∀ i t, tasks.get? i = some t →
          ∀ idx ∈ t.dependsOnBatchIndex.getD [], idx < i ∧ idx < tasks.length)
    ∧ (batchCreateTasks batchEnvSeq batchOkExample).1
        = Except.ok [chars "id-0", chars "id-1"]
    ∧ batchCreateTasks batchEnvSeq batchForwardExample
        = (Except.error (chars "Task 0: dependsOnBatchIndex[1] references a later task. Dependencies must reference earlier tasks in the batch."), []) := by
  refine ⟨?_, ?_, rfl, rfl⟩
  · intro env tasks hval
    rw [batchCreateTasks]
    by_cases h0 : tasks.length = 0
    · exfalso
      apply hval
      rw [List.length_eq_zero.mp h0]
      rfl
    · rw [if_neg h0]
      by_cases h50 : tasks.length > 50
      · rw [if_pos h50]
        exact ⟨⟨_, rfl⟩, rfl⟩
      · rw [if_neg h50]
        cases hv : validateBatch tasks with
        | none => exact absurd hv hval
        | some e => exact ⟨⟨e, rfl⟩, rfl⟩
  · intro tasks hval i t hget idx hidx
    have hitem := validateBatchAux_none tasks tasks.length 0 hval i t hget
    rw [Nat.zero_add] at hitem
    exact validateBatchIndexes_none (t.dependsOnBatchIndex.getD []) i tasks.length
      (validateBatchItem_none i tasks.length t hitem) idx hidx

/-- C4 witness: the general conjuncts applied at the concrete batches. -/
theorem c4_batchCreate_validation_witness :
    ((∃ e, (batchCreateTasks batchEnvSeq batchForwardExample).1 = Except.error e)
      ∧ (batchCreateTasks batchEnvSeq batchForwardExample).2 = [])
    ∧ (0 < 1 ∧ 0 < batchOkExample.length) :=
  ⟨c4_batchCreate_validation.1 batchEnvSeq batchForwardExample (by decide),
   c4_batchCreate_validation.2.1 batchOkExample rfl 1
     { title := chars "B", effort := 3, dependsOnBatchIndex := some [0] } rfl 0
     (by decide)⟩

/-! ### C5: the orchestrator's high-uncertainty escalation threshold -/

/-- C5 counterexample: a successful effort-5 creation with exactly three
uncertainties emits the escalated high-uncertainty advisory, so "if and
only if the count is ≥ 4" is false on the code (the source condition is
`length >= 3`). -/
theorem c5_createTask_escalation_counterexample :
    createTask resolveIdentity linearCreateFixed threeUncInput
      = Except.ok (fixedTask,
          [LogEntry.decompositionRequired (chars "task-1") 5,
           LogEntry.highUncertaintyEscalation 3])
    ∧ LogEntry.highUncertaintyEscalation 3
        ∈ [LogEntry.decompositionRequired (chars "task-1") 5,
           LogEntry.highUncertaintyEscalation 3]
    ∧ uncCount threeUncInput.uncertainties = 3
    ∧ ¬(4 ≤ uncCount threeUncInput.uncertainties) := by
  refine ⟨rfl, by simp, rfl, by decide⟩

/-- Project substitution changes at most the project field. -/
theorem resolveCreateInput_fields (input : CreateTaskInput) (pk : Option Str) :
    (resolveCreateInput input pk).effort = input.effort
    ∧ (resolveCreateInput input pk).uncertainties = input.uncertainties := by
  cases pk with
  | none => exact ⟨rfl, rfl⟩
  | some k =>
    rw [resolveCreateInput]
    split
    · exact ⟨rfl, rfl⟩
    · exact ⟨rfl, rfl⟩

/-- Inversion of a successful `createTask` run: the resolver succeeded, the
creation validation passed, and the logs are exactly `createTaskLogs` of
the substituted input and the created task. -/
theorem createTask_ok_inv (resolve : Option Str → Except Str (Option Str))
    (linearCreate : CreateTaskInput → Except Str Task)
    (input : CreateTaskInput) (task : Task) (logs : List LogEntry)
    (hok : createTask resolve linearCreate input = Except.ok (task, logs)) :
    ∃ pk, resolve input.project = Except.ok pk
      ∧ validateForCreation (resolveCreateInput input pk).title
          (resolveCreateInput input pk).effort
          (some ((resolveCreateInput input pk).uncertainties.getD [])) = Except.ok ()
      ∧ logs = createTaskLogs (resolveCreateInput input pk) task := by
  rw [createTask] at hok
  cases hr : resolve input.project with
  | error e => rw [hr] at hok; cases hok
  | ok pk =>
    rw [hr] at hok
    dsimp only at hok
    cases ha : assertValidEffort (resolveCreateInput input pk).effort with
    | error e => rw [ha] at hok; cases hok
    | ok u =>
      rw [ha] at hok
      cases u
      cases hv : validateForCreation (resolveCreateInput input pk).title
          (resolveCreateInput input pk).effort
          (some ((resolveCreateInput input pk).uncertainties.getD [])) with
      | error e => rw [hv] at hok; cases hok
      | ok u2 =>
        rw [hv] at hok
        cases u2
        cases hl : linearCreate (resolveCreateInput input pk) with
        | error e => rw [hl] at hok; cases hok
        | ok t2 =>
          rw [hl] at hok
          simp only [Except.ok.injEq, Prod.mk.injEq] at hok
          obtain ⟨rfl, hlg⟩ := hok
          exact ⟨pk, rfl, hv, hlg.symm⟩

/-- C5 (amended): on every environment and input for which `createTask`
succeeds and whose effort exceeds 3, the decomposition advisory is emitted,
and the escalated high-uncertainty advisory is emitted if and only if the
input's uncertainty count is at least 3 (the source tests `length >= 3`,
not `>= 4`). -/
theorem c5_createTask_escalation_amended
    (resolve : Option Str → Except Str (Option Str))
    (linearCreate : CreateTaskInput → Except Str Task)
    (input : CreateTaskInput) (task : Task) (logs : List LogEntry)
    (hok : createTask resolve linearCreate input = Except.ok (task, logs))
    (heff : 3 < input.effort) :
    LogEntry.decompositionRequired (task.linearIssueKey.getD task.taskID) input.effort ∈ logs
    ∧ ((∃ n, LogEntry.highUncertaintyEscalation n ∈ logs)
        ↔ 3 ≤ uncCount input.uncertainties) := by
  obtain ⟨pk, hr, hval, hlogs⟩ := createTask_ok_inv resolve linearCreate input task logs hok
  obtain ⟨heqe, hequ⟩ := resolveCreateInput_fields input pk
  subst hlogs
  rw [createTaskLogs]
  have hnd : needsDecomposition (resolveCreateInput input pk).effort = true := by
    rw [heqe]
    simpa [needsDecomposition] using heff
  rw [if_pos hnd, heqe]
  constructor
  · exact List.mem_append.mpr (Or.inr (List.mem_append.mpr (Or.inl (by simp))))
  · constructor
    · rintro ⟨n, hn⟩
      rcases List.mem_append.mp hn with hAB | hC
      · exfalso
        rcases List.mem_append.mp hAB with hA | hB
        · cases hvr : validateEffortReason input.effort
            (resolveCreateInput input pk).effortReason with
          | none => rw [hvr] at hA; simp at hA
          | some w => rw [hvr] at hA; simp at hA
        · by_cases hlt : input.effort < 3
          · rw [if_pos hlt] at hB; simp at hB
          · rw [if_neg hlt] at hB; simp at hB
      · rcases List.mem_append.mp hC with hD | hE
        · exfalso; simp at hD
        · cases hu : (resolveCreateInput input pk).uncertainties with
          | none => rw [hu] at hE; simp at hE
          | some us =>
            rw [hu] at hE
            by_cases h3 : us.length ≥ 3
            · have hiu : input.uncertainties = some us := by rw [← hequ, hu]
              rw [hiu]
              exact h3
            · simp [h3] at hE
    · intro h3
      cases hu : (resolveCreateInput input pk).uncertainties with
      | none =>
        exfalso
        have hiu : input.uncertainties = none := by rw [← hequ, hu]
        rw [hiu] at h3
        exact Nat.not_succ_le_zero 2 h3
      | some us =>
        have hiu : input.uncertainties = some us := by rw [← hequ, hu]
        rw [hiu] at h3
        have h3' : us.length ≥ 3 := h3
        refine ⟨us.length, ?_⟩
        refine List.mem_append.mpr (Or.inr (List.mem_append.mpr (Or.inr ?_)))
        simp [h3']

/-- C5 (amended) witness: the amended statement at a concrete successful
four-uncertainty run. -/
theorem c5_createTask_escalation_amended_witness :
    LogEntry.decompositionRequired
        (fixedTask.linearIssueKey.getD fixedTask.taskID) fourUncInput.effort
      ∈ [LogEntry.decompositionRequired (chars "task-1") 5,
         LogEntry.highUncertaintyEscalation 4]
    ∧ ((∃ n, LogEntry.highUncertaintyEscalation n
          ∈ [LogEntry.decompositionRequired (chars "task-1") 5,
             LogEntry.highUncertaintyEscalation 4])
        ↔ 3 ≤ uncCount fourUncInput.uncertainties) :=
  c5_createTask_escalation_amended resolveIdentity linearCreateFixed fourUncInput fixedTask
    [LogEntry.decompositionRequired (chars "task-1") 5,
     LogEntry.highUncertaintyEscalation 4] rfl (by decide)

/-! ### Occurrence toolkit for the codec round-trip proofs -/

/-- A token is a leading token of itself followed by anything. -/
theorem leadTok_append_self (a b : Str) : leadTok a (a ++ b) = true := by
  induction a with
  | nil => rfl
  | cons c cs ih => simp [leadTok, ih]

/-- A token is a leading token of itself. -/
theorem leadTok_refl (a : Str) : leadTok a a = true := by
  have h := leadTok_append_self a []
  rwa [List.append_nil] at h

/-- A prefix of a matching token also matches. -/
theorem leadTok_mono (a b s : Str) (h : leadTok (a ++ b) s = true) : leadTok a s = true := by
  induction a generalizing s with
  | nil => rfl
  | cons c cs ih =>
    cases s with
    | nil => simp [leadTok] at h
    | cons d ds =>
      rw [List.cons_append] at h
      simp only [leadTok, Bool.and_eq_true] at h ⊢
      exact ⟨h.1, ih ds h.2⟩

/-- Splitting a leading-token match across an append. -/
theorem leadTok_split (tok x y : Str) (h : leadTok tok (x ++ y) = true) :
    leadTok tok x = true ∨ ∃ t2, tok = x ++ t2 ∧ leadTok t2 y = true := by
  induction tok generalizing x with
  | nil => exact Or.inl rfl
  | cons p ps ih =>
    cases x with
    | nil => exact Or.inr ⟨p :: ps, rfl, h⟩
    | cons c cs =>
      rw [List.cons_append] at h
      simp only [leadTok, Bool.and_eq_true] at h
      rcases ih cs h.2 with h1 | ⟨t2, ht, hl⟩
      · refine Or.inl ?_
        simp only [leadTok, Bool.and_eq_true]
        exact ⟨h.1, h1⟩
      · refine Or.inr ⟨t2, ?_, hl⟩
        rw [List.cons_append, eq_of_beq h.1, ht]

/-- `occursIn` unfolded one character. -/
theorem occursIn_cons_eq (tok : Str) (c : Char) (s : Str) :
    occursIn tok (c :: s) = (leadTok tok (c :: s) || occursIn tok s) := by
  rw [occursIn, occursIn, firstOcc]
  cases h : leadTok tok (c :: s)
  · simp
  · simp

/-- A leading-token match at any offset yields an occurrence. -/
theorem occ_of_lead_drop (tok s : Str) (i : Nat) (h : leadTok tok (s.drop i) = true) :
    occursIn tok s = true := by
  induction s generalizing i with
  | nil =>
    rw [List.drop_nil] at h
    cases tok with
    | nil => rfl
    | cons p ps => simp [leadTok] at h
  | cons d ds ih =>
    rw [occursIn_cons_eq]
    cases i with
    | zero =>
      rw [List.drop_zero] at h
      rw [h, Bool.true_or]
    | succ j =>
      have hj := ih j (by simpa using h)
      rw [hj, Bool.or_true]

/-- Occurrence in an append, characterized positionally. -/
theorem occursIn_append_iff (tok a b : Str) :
    occursIn tok (a ++ b) = true ↔
      (∃ i, i < a.length ∧ leadTok tok (a.drop i ++ b) = true) ∨ occursIn tok b = true := by
  induction a with
  | nil =>
    simp only [List.nil_append, List.length_nil]
    constructor
    · exact fun h => Or.inr h
    · rintro (⟨i, hi, -⟩ | h)
      · omega
      · exact h
  | cons c cs ih =>
    rw [List.cons_append, occursIn_cons_eq, Bool.or_eq_true, ih]
    constructor
    · rintro (h | ⟨i, hi, hl⟩ | h)
      · exact Or.inl ⟨0, by simp, by simpa using h⟩
      · exact Or.inl ⟨i + 1, by simp only [List.length_cons]; omega, by simpa using hl⟩
      · exact Or.inr h
    · rintro (⟨i, hi, hl⟩ | h)
      · cases i with
        | zero => exact Or.inl (by simpa using hl)
        | succ j =>
          refine Or.inr (Or.inl ⟨j, ?_, by simpa using hl⟩)
          simp only [List.length_cons] at hi
          omega
      · exact Or.inr (Or.inr h)

/-- Every character of a matched token appears in the text. -/
theorem leadTok_mem (tok r : Str) (h : leadTok tok r = true) : ∀ c ∈ tok, c ∈ r := by
  induction tok generalizing r with
  | nil =>
    intro c hc
    cases hc
  | cons p ps ih =>
    cases r with
    | nil => simp [leadTok] at h
    | cons d ds =>
      simp only [leadTok, Bool.and_eq_true] at h
      intro c hc
      rcases List.mem_cons.mp hc with rfl | hc
      · rw [eq_of_beq h.1]
        exact List.mem_cons_self _ _
      · exact List.mem_cons_of_mem _ (ih ds h.2 c hc)

/-- The first occurrence is a leading-token match at its index. -/
theorem firstOcc_lead (tok s : Str) (i : Nat) (h : firstOcc tok s = some i) :
    leadTok tok (s.drop i) = true := by
  induction s generalizing i with
  | nil =>
    rw [firstOcc] at h
    by_cases ht : tok.isEmpty
    · rw [if_pos ht] at h
      obtain rfl := Option.some.inj h
      rw [List.isEmpty_iff] at ht
      subst ht
      rfl
    · rw [if_neg ht] at h
      simp at h
  | cons c cs ih =>
    rw [firstOcc] at h
    by_cases hl : leadTok tok (c :: cs) = true
    · rw [if_pos hl] at h
      obtain rfl := Option.some.inj h
      simpa using hl
    · rw [if_neg hl] at h
      cases ho : firstOcc tok cs with
      | none =>
        rw [ho] at h
        simp at h
      | some j =>
        rw [ho] at h
        simp only [Option.map_some'] at h
        obtain rfl := Option.some.inj h
        simpa using ih j ho

/-- Before the first occurrence there is no match. -/
theorem firstOcc_min (tok s : Str) (i j : Nat) (h : firstOcc tok s = some i) (hj : j < i) :
    leadTok tok (s.drop j) = false := by
  induction s generalizing i j with
  | nil =>
    rw [firstOcc] at h
    by_cases ht : tok.isEmpty
    · rw [if_pos ht] at h
      obtain rfl := Option.some.inj h
      omega
    · rw [if_neg ht] at h
      simp at h
  | cons c cs ih =>
    rw [firstOcc] at h
    by_cases hl : leadTok tok (c :: cs) = true
    · rw [if_pos hl] at h
      obtain rfl := Option.some.inj h
      omega
    · rw [if_neg hl] at h
      cases ho : firstOcc tok cs with
      | none =>
        rw [ho] at h
        simp at h
      | some i' =>
        rw [ho] at h
        simp only [Option.map_some'] at h
        obtain rfl := Option.some.inj h
        cases j with
        | zero =>
          rw [List.drop_zero]
          exact Bool.eq_false_iff.mpr hl
        | succ j' =>
          simpa using ih i' j' ho (by omega)

/-- Introduction rule for `firstOcc`. -/
theorem firstOcc_intro (tok s : Str) (i : Nat) (hi : leadTok tok (s.drop i) = true)
    (hmin : ∀ j, j < i → leadTok tok (s.drop j) = false) : firstOcc tok s = some i := by
  induction s generalizing i with
  | nil =>
    rw [List.drop_nil] at hi
    have ht : tok = [] := by
      cases tok with
      | nil => rfl
      | cons p ps => simp [leadTok] at hi
    subst ht
    have hiz : i = 0 := by
      by_contra hne
      have h0 := hmin 0 (by omega)
      rw [List.drop_nil] at h0
      simp [leadTok] at h0
    subst hiz
    rfl
  | cons c cs ih =>
    rw [firstOcc]
    cases i with
    | zero =>
      rw [List.drop_zero] at hi
      rw [if_pos hi]
    | succ i' =>
      have h0 := hmin 0 (by omega)
      rw [List.drop_zero] at h0
      rw [if_neg (by simp [h0])]
      have hrec : firstOcc tok cs = some i' := by
        apply ih
        · simpa using hi
        · intro j hj
          simpa using hmin (j + 1) (by omega)
      rw [hrec]
      rfl

/-- Absence of occurrences in an append: none on either side and no suffix of
the left part is a prefix of the token. -/
theorem occ_append_false (tok p g : Str) (hp : occursIn tok p = false)
    (hg : occursIn tok g = false) (hs : noSpanB tok p = true) :
    occursIn tok (p ++ g) = false := by
  rw [noSpanB] at hs
  simp only [List.all_eq_true, List.mem_range, Bool.not_eq_true'] at hs
  cases hocc : occursIn tok (p ++ g)
  · rfl
  · exfalso
    rcases (occursIn_append_iff tok p g).mp hocc with ⟨i, hi, hl⟩ | h
    · rcases leadTok_split tok _ _ hl with h1 | ⟨t2, ht, -⟩
      · have h2 := occ_of_lead_drop tok p i h1
        rw [hp] at h2
        simp at h2
      · have hlp : leadTok (p.drop i) tok = true := by
          rw [ht]
          exact leadTok_append_self _ _
        rw [hs i hi] at hlp
        simp at hlp
    · rw [hg] at h
      simp at h

/-- Absence in an append when the right part's head character is not in the
token. -/
theorem occ_append_false_head (tok a b : Str) (ha : occursIn tok a = false)
    (hb : occursIn tok b = false) (hh : ∀ c cs, b = c :: cs → c ∉ tok) :
    occursIn tok (a ++ b) = false := by
  cases hocc : occursIn tok (a ++ b)
  · rfl
  · exfalso
    rcases (occursIn_append_iff tok a b).mp hocc with ⟨i, hi, hl⟩ | h
    · rcases leadTok_split tok _ _ hl with h1 | ⟨t2, ht, hl2⟩
      · have h2 := occ_of_lead_drop tok a i h1
        rw [ha] at h2
        simp at h2
      · cases t2 with
        | nil =>
          rw [List.append_nil] at ht
          have h2 : leadTok tok (a.drop i) = true := by
            rw [ht]
            exact leadTok_refl _
          have h3 := occ_of_lead_drop tok a i h2
          rw [ha] at h3
          simp at h3
        | cons c2 t2' =>
          cases b with
          | nil => simp [leadTok] at hl2
          | cons cb bs =>
            simp only [leadTok, Bool.and_eq_true] at hl2
            have hcmem : cb ∈ tok := by
              rw [ht, ← eq_of_beq hl2.1]
              exact List.mem_append.mpr (Or.inr (List.mem_cons_self _ _))
            exact hh cb bs rfl hcmem
    · rw [hb] at h
      simp at h

/-- A token containing a character outside a class cannot occur in a string
drawn from that class. -/
theorem occ_class_false (tok s : Str) (p : Char → Bool) (c0 : Char) (hc0 : c0 ∈ tok)
    (hs : s.all p = true) (hp : p c0 = false) : occursIn tok s = false := by
  cases hocc : occursIn tok s
  · rfl
  · exfalso
    rw [occursIn] at hocc
    cases ho : firstOcc tok s with
    | none =>
      rw [ho] at hocc
      simp at hocc
    | some i =>
      have hl := firstOcc_lead tok s i ho
      have hm1 : c0 ∈ s.drop i := leadTok_mem tok _ hl c0 hc0
      have hm2 : c0 ∈ s := List.mem_of_mem_drop hm1
      have h3 := List.all_eq_true.mp hs c0 hm2
      rw [hp] at h3
      simp at h3

/-! ### Trim and character-class toolkit -/

/-- Dropping while a predicate holds skips a fully-matching prefix. -/
theorem dropWhile_append_all (p : Char → Bool) (a s : Str) (ha : a.all p = true) :
    (a ++ s).dropWhile p = s.dropWhile p := by
  induction a with
  | nil => rfl
  | cons c cs ih =>
    rw [List.all_cons, Bool.and_eq_true] at ha
    rw [List.cons_append, List.dropWhile_cons, if_pos ha.1]
    exact ih ha.2

/-- Taking while a predicate holds stops exactly at the first failure. -/
theorem takeWhile_append_stop (p : Char → Bool) (g : Str) (c : Char) (X : Str)
    (hg : g.all p = true) (hc : p c = false) : (g ++ c :: X).takeWhile p = g := by
  induction g with
  | nil => simp [List.takeWhile_cons, hc]
  | cons d ds ih =>
    rw [List.all_cons, Bool.and_eq_true] at hg
    rw [List.cons_append, List.takeWhile_cons, if_pos hg.1, ih hg.2]

/-- Taking while a predicate holds over a fully-matching string is the
identity. -/
theorem takeWhile_all_eq (p : Char → Bool) (g : Str) (hg : g.all p = true) :
    g.takeWhile p = g := by
  induction g with
  | nil => rfl
  | cons d ds ih =>
    rw [List.all_cons, Bool.and_eq_true] at hg
    rw [List.takeWhile_cons, if_pos hg.1, ih hg.2]

/-- `dropWhile` never lengthens a list. -/
theorem dropWhile_length_le (p : Char → Bool) (s : Str) :
    (s.dropWhile p).length ≤ s.length := by
  induction s with
  | nil => exact Nat.le_refl _
  | cons c cs ih =>
    rw [List.dropWhile_cons]
    by_cases h : p c = true
    · rw [if_pos h]
      exact Nat.le_trans ih (by simp)
    · rw [if_neg h]

/-- `dropWhile` either fixes the list or strictly shortens it. -/
theorem dropWhile_eq_or_lt (p : Char → Bool) (s : Str) :
    s.dropWhile p = s ∨ (s.dropWhile p).length < s.length := by
  cases s with
  | nil => exact Or.inl rfl
  | cons c cs =>
    rw [List.dropWhile_cons]
    by_cases h : p c = true
    · rw [if_pos h]
      refine Or.inr ?_
      have := dropWhile_length_le p cs
      simp only [List.length_cons]
      omega
    · rw [if_neg h]
      exact Or.inl rfl

/-- A trimmed string does not start with whitespace. -/
theorem trimmed_head_not_ws (s : Str) (c : Char) (cs : Str) (h : jsTrim s = s)
    (he : s = c :: cs) (hws : isWs c = true) : False := by
  have hlen : (jsTrim s).length = s.length := by rw [h]
  rw [jsTrim] at hlen
  have h1 : ((s.dropWhile isWs).reverse.dropWhile isWs).reverse.length
      ≤ (s.dropWhile isWs).length := by
    rw [List.length_reverse]
    exact Nat.le_trans (dropWhile_length_le _ _) (by rw [List.length_reverse])
  have h2 : (s.dropWhile isWs).length < s.length := by
    rw [he, List.dropWhile_cons, if_pos hws]
    have := dropWhile_length_le isWs cs
    simp only [List.length_cons]
    omega
  omega

/-- A trimmed string does not end with whitespace. -/
theorem trimmed_last_not_ws (s : Str) (c : Char) (cs : Str) (h : jsTrim s = s)
    (he : s.reverse = c :: cs) (hws : isWs c = true) : False := by
  have hlen : (jsTrim s).length = s.length := by rw [h]
  rw [jsTrim, List.length_reverse] at hlen
  have hb1 : ((s.dropWhile isWs).reverse.dropWhile isWs).length
      ≤ (s.dropWhile isWs).length := by
    exact Nat.le_trans (dropWhile_length_le _ _) (by rw [List.length_reverse])
  have hb2 : (s.dropWhile isWs).length ≤ s.length := dropWhile_length_le _ _
  have hd : s.dropWhile isWs = s := by
    rcases dropWhile_eq_or_lt isWs s with h1 | h1
    · exact h1
    · omega
  rw [hd, he, List.dropWhile_cons, if_pos hws] at hlen
  have h3 := dropWhile_length_le isWs cs
  have hcs : cs.length + 1 = s.length := by
    have h4 := congrArg List.length he
    rw [List.length_reverse] at h4
    simpa using h4.symm
  omega

/-- The trim of a string with non-whitespace first and last characters is
itself. -/
theorem jsTrim_eq_self (s : Str)
    (hh : ∀ c cs, s = c :: cs → isWs c = false)
    (hl : ∀ c cs, s.reverse = c :: cs → isWs c = false) : jsTrim s = s := by
  have h1 : s.dropWhile isWs = s := by
    cases he : s with
    | nil => rfl
    | cons c cs => rw [List.dropWhile_cons, if_neg (by simp [hh c cs he])]
  rw [jsTrim, h1]
  have h2 : s.reverse.dropWhile isWs = s.reverse := by
    cases he : s.reverse with
    | nil => rfl
    | cons c cs => rw [List.dropWhile_cons, if_neg (by simp [hl c cs he])]
  rw [h2, List.reverse_reverse]

/-- Trimming ignores an all-whitespace prefix. -/
theorem jsTrim_ws_drop (a s : Str) (ha : a.all isWs = true) :
    jsTrim (a ++ s) = jsTrim s := by
  rw [jsTrim, jsTrim, dropWhile_append_all isWs a s ha]

/-- The trim of a non-whitespace-headed literal followed by a trimmed
non-empty value is the identity. -/
theorem jsTrim_concat (c0 : Char) (p0 v : Str) (h0 : isWs c0 = false)
    (hv : jsTrim v = v) (hvne : v ≠ []) : jsTrim ((c0 :: p0) ++ v) = (c0 :: p0) ++ v := by
  apply jsTrim_eq_self
  · intro c cs he
    rw [List.cons_append] at he
    injection he with h1 h2
    rw [← h1]
    exact h0
  · intro c cs he
    cases hvr : v.reverse with
    | nil =>
      exact absurd (by rw [← List.reverse_reverse v, hvr]; rfl) hvne
    | cons d ds =>
      rw [List.reverse_append, hvr, List.cons_append] at he
      injection he with h1 h2
      rw [← h1]
      cases hdw : isWs d
      · rfl
      · exact (trimmed_last_not_ws v d ds hv hvr hdw).elim

/-! ### Line-structure toolkit -/

/-- `joinLines` unfolded one line. -/
theorem joinLines_cons (l : Str) (ls : List Str) :
    joinLines (l :: ls) = l ++ '\n' :: joinLines ls := by
  rw [joinLines, List.map_cons, List.flatten_cons, List.append_assoc, List.singleton_append]
  rfl

/-- `joinLines` is an append homomorphism. -/
theorem joinLines_append_eq (a b : List Str) :
    joinLines (a ++ b) = joinLines a ++ joinLines b := by
  rw [joinLines, joinLines, joinLines, List.map_append, List.flatten_append]

/-- `splitNL` never returns the empty list. -/
theorem splitNL_ne_nil (s : Str) : splitNL s ≠ [] := by
  induction s with
  | nil => simp [splitNL]
  | cons c rest ih =>
    rw [splitNL]
    cases h : splitNL rest with
    | nil => exact absurd h ih
    | cons l ls =>
      dsimp only
      split <;> simp

/-- `splitNL` undoes one emitted line. -/
theorem splitNL_line (l rest : Str) (hl : ('\n' ∈ l) → False) :
    splitNL (l ++ '\n' :: rest) = l :: splitNL rest := by
  induction l with
  | nil =>
    rw [List.nil_append, splitNL]
    cases h : splitNL rest with
    | nil => exact absurd h (splitNL_ne_nil rest)
    | cons x xs =>
      dsimp only
      simp
  | cons c l' ih =>
    have hc : (c == '\n') = false := by
      cases hcc : c == '\n'
      · rfl
      · exfalso
        apply hl
        rw [← eq_of_beq hcc]
        exact List.mem_cons_self _ _
    rw [List.cons_append, splitNL]
    rw [ih (fun hm => hl (List.mem_cons_of_mem c hm))]
    simp [hc]

/-- `splitNL ∘ joinLines` recovers the lines, plus the empty trailer. -/
theorem splitNL_joinLines (ls : List Str) (h : ∀ l ∈ ls, ('\n' ∈ l) → False) :
    splitNL (joinLines ls) = ls ++ [[]] := by
  induction ls with
  | nil => rfl
  | cons l ls' ih =>
    rw [joinLines_cons, splitNL_line l (joinLines ls') (h l (List.mem_cons_self _ _))]
    rw [ih (fun x hx => h x (List.mem_cons_of_mem _ hx))]
    rfl

/-- Line-terminator-free strings: characters satisfying the dot class. -/
theorem not_nl_of_isDot (s : Str) (h : s.all isDot = true) : ('\n' ∈ s) → False := by
  intro hm
  exact absurd (List.all_eq_true.mp h '\n' hm) (by decide)

/-- Searching across an emitted line: a newline-free token absent from the
line is first found past it. -/
theorem firstOcc_line_shift (tok a b : Str) (hnl : ('\n' ∈ tok) → False) (htok : tok ≠ [])
    (ha : occursIn tok a = false) :
    firstOcc tok (a ++ '\n' :: b) = (firstOcc tok b).map (fun j => a.length + 1 + j) := by
  induction a with
  | nil =>
    rw [List.nil_append]
    cases tok with
    | nil => exact absurd rfl htok
    | cons t0 ts =>
      have ht0 : (t0 == '\n') = false := by
        cases hcc : t0 == '\n'
        · rfl
        · exfalso
          apply hnl
          rw [← eq_of_beq hcc]
          exact List.mem_cons_self _ _
      rw [firstOcc, if_neg (by simp [leadTok, ht0])]
      cases firstOcc (t0 :: ts) b with
      | none => simp
      | some j =>
        simp only [Option.map_some', Option.some.injEq, List.length_nil]
        omega
  | cons c a' ih =>
    rw [occursIn_cons_eq, Bool.or_eq_false_iff] at ha
    have hlead : leadTok tok (c :: (a' ++ '\n' :: b)) = false := by
      cases hl : leadTok tok (c :: (a' ++ '\n' :: b))
      · rfl
      · exfalso
        have hl' : leadTok tok ((c :: a') ++ '\n' :: b) = true := by simpa using hl
        rcases leadTok_split tok (c :: a') ('\n' :: b) hl' with h1 | ⟨t2, ht, hl2⟩
        · have h2 := ha.1
          rw [h1] at h2
          simp at h2
        · cases t2 with
          | nil =>
            rw [List.append_nil] at ht
            have h2 := ha.1
            rw [ht, leadTok_refl] at h2
            simp at h2
          | cons t0 ts =>
            simp only [leadTok, Bool.and_eq_true] at hl2
            apply hnl
            rw [ht, ← eq_of_beq hl2.1]
            exact List.mem_append.mpr (Or.inr (List.mem_cons_self _ _))
    rw [List.cons_append, firstOcc, if_neg (by simp [hlead])]
    rw [ih ha.2, Option.map_map]
    cases firstOcc tok b with
    | none => simp
    | some j =>
      simp only [Option.map_some', Function.comp_apply, Option.some.injEq, List.length_cons]
      omega

/-- Searching across a block of emitted lines that avoid the token. -/
theorem firstOcc_joinLines_shift (tok : Str) (ls : List Str) (b : Str)
    (hnl : ('\n' ∈ tok) → False) (htok : tok ≠ []) (hls : linesAvoid tok ls) :
    firstOcc tok (joinLines ls ++ b)
      = (firstOcc tok b).map (fun j => (joinLines ls).length + j) := by
  induction ls with
  | nil =>
    have h0 : joinLines ([] : List Str) = [] := rfl
    rw [h0, List.nil_append, List.length_nil]
    cases firstOcc tok b with
    | none => simp
    | some j => simp
  | cons l ls' ih =>
    have hl : occursIn tok l = false := hls l (List.mem_cons_self _ _)
    have hls' : linesAvoid tok ls' := fun x hx => hls x (List.mem_cons_of_mem _ hx)
    rw [joinLines_cons, List.append_assoc, List.cons_append]
    rw [firstOcc_line_shift tok l (joinLines ls' ++ b) hnl htok hl]
    rw [ih hls', Option.map_map]
    cases firstOcc tok b with
    | none => simp
    | some j =>
      simp only [Option.map_some', Function.comp_apply, Option.some.injEq,
        List.length_append, List.length_cons]
      omega

/-- First occurrence right after a clean block: the token heads the
remainder. -/
theorem firstOcc_after_block (tok : Str) (ls : List Str) (r : Str)
    (hnl : ('\n' ∈ tok) → False) (htok : tok ≠ []) (hls : linesAvoid tok ls) :
    firstOcc tok (joinLines ls ++ (tok ++ r)) = some (joinLines ls).length := by
  rw [firstOcc_joinLines_shift tok ls (tok ++ r) hnl htok hls]
  have h0 : firstOcc tok (tok ++ r) = some 0 := by
    cases tok with
    | nil => exact absurd rfl htok
    | cons t0 ts =>
      rw [List.cons_append, firstOcc,
        if_pos (by rw [← List.cons_append]; exact leadTok_append_self _ _)]
  rw [h0]
  simp

/-- A token avoided by every line does not occur in the joined block. -/
theorem occ_joinLines_false (tok : Str) (ls : List Str) (hnl : ('\n' ∈ tok) → False)
    (htok : tok ≠ []) (hls : linesAvoid tok ls) : occursIn tok (joinLines ls) = false := by
  have h := firstOcc_joinLines_shift tok ls [] hnl htok hls
  rw [List.append_nil] at h
  rw [occursIn, h]
  cases tok with
  | nil => exact absurd rfl htok
  | cons t0 ts => simp [firstOcc]

/-- A non-empty token does not occur in the empty string. -/
theorem occ_nil_false (tok : Str) (htok : tok ≠ []) : occursIn tok [] = false := by
  cases tok with
  | nil => exact absurd rfl htok
  | cons t0 ts => rfl

/-- A non-empty newline-free token absent from every line does not occur in
the newline-headed joined block. -/
theorem occ_consNL_joinLines_false (tok : Str) (ls : List Str)
    (hnl : ('\n' ∈ tok) → False) (htok : tok ≠ []) (hls : linesAvoid tok ls) :
    occursIn tok ('\n' :: joinLines ls) = false := by
  rw [occursIn_cons_eq, occ_joinLines_false tok ls hnl htok hls]
  have hlead : leadTok tok ('\n' :: joinLines ls) = false := by
    cases tok with
    | nil => exact absurd rfl htok
    | cons t0 ts =>
      have ht0 : (t0 == '\n') = false := by
        cases hcc : t0 == '\n'
        · rfl
        · exfalso
          apply hnl
          rw [← eq_of_beq hcc]
          exact List.mem_cons_self _ _
      simp [leadTok, ht0]
  rw [hlead]
  rfl

/-! ### Encoder normal form -/

/-- `buildLines` viewed as sentinel, body, sentinel. -/
theorem buildLines_eq (m : IssueMetadata) :
    buildLines m = METADATA_SEPARATOR :: (bodyLines m ++ [METADATA_END]) := by
  rw [buildLines, bodyLines]
  simp [List.append_assoc]

/-- Joining with `\n` and appending a final `\n` is `joinLines`. -/
theorem intercalate_nl_join (ls : List Str) (h : ls ≠ []) :
    List.intercalate ['\n'] ls ++ ['\n'] = joinLines ls := by
  induction ls with
  | nil => exact absurd rfl h
  | cons l ls' ih =>
    cases ls' with
    | nil =>
      rw [joinLines_cons]
      simp [List.intercalate]
      rfl
    | cons l2 ls'' =>
      rw [joinLines_cons, ← ih (by simp)]
      simp [List.intercalate, List.intersperse_cons_cons, List.append_assoc]

/-- The encoder output in emitted-lines normal form. -/
theorem encode_eq (plain : Str) (m : IssueMetadata) :
    buildDescriptionWithMetadata plain m = joinLines (buildLines m) ++ '\n' :: plain := by
  rw [buildDescriptionWithMetadata]
  have h2 : chars "\n\n" = ['\n', '\n'] := rfl
  have hne : buildLines m ≠ [] := by
    rw [buildLines_eq]
    simp
  rw [h2, ← intercalate_nl_join (buildLines m) hne, List.append_assoc]
  simp

/-- A token heads its own append. -/
theorem firstOcc_self_lead (tok r : Str) (htok : tok ≠ []) :
    firstOcc tok (tok ++ r) = some 0 := by
  cases tok with
  | nil => exact absurd rfl htok
  | cons t0 ts =>
    rw [List.cons_append, firstOcc,
      if_pos (by rw [← List.cons_append]; exact leadTok_append_self _ _)]

/-- Dropping past the leading newline, a clean block, and the found token. -/
theorem drop_after_tok (pre : List Str) (tok t : Str) :
    ('\n' :: (joinLines pre ++ (tok ++ t))).drop ((joinLines pre).length + 1 + tok.length)
      = t := by
  have h : (('\n' :: joinLines pre) ++ tok).length
      = (joinLines pre).length + 1 + tok.length := by
    simp only [List.length_append, List.length_cons]
  rw [show ('\n' :: (joinLines pre ++ (tok ++ t)))
      = (('\n' :: joinLines pre) ++ tok) ++ t by simp [List.append_assoc]]
  exact List.drop_left' h

/-- Position of a token that opens a line after a clean block. -/
theorem firstOcc_tok_pos (tok t : Str) (pre : List Str)
    (hnl : ('\n' ∈ tok) → False) (htok : tok ≠ []) (hpre : linesAvoid tok pre) :
    firstOcc tok ('\n' :: (joinLines pre ++ (tok ++ t)))
      = some ((joinLines pre).length + 1) := by
  have h2 := firstOcc_line_shift tok [] (joinLines pre ++ (tok ++ t)) hnl htok
    (occ_nil_false tok htok)
  rw [List.nil_append] at h2
  rw [h2, firstOcc_after_block tok pre t hnl htok hpre]
  simp only [Option.map_some', List.length_nil, Option.some.injEq]
  omega

/-- Block extraction on the encoder output: everything strictly between the
sentinels, with its leading newline. -/
theorem extractBlock_encode (plain : Str) (m : IssueMetadata)
    (hend : linesAvoid METADATA_END (bodyLines m)) :
    extractBlock (buildDescriptionWithMetadata plain m)
      = some ('\n' :: joinLines (bodyLines m)) := by
  have hshape : buildDescriptionWithMetadata plain m
      = METADATA_SEPARATOR
        ++ ('\n' :: (joinLines (bodyLines m)
          ++ (METADATA_END ++ ('\n' :: ('\n' :: plain))))) := by
    rw [encode_eq, buildLines_eq, joinLines_cons, joinLines_append_eq]
    have h1 : joinLines [METADATA_END] = METADATA_END ++ ['\n'] := by
      rw [joinLines_cons]
      rfl
    rw [h1]
    simp only [List.append_assoc, List.cons_append, List.singleton_append, List.nil_append]
  rw [hshape, extractBlock, firstOcc_self_lead METADATA_SEPARATOR _ (by decide)]
  dsimp only
  have hdrop : (METADATA_SEPARATOR
      ++ ('\n' :: (joinLines (bodyLines m)
        ++ (METADATA_END ++ ('\n' :: ('\n' :: plain)))))).drop
      (0 + METADATA_SEPARATOR.length)
      = '\n' :: (joinLines (bodyLines m)
        ++ (METADATA_END ++ ('\n' :: ('\n' :: plain)))) := by
    rw [Nat.zero_add, List.drop_left]
  rw [hdrop]
  rw [firstOcc_tok_pos METADATA_END ('\n' :: ('\n' :: plain)) (bodyLines m)
    (by decide) (by decide) hend]
  dsimp only
  rw [List.take_succ_cons, List.take_left]

/-! ### Field-search lemmas -/

/-- `searchCapture` on a block whose target line is `tok ++ ' ' ++ g`:
captures exactly `g`. -/
theorem searchCapture_at (tok g r : Str) (pre : List Str) (s : Str)
    (hs : s = '\n' :: (joinLines pre ++ (tok ++ (' ' :: (g ++ '\n' :: r)))))
    (hnl : ('\n' ∈ tok) → False) (htok : tok ≠ [])
    (hpre : linesAvoid tok pre)
    (hg1 : jsTrim g = g) (hg2 : g ≠ []) (hg3 : g.all isDot = true) :
    searchCapture tok s = some g := by
  have hfo : firstOcc tok s = some ((joinLines pre).length + 1) := by
    rw [hs]
    exact firstOcc_tok_pos tok _ pre hnl htok hpre
  have hdrop : s.drop ((joinLines pre).length + 1 + tok.length)
      = ' ' :: (g ++ '\n' :: r) := by
    rw [hs]
    exact drop_after_tok pre tok _
  have hws : wsDotCapture (' ' :: (g ++ '\n' :: r)) = some g := by
    rw [wsDotCapture]
    have hd1 : (' ' :: (g ++ '\n' :: r)).dropWhile isWs = g ++ '\n' :: r := by
      rw [List.dropWhile_cons, if_pos (by decide)]
      cases hgc : g with
      | nil => exact absurd hgc hg2
      | cons c0 g' =>
        rw [List.cons_append, List.dropWhile_cons, if_neg ?_]
        intro hws0
        exact trimmed_head_not_ws (c0 :: g') c0 g' (by rw [← hgc]; exact hg1) rfl hws0
    rw [hd1]
    rw [if_neg (by simp [List.isEmpty_iff])]
    rw [takeWhile_append_stop isDot g '\n' r hg3 (by decide)]
  rw [searchCapture, if_neg (by simpa [List.isEmpty_iff] using htok), searchCaptureAux, hfo]
  dsimp only
  rw [hdrop, hws]

/-- `searchRun` on a block whose target line is `tok ++ ' ' ++ g` with `g`
drawn from the class: captures exactly `g`. -/
theorem searchRun_at (tok g r : Str) (p : Char → Bool) (pre : List Str) (s : Str)
    (hs : s = '\n' :: (joinLines pre ++ (tok ++ (' ' :: (g ++ '\n' :: r)))))
    (hnl : ('\n' ∈ tok) → False) (htok : tok ≠ [])
    (hpre : linesAvoid tok pre)
    (hg2 : g ≠ []) (hg3 : g.all p = true)
    (hg4 : ∀ c ∈ g, isWs c = false) (hnlp : p '\n' = false) :
    searchRun tok p s = some g := by
  have hfo : firstOcc tok s = some ((joinLines pre).length + 1) := by
    rw [hs]
    exact firstOcc_tok_pos tok _ pre hnl htok hpre
  have hdrop : s.drop ((joinLines pre).length + 1 + tok.length)
      = ' ' :: (g ++ '\n' :: r) := by
    rw [hs]
    exact drop_after_tok pre tok _
  have hrun : runCapture p (' ' :: (g ++ '\n' :: r)) = some g := by
    rw [runCapture]
    have hd1 : (' ' :: (g ++ '\n' :: r)).dropWhile isWs = g ++ '\n' :: r := by
      rw [List.dropWhile_cons, if_pos (by decide)]
      cases hgc : g with
      | nil => exact absurd hgc hg2
      | cons c0 g' =>
        rw [List.cons_append, List.dropWhile_cons,
          if_neg (by simp [hg4 c0 (by rw [hgc]; exact List.mem_cons_self _ _)])]
    rw [hd1, takeWhile_append_stop p g '\n' r hg3 hnlp]
    rw [if_neg (by simp [List.isEmpty_iff, hg2])]
  rw [searchRun, if_neg (by simpa [List.isEmpty_iff] using htok), searchRunAux, hfo]
  dsimp only
  rw [hdrop, hrun]

/-- `searchCapture` on a text free of the token: no capture. -/
theorem searchCapture_none_of (tok s : Str) (hocc : occursIn tok s = false) :
    searchCapture tok s = none := by
  rw [searchCapture]
  by_cases ht : tok.isEmpty = true
  · rw [if_pos ht]
  · rw [if_neg ht, searchCaptureAux]
    rw [occursIn] at hocc
    cases ho : firstOcc tok s with
    | none => rfl
    | some i =>
      rw [ho] at hocc
      simp at hocc

/-- `searchRun` on a text free of the token: no capture. -/
theorem searchRun_none_of (tok s : Str) (p : Char → Bool) (hocc : occursIn tok s = false) :
    searchRun tok p s = none := by
  rw [searchRun]
  by_cases ht : tok.isEmpty = true
  · rw [if_pos ht]
  · rw [if_neg ht, searchRunAux]
    rw [occursIn] at hocc
    cases ho : firstOcc tok s with
    | none => rfl
    | some i =>
      rw [ho] at hocc
      simp at hocc

/-- `sectionAfter` for a header line that is followed by another `**` header
further down. -/
theorem sectionAfter_mid (tok hdrTail r : Str) (pre mid : List Str) (s : Str)
    (hs : s = '\n' :: (joinLines pre ++ (tok ++ ('\n' :: (joinLines mid
        ++ ((chars "**" ++ hdrTail) ++ r))))))
    (hnl : ('\n' ∈ tok) → False) (htok : tok ≠ [])
    (hpre : linesAvoid tok pre)
    (hmid : linesAvoid (chars "**") mid) :
    sectionAfter tok s = some ('\n' :: joinLines mid) := by
  have hfo : firstOcc tok s = some ((joinLines pre).length + 1) := by
    rw [hs]
    exact firstOcc_tok_pos tok _ pre hnl htok hpre
  have hdrop : s.drop ((joinLines pre).length + 1 + tok.length)
      = '\n' :: (joinLines mid ++ ((chars "**" ++ hdrTail) ++ r)) := by
    rw [hs]
    exact drop_after_tok pre tok _
  rw [sectionAfter, hfo]
  dsimp only
  rw [hdrop]
  have hfo2 : firstOcc (chars "**")
      ('\n' :: (joinLines mid ++ ((chars "**" ++ hdrTail) ++ r)))
      = some ((joinLines mid).length + 1) := by
    rw [show (joinLines mid ++ ((chars "**" ++ hdrTail) ++ r))
        = joinLines mid ++ (chars "**" ++ (hdrTail ++ r)) by simp [List.append_assoc]]
    exact firstOcc_tok_pos (chars "**") (hdrTail ++ r) mid (by decide) (by decide) hmid
  rw [hfo2]
  dsimp only
  rw [List.take_succ_cons, List.take_left]

/-- `sectionAfter` for the final header line: the content runs to the end of
the block. -/
theorem sectionAfter_last (tok : Str) (pre lastLines : List Str) (s : Str)
    (hs : s = '\n' :: (joinLines pre ++ (tok ++ ('\n' :: joinLines lastLines))))
    (hnl : ('\n' ∈ tok) → False) (htok : tok ≠ [])
    (hpre : linesAvoid tok pre)
    (hlast : linesAvoid (chars "**") lastLines) :
    sectionAfter tok s = some ('\n' :: joinLines lastLines) := by
  have hfo : firstOcc tok s = some ((joinLines pre).length + 1) := by
    rw [hs]
    exact firstOcc_tok_pos tok _ pre hnl htok hpre
  have hdrop : s.drop ((joinLines pre).length + 1 + tok.length)
      = '\n' :: joinLines lastLines := by
    rw [hs]
    exact drop_after_tok pre tok _
  rw [sectionAfter, hfo]
  dsimp only
  rw [hdrop]
  have hocc2 : occursIn (chars "**") ('\n' :: joinLines lastLines) = false :=
    occ_consNL_joinLines_false (chars "**") lastLines (by decide) (by decide) hlast
  rw [occursIn] at hocc2
  cases ho : firstOcc (chars "**") ('\n' :: joinLines lastLines) with
  | none => rfl
  | some j =>
    rw [ho] at hocc2
    simp at hocc2

/-! ### Decimal digits -/

/-- Adequacy of the fuelled digit extraction. -/
theorem natDigitsAux_spec (fuel : Nat) : ∀ n, n < fuel →
    (natDigitsAux fuel n).all Char.isDigit = true
    ∧ digitsToNat (natDigitsAux fuel n) = n ∧ natDigitsAux fuel n ≠ [] := by
  induction fuel with
  | zero =>
    intro n hn
    omega
  | succ f ih =>
    intro n hn
    rw [natDigitsAux]
    by_cases h10 : n < 10
    · rw [if_pos h10]
      interval_cases n <;> exact ⟨by decide, by decide, by decide⟩
    · rw [if_neg h10]
      have hdiv : n / 10 < f := by
        have h1 : 0 < n := by omega
        have h2 := Nat.div_lt_self h1 (by omega : 1 < 10)
        omega
      obtain ⟨ha, hv, hne⟩ := ih (n / 10) hdiv
      refine ⟨?_, ?_, by simp⟩
      · rw [List.all_append, ha, List.all_cons]
        simp only [List.all_nil, Bool.and_true, Bool.true_and]
        have hr : n % 10 < 10 := Nat.mod_lt _ (by omega)
        revert hr
        generalize n % 10 = rr
        intro hr
        interval_cases rr <;> decide
      · rw [digitsToNat, List.foldl_append, ← digitsToNat, hv]
        show n / 10 * 10 + ((Char.ofNat (48 + n % 10)).toNat - 48) = n
        have hr : n % 10 < 10 := Nat.mod_lt _ (by omega)
        have hc : (Char.ofNat (48 + n % 10)).toNat - 48 = n % 10 := by
          revert hr
          generalize n % 10 = rr
          intro hr
          interval_cases rr <;> decide
        rw [hc]
        omega

/-- The emitted digits are digits. -/
theorem natDigits_all (n : Nat) : (natDigits n).all Char.isDigit = true :=
  (natDigitsAux_spec (n + 1) n (by omega)).1

/-- `parseInt` undoes digit emission. -/
theorem natDigits_val (n : Nat) : digitsToNat (natDigits n) = n :=
  (natDigitsAux_spec (n + 1) n (by omega)).2.1

/-- At least one digit is emitted. -/
theorem natDigits_ne_nil (n : Nat) : natDigits n ≠ [] :=
  (natDigitsAux_spec (n + 1) n (by omega)).2.2

/-! ### Clean-field extraction -/

/-- Components of a safe field value. -/
theorem cleanFieldB_spec (s : Str) (h : cleanFieldB s = true) :
    jsTrim s = s ∧ s ≠ [] ∧ s.all isDot = true
    ∧ occursIn (chars "**") s = false ∧ occursIn METADATA_END s = false := by
  rw [cleanFieldB, cleanTextB] at h
  simp only [Bool.and_eq_true, Bool.not_eq_true'] at h
  obtain ⟨⟨⟨⟨h1, h2⟩, h3⟩, h4⟩, h5⟩ := h
  refine ⟨eq_of_beq h4, ?_, h1, h2, h3⟩
  intro hnil
  rw [hnil] at h5
  exact Bool.noConfusion h5

/-- A safe field is transparent. -/
theorem cleanFieldB_text (s : Str) (h : cleanFieldB s = true) : cleanTextB s = true := by
  rw [cleanFieldB] at h
  simp only [Bool.and_eq_true] at h
  exact h.1.1

/-- Transparency is preserved by prefixing a transparent, non-spanning
literal. -/
theorem cleanTextB_append (lit v : Str) (hl : cleanTextB lit = true)
    (hsp1 : noSpanB (chars "**") lit = true) (hsp2 : noSpanB METADATA_END lit = true)
    (hv : cleanTextB v = true) : cleanTextB (lit ++ v) = true := by
  rw [cleanTextB] at hl hv ⊢
  simp only [Bool.and_eq_true, Bool.not_eq_true'] at hl hv ⊢
  refine ⟨⟨?_, ?_⟩, ?_⟩
  · rw [List.all_append, hl.1.1, hv.1.1]
    rfl
  · exact occ_append_false _ _ _ hl.1.2 hv.1.2 hsp1
  · exact occ_append_false _ _ _ hl.2 hv.2 hsp2

/-- A transparent string contains no newline. -/
theorem cleanTextB_noNL (s : Str) (h : cleanTextB s = true) : ('\n' ∈ s) → False := by
  rw [cleanTextB] at h
  simp only [Bool.and_eq_true] at h
  exact not_nl_of_isDot s h.1.1

/-- A token extending `**` cannot occur where `**` does not. -/
theorem leadTok_trans (a b s : Str) (h1 : leadTok a b = true) (h2 : leadTok b s = true) :
    leadTok a s = true := by
  induction a generalizing b s with
  | nil => rfl
  | cons c cs ih =>
    cases b with
    | nil => simp [leadTok] at h1
    | cons d ds =>
      cases s with
      | nil => simp [leadTok] at h2
      | cons e es =>
        simp only [leadTok, Bool.and_eq_true] at h1 h2 ⊢
        refine ⟨?_, ih ds es h1.2 h2.2⟩
        have hce : c = e := (eq_of_beq h1.1).trans (eq_of_beq h2.1)
        rw [hce]
        exact beq_self_eq_true e

/-- A token with a given prefix is absent wherever the prefix is absent. -/
theorem occ_pre_mono (pre tok g : Str) (hpre : leadTok pre tok = true)
    (hg : occursIn pre g = false) : occursIn tok g = false := by
  cases hocc : occursIn tok g
  · rfl
  · exfalso
    rw [occursIn] at hocc
    cases ho : firstOcc tok g with
    | none =>
      rw [ho] at hocc
      simp at hocc
    | some i =>
      have hl := firstOcc_lead tok g i ho
      have hl2 : leadTok pre (g.drop i) = true := leadTok_trans pre tok _ hpre hl
      have h3 := occ_of_lead_drop pre g i hl2
      rw [hg] at h3
      simp at h3

/-- Digits are not whitespace. -/
theorem isDigit_not_ws (c : Char) (h : c.isDigit = true) : isWs c = false := by
  have hne : ∀ d : Char, d.isDigit = false → (c == d) = false := by
    intro d hd
    cases hcd : c == d
    · rfl
    · rw [eq_of_beq hcd] at h
      rw [h] at hd
      exact Bool.noConfusion hd
  rw [isWs, hne ' ' (by decide), hne '\t' (by decide), hne '\n' (by decide),
    hne '\r' (by decide), hne (Char.ofNat 11) (by decide), hne (Char.ofNat 12) (by decide)]
  rfl

/-! ### Uncertainty-section line machine -/

/-- `uncertaintyLines` in segment normal form. -/
theorem uncertaintyLines_eq (u : Uncertainty) :
    uncertaintyLines u
      = [chars "- [" ++ (if optTruthy u.resolution then ['x'] else [' ']) ++ chars "] "
          ++ u.title]
        ++ optLines (chars "  - Description: ") u.description
        ++ optLines (chars "  - Resolution: ") u.resolution
        ++ optLines (chars "  - Resolved By: ") u.resolvedBy
        ++ optLines (chars "  - Resolved At: ") u.resolvedAt := by
  cases u with
  | mk t d r2 ra rb =>
    cases d <;> cases r2 <;> cases ra <;> cases rb <;> rfl

/-- The lines of an optional keyed segment are transparent. -/
theorem optLines_clean (lit : Str) (o : Option Str) (hlit : cleanTextB lit = true)
    (hsp1 : noSpanB (chars "**") lit = true) (hsp2 : noSpanB METADATA_END lit = true)
    (ho : cleanOptFieldB o = true) :
    ∀ l ∈ optLines lit o, cleanTextB l = true := by
  intro l hl
  cases o with
  | none => cases hl
  | some v =>
    rw [cleanOptFieldB] at ho
    obtain ⟨-, hv2, -, -, -⟩ := cleanFieldB_spec v ho
    rw [optLines, if_neg (by simp [List.isEmpty_iff, hv2])] at hl
    rw [List.mem_singleton] at hl
    subst hl
    exact cleanTextB_append lit v hlit hsp1 hsp2 (cleanFieldB_text v ho)

/-- Skipping a blank line. -/
theorem uncRun_empty_step (rest : List Str) (cur : Option (Bool × Uncertainty))
    (acc : List Uncertainty) :
    uncLinesRun ([] :: rest) cur acc = uncLinesRun rest cur acc := by
  rw [uncLinesRun]
  dsimp only
  rw [if_pos (show List.isEmpty (jsTrim []) = true from rfl)]

/-- The terminal two blank lines flush the pending record. -/
theorem uncRun_tail2 (cur : Option (Bool × Uncertainty)) (acc : List Uncertainty) :
    uncLinesRun [[], []] cur acc = flushAcc cur acc := by
  rw [uncRun_empty_step, uncRun_empty_step]
  rfl

/-- A checklist line opens a fresh record and flushes the pending one. -/
theorem uncRun_title_step (l cap : Str) (b : Char) (rest : List Str)
    (cur : Option (Bool × Uncertainty)) (acc : List Uncertainty)
    (ht : jsTrim l ≠ [])
    (hbc : bulletCapture (jsTrim l) = some (b, cap))
    (hcap : jsTrim cap = cap) :
    uncLinesRun (l :: rest) cur acc
      = uncLinesRun rest (some ((b == 'x'), { title := cap })) (flushAcc cur acc) := by
  rw [uncLinesRun]
  dsimp only
  rw [if_neg (by simp [List.isEmpty_iff, ht])]
  rw [hbc]
  dsimp only
  rw [hcap]

/-- A detail line updates the pending record through `applyDetail`. -/
theorem uncRun_detail_step (l rawCap : Str) (r : Bool) (u : Uncertainty)
    (rest : List Str) (acc : List Uncertainty)
    (ht : jsTrim l ≠ [])
    (hbc : bulletCapture (jsTrim l) = none)
    (hdc : detailCapture l = some rawCap)
    (hc1 : jsTrim rawCap = rawCap) (hc2 : rawCap ≠ []) :
    uncLinesRun (l :: rest) (some (r, u)) acc
      = uncLinesRun rest (some (r, applyDetail rawCap u)) acc := by
  rw [uncLinesRun]
  dsimp only
  rw [if_neg (by simp [List.isEmpty_iff, ht])]
  rw [hbc, hdc]
  dsimp only
  rw [hc1]
  rw [if_neg (by simp [List.isEmpty_iff, hc2])]

/-- Flushing with the emitted checkbox flag is the identity on the record. -/
theorem finalizeUnc_flag (u : Uncertainty) :
    finalizeUnc (optTruthy u.resolution) u = u := by
  rw [finalizeUnc]
  cases hr : optTruthy u.resolution
  · rw [if_neg (by simp)]
  · rw [if_neg (by simp [hr])]

/-- The detail-line regexp on an emitted Description line. -/
theorem detailCapture_desc (v : Str) (hv3 : v.all isDot = true) :
    detailCapture (chars "  - Description: " ++ v) = some (chars "Description: " ++ v) := by
  have hdw : (chars "  - Description: " ++ v).dropWhile isWs
      = '-' :: (chars " Description: " ++ v) := by
    rw [show chars "  - Description: " ++ v
        = ' ' :: (' ' :: ('-' :: (chars " Description: " ++ v))) from rfl]
    rw [List.dropWhile_cons, if_pos (by decide), List.dropWhile_cons, if_pos (by decide),
      List.dropWhile_cons, if_neg (by decide)]
  rw [detailCapture, hdw]
  show (if (List.takeWhile isWs (chars " Description: " ++ v)).length = 0 then none
      else detailBacktrack (chars " Description: " ++ v)
        (List.takeWhile isWs (chars " Description: " ++ v)).length)
    = some (chars "Description: " ++ v)
  have htw : (chars " Description: " ++ v).takeWhile isWs = [' '] := by
    rw [show chars " Description: " ++ v = ' ' :: ('D' :: (chars "escription: " ++ v)) from rfl]
    rw [List.takeWhile_cons, if_pos (by decide), List.takeWhile_cons, if_neg (by decide)]
  rw [htw, show ([' '] : Str).length = 1 from rfl, if_neg (by decide)]
  rw [show (1 : Nat) = 0 + 1 from rfl, detailBacktrack]
  rw [show (chars " Description: " ++ v).drop (0 + 1) = chars "Description: " ++ v from rfl]
  split
  · rfl
  · rename_i hn
    exfalso
    apply hn
    rw [List.all_append, hv3, Bool.and_true]
    rfl

/-- The detail-line regexp on an emitted Resolution line. -/
theorem detailCapture_res (v : Str) (hv3 : v.all isDot = true) :
    detailCapture (chars "  - Resolution: " ++ v) = some (chars "Resolution: " ++ v) := by
  have hdw : (chars "  - Resolution: " ++ v).dropWhile isWs
      = '-' :: (chars " Resolution: " ++ v) := by
    rw [show chars "  - Resolution: " ++ v
        = ' ' :: (' ' :: ('-' :: (chars " Resolution: " ++ v))) from rfl]
    rw [List.dropWhile_cons, if_pos (by decide), List.dropWhile_cons, if_pos (by decide),
      List.dropWhile_cons, if_neg (by decide)]
  rw [detailCapture, hdw]
  show (if (List.takeWhile isWs (chars " Resolution: " ++ v)).length = 0 then none
      else detailBacktrack (chars " Resolution: " ++ v)
        (List.takeWhile isWs (chars " Resolution: " ++ v)).length)
    = some (chars "Resolution: " ++ v)
  have htw : (chars " Resolution: " ++ v).takeWhile isWs = [' '] := by
    rw [show chars " Resolution: " ++ v = ' ' :: ('R' :: (chars "esolution: " ++ v)) from rfl]
    rw [List.takeWhile_cons, if_pos (by decide), List.takeWhile_cons, if_neg (by decide)]
  rw [htw, show ([' '] : Str).length = 1 from rfl, if_neg (by decide)]
  rw [show (1 : Nat) = 0 + 1 from rfl, detailBacktrack]
  rw [show (chars " Resolution: " ++ v).drop (0 + 1) = chars "Resolution: " ++ v from rfl]
  split
  · rfl
  · rename_i hn
    exfalso
    apply hn
    rw [List.all_append, hv3, Bool.and_true]
    rfl

/-- The detail-line regexp on an emitted Resolved By line. -/
theorem detailCapture_rby (v : Str) (hv3 : v.all isDot = true) :
    detailCapture (chars "  - Resolved By: " ++ v) = some (chars "Resolved By: " ++ v) := by
  have hdw : (chars "  - Resolved By: " ++ v).dropWhile isWs
      = '-' :: (chars " Resolved By: " ++ v) := by
    rw [show chars "  - Resolved By: " ++ v
        = ' ' :: (' ' :: ('-' :: (chars " Resolved By: " ++ v))) from rfl]
    rw [List.dropWhile_cons, if_pos (by decide), List.dropWhile_cons, if_pos (by decide),
      List.dropWhile_cons, if_neg (by decide)]
  rw [detailCapture, hdw]
  show (if (List.takeWhile isWs (chars " Resolved By: " ++ v)).length = 0 then none
      else detailBacktrack (chars " Resolved By: " ++ v)
        (List.takeWhile isWs (chars " Resolved By: " ++ v)).length)
    = some (chars "Resolved By: " ++ v)
  have htw : (chars " Resolved By: " ++ v).takeWhile isWs = [' '] := by
    rw [show chars " Resolved By: " ++ v = ' ' :: ('R' :: (chars "esolved By: " ++ v)) from rfl]
    rw [List.takeWhile_cons, if_pos (by decide), List.takeWhile_cons, if_neg (by decide)]
  rw [htw, show ([' '] : Str).length = 1 from rfl, if_neg (by decide)]
  rw [show (1 : Nat) = 0 + 1 from rfl, detailBacktrack]
  rw [show (chars " Resolved By: " ++ v).drop (0 + 1) = chars "Resolved By: " ++ v from rfl]
  split
  · rfl
  · rename_i hn
    exfalso
    apply hn
    rw [List.all_append, hv3, Bool.and_true]
    rfl

/-- The detail-line regexp on an emitted Resolved At line. -/
theorem detailCapture_rat (v : Str) (hv3 : v.all isDot = true) :
    detailCapture (chars "  - Resolved At: " ++ v) = some (chars "Resolved At: " ++ v) := by
  have hdw : (chars "  - Resolved At: " ++ v).dropWhile isWs
      = '-' :: (chars " Resolved At: " ++ v) := by
    rw [show chars "  - Resolved At: " ++ v
        = ' ' :: (' ' :: ('-' :: (chars " Resolved At: " ++ v))) from rfl]
    rw [List.dropWhile_cons, if_pos (by decide), List.dropWhile_cons, if_pos (by decide),
      List.dropWhile_cons, if_neg (by decide)]
  rw [detailCapture, hdw]
  show (if (List.takeWhile isWs (chars " Resolved At: " ++ v)).length = 0 then none
      else detailBacktrack (chars " Resolved At: " ++ v)
        (List.takeWhile isWs (chars " Resolved At: " ++ v)).length)
    = some (chars "Resolved At: " ++ v)
  have htw : (chars " Resolved At: " ++ v).takeWhile isWs = [' '] := by
    rw [show chars " Resolved At: " ++ v = ' ' :: ('R' :: (chars "esolved At: " ++ v)) from rfl]
    rw [List.takeWhile_cons, if_pos (by decide), List.takeWhile_cons, if_neg (by decide)]
  rw [htw, show ([' '] : Str).length = 1 from rfl, if_neg (by decide)]
  rw [show (1 : Nat) = 0 + 1 from rfl, detailBacktrack]
  rw [show (chars " Resolved At: " ++ v).drop (0 + 1) = chars "Resolved At: " ++ v from rfl]
  split
  · rfl
  · rename_i hn
    exfalso
    apply hn
    rw [List.all_append, hv3, Bool.and_true]
    rfl

/-- A trimmed value survives `dropWhile`. -/
theorem trimmed_dropWhile (v : Str) (hv1 : jsTrim v = v) : v.dropWhile isWs = v := by
  cases v with
  | nil => rfl
  | cons c0 v' =>
    have h0 : isWs c0 = false := by
      cases h00 : isWs c0
      · rfl
      · exact (trimmed_head_not_ws (c0 :: v') c0 v' hv1 rfl h00).elim
    rw [List.dropWhile_cons, if_neg (by simp [h0])]

/-- Key dispatch on an emitted Description detail. -/
theorem applyDetail_desc (v : Str) (u : Uncertainty) (hv1 : jsTrim v = v) :
    applyDetail (chars "Description: " ++ v) u = { u with description := some v } := by
  have hstrip : stripKey 12 (chars "Description: " ++ v) = v := by
    rw [stripKey, show (chars "Description: " ++ v).drop 12 = ' ' :: v from rfl]
    rw [List.dropWhile_cons, if_pos (by decide), trimmed_dropWhile v hv1, hv1]
  have h1 : ciLeadTok (chars "resolution:") (chars "Description: " ++ v) = false := by
    rw [ciLeadTok, lowerStr, List.map_append]
    rfl
  have h2 : ciLeadTok (chars "resolved by:") (chars "Description: " ++ v) = false := by
    rw [ciLeadTok, lowerStr, List.map_append]
    rfl
  have h3 : ciLeadTok (chars "resolved at:") (chars "Description: " ++ v) = false := by
    rw [ciLeadTok, lowerStr, List.map_append]
    rfl
  have h4 : ciLeadTok (chars "description:") (chars "Description: " ++ v) = true := by
    rw [ciLeadTok, lowerStr, List.map_append]
    rfl
  rw [applyDetail, if_neg (by simp [h1]), if_neg (by simp [h2]), if_neg (by simp [h3]),
    if_pos h4, hstrip]

/-- Key dispatch on an emitted Resolution detail. -/
theorem applyDetail_res (v : Str) (u : Uncertainty) (hv1 : jsTrim v = v) :
    applyDetail (chars "Resolution: " ++ v) u = { u with resolution := some v } := by
  have hstrip : stripKey 11 (chars "Resolution: " ++ v) = v := by
    rw [stripKey, show (chars "Resolution: " ++ v).drop 11 = ' ' :: v from rfl]
    rw [List.dropWhile_cons, if_pos (by decide), trimmed_dropWhile v hv1, hv1]
  have h1 : ciLeadTok (chars "resolution:") (chars "Resolution: " ++ v) = true := by
    rw [ciLeadTok, lowerStr, List.map_append]
    rfl
  rw [applyDetail, if_pos h1, hstrip]

/-- Key dispatch on an emitted Resolved By detail. -/
theorem applyDetail_rby (v : Str) (u : Uncertainty) (hv1 : jsTrim v = v) :
    applyDetail (chars "Resolved By: " ++ v) u = { u with resolvedBy := some v } := by
  have hstrip : stripKey 12 (chars "Resolved By: " ++ v) = v := by
    rw [stripKey, show (chars "Resolved By: " ++ v).drop 12 = ' ' :: v from rfl]
    rw [List.dropWhile_cons, if_pos (by decide), trimmed_dropWhile v hv1, hv1]
  have h1 : ciLeadTok (chars "resolution:") (chars "Resolved By: " ++ v) = false := by
    rw [ciLeadTok, lowerStr, List.map_append]
    rfl
  have h2 : ciLeadTok (chars "resolved by:") (chars "Resolved By: " ++ v) = true := by
    rw [ciLeadTok, lowerStr, List.map_append]
    rfl
  rw [applyDetail, if_neg (by simp [h1]), if_pos h2, hstrip]

/-- Key dispatch on an emitted Resolved At detail. -/
theorem applyDetail_rat (v : Str) (u : Uncertainty) (hv1 : jsTrim v = v) :
    applyDetail (chars "Resolved At: " ++ v) u = { u with resolvedAt := some v } := by
  have hstrip : stripKey 12 (chars "Resolved At: " ++ v) = v := by
    rw [stripKey, show (chars "Resolved At: " ++ v).drop 12 = ' ' :: v from rfl]
    rw [List.dropWhile_cons, if_pos (by decide), trimmed_dropWhile v hv1, hv1]
  have h1 : ciLeadTok (chars "resolution:") (chars "Resolved At: " ++ v) = false := by
    rw [ciLeadTok, lowerStr, List.map_append]
    rfl
  have h2 : ciLeadTok (chars "resolved by:") (chars "Resolved At: " ++ v) = false := by
    rw [ciLeadTok, lowerStr, List.map_append]
    rfl
  have h3 : ciLeadTok (chars "resolved at:") (chars "Resolved At: " ++ v) = true := by
    rw [ciLeadTok, lowerStr, List.map_append]
    rfl
  rw [applyDetail, if_neg (by simp [h1]), if_neg (by simp [h2]), if_pos h3, hstrip]

/-- Machine effect of an emitted Description line. -/
theorem uncRun_desc (v : Str) (r : Bool) (u : Uncertainty) (rest : List Str)
    (acc : List Uncertainty) (hv : cleanFieldB v = true) :
    uncLinesRun ((chars "  - Description: " ++ v) :: rest) (some (r, u)) acc
      = uncLinesRun rest (some (r, { u with description := some v })) acc := by
  obtain ⟨hv1, hv2, hv3, -, -⟩ := cleanFieldB_spec v hv
  have htr : jsTrim (chars "  - Description: " ++ v) = chars "- Description: " ++ v := by
    rw [show chars "  - Description: " ++ v
        = [' ', ' '] ++ (chars "- Description: " ++ v) from rfl]
    rw [jsTrim_ws_drop [' ', ' '] _ (by decide)]
    rw [show chars "- Description: " ++ v = ('-' :: chars " Description: ") ++ v from rfl]
    exact jsTrim_concat '-' (chars " Description: ") v (by decide) hv1 hv2
  have hraw : jsTrim (chars "Description: " ++ v) = chars "Description: " ++ v := by
    rw [show chars "Description: " ++ v = ('D' :: chars "escription: ") ++ v from rfl]
    exact jsTrim_concat 'D' (chars "escription: ") v (by decide) hv1 hv2
  rw [uncRun_detail_step (chars "  - Description: " ++ v) (chars "Description: " ++ v) r u
      rest acc
      (by
        rw [htr, show chars "- Description: " ++ v
          = ('-' :: chars " Description: ") ++ v from rfl]
        simp)
      (by rw [htr]; rfl)
      (detailCapture_desc v hv3) hraw
      (by
        rw [show chars "Description: " ++ v = ('D' :: chars "escription: ") ++ v from rfl]
        simp),
    applyDetail_desc v u hv1]

/-- Machine effect of an emitted Resolution line. -/
theorem uncRun_res (v : Str) (r : Bool) (u : Uncertainty) (rest : List Str)
    (acc : List Uncertainty) (hv : cleanFieldB v = true) :
    uncLinesRun ((chars "  - Resolution: " ++ v) :: rest) (some (r, u)) acc
      = uncLinesRun rest (some (r, { u with resolution := some v })) acc := by
  obtain ⟨hv1, hv2, hv3, -, -⟩ := cleanFieldB_spec v hv
  have htr : jsTrim (chars "  - Resolution: " ++ v) = chars "- Resolution: " ++ v := by
    rw [show chars "  - Resolution: " ++ v
        = [' ', ' '] ++ (chars "- Resolution: " ++ v) from rfl]
    rw [jsTrim_ws_drop [' ', ' '] _ (by decide)]
    rw [show chars "- Resolution: " ++ v = ('-' :: chars " Resolution: ") ++ v from rfl]
    exact jsTrim_concat '-' (chars " Resolution: ") v (by decide) hv1 hv2
  have hraw : jsTrim (chars "Resolution: " ++ v) = chars "Resolution: " ++ v := by
    rw [show chars "Resolution: " ++ v = ('R' :: chars "esolution: ") ++ v from rfl]
    exact jsTrim_concat 'R' (chars "esolution: ") v (by decide) hv1 hv2
  rw [uncRun_detail_step (chars "  - Resolution: " ++ v) (chars "Resolution: " ++ v) r u
      rest acc
      (by
        rw [htr, show chars "- Resolution: " ++ v
          = ('-' :: chars " Resolution: ") ++ v from rfl]
        simp)
      (by rw [htr]; rfl)
      (detailCapture_res v hv3) hraw
      (by
        rw [show chars "Resolution: " ++ v = ('R' :: chars "esolution: ") ++ v from rfl]
        simp),
    applyDetail_res v u hv1]

/-- Machine effect of an emitted Resolved By line. -/
theorem uncRun_rby (v : Str) (r : Bool) (u : Uncertainty) (rest : List Str)
    (acc : List Uncertainty) (hv : cleanFieldB v = true) :
    uncLinesRun ((chars "  - Resolved By: " ++ v) :: rest) (some (r, u)) acc
      = uncLinesRun rest (some (r, { u with resolvedBy := some v })) acc := by
  obtain ⟨hv1, hv2, hv3, -, -⟩ := cleanFieldB_spec v hv
  have htr : jsTrim (chars "  - Resolved By: " ++ v) = chars "- Resolved By: " ++ v := by
    rw [show chars "  - Resolved By: " ++ v
        = [' ', ' '] ++ (chars "- Resolved By: " ++ v) from rfl]
    rw [jsTrim_ws_drop [' ', ' '] _ (by decide)]
    rw [show chars "- Resolved By: " ++ v = ('-' :: chars " Resolved By: ") ++ v from rfl]
    exact jsTrim_concat '-' (chars " Resolved By: ") v (by decide) hv1 hv2
  have hraw : jsTrim (chars "Resolved By: " ++ v) = chars "Resolved By: " ++ v := by
    rw [show chars "Resolved By: " ++ v = ('R' :: chars "esolved By: ") ++ v from rfl]
    exact jsTrim_concat 'R' (chars "esolved By: ") v (by decide) hv1 hv2
  rw [uncRun_detail_step (chars "  - Resolved By: " ++ v) (chars "Resolved By: " ++ v) r u
      rest acc
      (by
        rw [htr, show chars "- Resolved By: " ++ v
          = ('-' :: chars " Resolved By: ") ++ v from rfl]
        simp)
      (by rw [htr]; rfl)
      (detailCapture_rby v hv3) hraw
      (by
        rw [show chars "Resolved By: " ++ v = ('R' :: chars "esolved By: ") ++ v from rfl]
        simp),
    applyDetail_rby v u hv1]

/-- Machine effect of an emitted Resolved At line. -/
theorem uncRun_rat (v : Str) (r : Bool) (u : Uncertainty) (rest : List Str)
    (acc : List Uncertainty) (hv : cleanFieldB v = true) :
    uncLinesRun ((chars "  - Resolved At: " ++ v) :: rest) (some (r, u)) acc
      = uncLinesRun rest (some (r, { u with resolvedAt := some v })) acc := by
  obtain ⟨hv1, hv2, hv3, -, -⟩ := cleanFieldB_spec v hv
  have htr : jsTrim (chars "  - Resolved At: " ++ v) = chars "- Resolved At: " ++ v := by
    rw [show chars "  - Resolved At: " ++ v
        = [' ', ' '] ++ (chars "- Resolved At: " ++ v) from rfl]
    rw [jsTrim_ws_drop [' ', ' '] _ (by decide)]
    rw [show chars "- Resolved At: " ++ v = ('-' :: chars " Resolved At: ") ++ v from rfl]
    exact jsTrim_concat '-' (chars " Resolved At: ") v (by decide) hv1 hv2
  have hraw : jsTrim (chars "Resolved At: " ++ v) = chars "Resolved At: " ++ v := by
    rw [show chars "Resolved At: " ++ v = ('R' :: chars "esolved At: ") ++ v from rfl]
    exact jsTrim_concat 'R' (chars "esolved At: ") v (by decide) hv1 hv2
  rw [uncRun_detail_step (chars "  - Resolved At: " ++ v) (chars "Resolved At: " ++ v) r u
      rest acc
      (by
        rw [htr, show chars "- Resolved At: " ++ v
          = ('-' :: chars " Resolved At: ") ++ v from rfl]
        simp)
      (by rw [htr]; rfl)
      (detailCapture_rat v hv3) hraw
      (by
        rw [show chars "Resolved At: " ++ v = ('R' :: chars "esolved At: ") ++ v from rfl]
        simp),
    applyDetail_rat v u hv1]

/-- Machine effect of a checked title line. -/
theorem uncRun_title_x (t : Str) (rest : List Str) (cur : Option (Bool × Uncertainty))
    (acc : List Uncertainty) (ht1 : jsTrim t = t) (ht2 : t ≠ []) (ht3 : t.all isDot = true) :
    uncLinesRun ((chars "- [x] " ++ t) :: rest) cur acc
      = uncLinesRun rest (some (true, { title := t })) (flushAcc cur acc) := by
  have htr : jsTrim (chars "- [x] " ++ t) = chars "- [x] " ++ t := by
    rw [show chars "- [x] " ++ t = ('-' :: chars " [x] ") ++ t from rfl]
    exact jsTrim_concat '-' (chars " [x] ") t (by decide) ht1 ht2
  have haw : anchoredWsDot (' ' :: t) = some t := by
    have hdw : (' ' :: t).dropWhile isWs = t := by
      rw [List.dropWhile_cons, if_pos (show isWs ' ' = true from rfl)]
      exact trimmed_dropWhile t ht1
    rw [anchoredWsDot, hdw]
    rw [if_neg (by simp [List.isEmpty_iff, ht2]), if_pos ht3]
  have hbc : bulletCapture (jsTrim (chars "- [x] " ++ t)) = some ('x', t) := by
    rw [htr, show chars "- [x] " ++ t = '-' :: ' ' :: '[' :: 'x' :: ']' :: (' ' :: t) from rfl]
    rw [show bulletCapture ('-' :: ' ' :: '[' :: 'x' :: ']' :: (' ' :: t))
        = (anchoredWsDot (' ' :: t)).map (fun cap => ('x', cap)) from rfl]
    rw [haw]
    rfl
  rw [uncRun_title_step (chars "- [x] " ++ t) t 'x' rest cur acc
      (by
        rw [htr, show chars "- [x] " ++ t = ('-' :: chars " [x] ") ++ t from rfl]
        simp)
      hbc ht1]
  rfl

/-- Machine effect of an unchecked title line. -/
theorem uncRun_title_o (t : Str) (rest : List Str) (cur : Option (Bool × Uncertainty))
    (acc : List Uncertainty) (ht1 : jsTrim t = t) (ht2 : t ≠ []) (ht3 : t.all isDot = true) :
    uncLinesRun ((chars "- [ ] " ++ t) :: rest) cur acc
      = uncLinesRun rest (some (false, { title := t })) (flushAcc cur acc) := by
  have htr : jsTrim (chars "- [ ] " ++ t) = chars "- [ ] " ++ t := by
    rw [show chars "- [ ] " ++ t = ('-' :: chars " [ ] ") ++ t from rfl]
    exact jsTrim_concat '-' (chars " [ ] ") t (by decide) ht1 ht2
  have haw : anchoredWsDot (' ' :: t) = some t := by
    have hdw : (' ' :: t).dropWhile isWs = t := by
      rw [List.dropWhile_cons, if_pos (show isWs ' ' = true from rfl)]
      exact trimmed_dropWhile t ht1
    rw [anchoredWsDot, hdw]
    rw [if_neg (by simp [List.isEmpty_iff, ht2]), if_pos ht3]
  have hbc : bulletCapture (jsTrim (chars "- [ ] " ++ t)) = some (' ', t) := by
    rw [htr, show chars "- [ ] " ++ t = '-' :: ' ' :: '[' :: ' ' :: ']' :: (' ' :: t) from rfl]
    rw [show bulletCapture ('-' :: ' ' :: '[' :: ' ' :: ']' :: (' ' :: t))
        = (anchoredWsDot (' ' :: t)).map (fun cap => (' ', cap)) from rfl]
    rw [haw]
    rfl
  rw [uncRun_title_step (chars "- [ ] " ++ t) t ' ' rest cur acc
      (by
        rw [htr, show chars "- [ ] " ++ t = ('-' :: chars " [ ] ") ++ t from rfl]
        simp)
      hbc ht1]
  rfl

/-- Machine effect of the optional Description segment. -/
theorem uncRun_seg_desc (d : Option Str) (r : Bool) (t : Str) (rest : List Str)
    (acc : List Uncertainty) (hd : cleanOptFieldB d = true) :
    uncLinesRun (optLines (chars "  - Description: ") d ++ rest)
        (some (r, Uncertainty.mk t none none none none)) acc
      = uncLinesRun rest (some (r, Uncertainty.mk t d none none none)) acc := by
  cases d with
  | none => rfl
  | some dv =>
    rw [cleanOptFieldB] at hd
    obtain ⟨-, hv2, -, -, -⟩ := cleanFieldB_spec dv hd
    rw [optLines, if_neg (by simp [List.isEmpty_iff, hv2]), List.singleton_append]
    rw [uncRun_desc dv r _ rest acc hd]

/-- Machine effect of the optional Resolution segment. -/
theorem uncRun_seg_res (r2 : Option Str) (r : Bool) (t : Str) (d : Option Str)
    (rest : List Str) (acc : List Uncertainty) (hr : cleanOptFieldB r2 = true) :
    uncLinesRun (optLines (chars "  - Resolution: ") r2 ++ rest)
        (some (r, Uncertainty.mk t d none none none)) acc
      = uncLinesRun rest (some (r, Uncertainty.mk t d r2 none none)) acc := by
  cases r2 with
  | none => rfl
  | some rv =>
    rw [cleanOptFieldB] at hr
    obtain ⟨-, hv2, -, -, -⟩ := cleanFieldB_spec rv hr
    rw [optLines, if_neg (by simp [List.isEmpty_iff, hv2]), List.singleton_append]
    rw [uncRun_res rv r _ rest acc hr]

/-- Machine effect of the optional Resolved By segment. -/
theorem uncRun_seg_rby (rb : Option Str) (r : Bool) (t : Str) (d r2 : Option Str)
    (rest : List Str) (acc : List Uncertainty) (hrb : cleanOptFieldB rb = true) :
    uncLinesRun (optLines (chars "  - Resolved By: ") rb ++ rest)
        (some (r, Uncertainty.mk t d r2 none none)) acc
      = uncLinesRun rest (some (r, Uncertainty.mk t d r2 none rb)) acc := by
  cases rb with
  | none => rfl
  | some rbv =>
    rw [cleanOptFieldB] at hrb
    obtain ⟨-, hv2, -, -, -⟩ := cleanFieldB_spec rbv hrb
    rw [optLines, if_neg (by simp [List.isEmpty_iff, hv2]), List.singleton_append]
    rw [uncRun_rby rbv r _ rest acc hrb]

/-- Machine effect of the optional Resolved At segment. -/
theorem uncRun_seg_rat (ra : Option Str) (r : Bool) (t : Str) (d r2 rb : Option Str)
    (rest : List Str) (acc : List Uncertainty) (hra : cleanOptFieldB ra = true) :
    uncLinesRun (optLines (chars "  - Resolved At: ") ra ++ rest)
        (some (r, Uncertainty.mk t d r2 none rb)) acc
      = uncLinesRun rest (some (r, Uncertainty.mk t d r2 ra rb)) acc := by
  cases ra with
  | none => rfl
  | some rav =>
    rw [cleanOptFieldB] at hra
    obtain ⟨-, hv2, -, -, -⟩ := cleanFieldB_spec rav hra
    rw [optLines, if_neg (by simp [List.isEmpty_iff, hv2]), List.singleton_append]
    rw [uncRun_rat rav r _ rest acc hra]

/-- Machine effect of one full emitted uncertainty. -/
theorem uncRun_one (t : Str) (d r2 ra rb : Option Str) (rest : List Str)
    (cur : Option (Bool × Uncertainty)) (acc : List Uncertainty)
    (hu : cleanUncertaintyB ⟨t, d, r2, ra, rb⟩ = true) :
    uncLinesRun (uncertaintyLines ⟨t, d, r2, ra, rb⟩ ++ rest) cur acc
      = uncLinesRun rest (some (optTruthy r2, ⟨t, d, r2, ra, rb⟩)) (flushAcc cur acc) := by
  rw [cleanUncertaintyB] at hu
  dsimp only at hu
  simp only [Bool.and_eq_true] at hu
  obtain ⟨⟨⟨⟨ht, hd⟩, hr⟩, hra⟩, hrb⟩ := hu
  obtain ⟨ht1, ht2, ht3, -, -⟩ := cleanFieldB_spec t ht
  rw [uncertaintyLines_eq]
  dsimp only
  rw [List.append_assoc, List.append_assoc, List.append_assoc, List.append_assoc,
    List.singleton_append]
  cases r2 with
  | none =>
    rw [if_neg (show ¬ (optTruthy none = true) from by decide)]
    rw [show chars "- [" ++ [' '] ++ chars "] " ++ t = chars "- [ ] " ++ t from rfl]
    rw [uncRun_title_o t _ cur acc ht1 ht2 ht3]
    rw [uncRun_seg_desc d false t _ (flushAcc cur acc) hd]
    rw [uncRun_seg_res none false t d _ (flushAcc cur acc) (by rfl)]
    rw [uncRun_seg_rby rb false t d none _ (flushAcc cur acc) hrb]
    rw [uncRun_seg_rat ra false t d none rb rest (flushAcc cur acc) hra]
    rfl
  | some rv =>
    obtain ⟨-, hrv2, -, -, -⟩ := cleanFieldB_spec rv hr
    have hbox : optTruthy (some rv) = true := by
      rw [optTruthy]
      simp [List.isEmpty_iff, hrv2]
    rw [if_pos hbox]
    rw [show chars "- [" ++ ['x'] ++ chars "] " ++ t = chars "- [x] " ++ t from rfl]
    rw [uncRun_title_x t _ cur acc ht1 ht2 ht3]
    rw [uncRun_seg_desc d true t _ (flushAcc cur acc) hd]
    rw [uncRun_seg_res (some rv) true t d _ (flushAcc cur acc) hr]
    rw [uncRun_seg_rby rb true t d (some rv) _ (flushAcc cur acc) hrb]
    rw [uncRun_seg_rat ra true t d (some rv) rb rest (flushAcc cur acc) hra]
    rw [hbox]

/-- Machine effect of all emitted uncertainties followed by the terminal
blank lines. -/
theorem uncRun_all (us : List Uncertainty) (cur : Option (Bool × Uncertainty))
    (acc : List Uncertainty) (hus : us.all cleanUncertaintyB = true) :
    uncLinesRun ((us.map uncertaintyLines).flatten ++ [[], []]) cur acc
      = flushAcc cur acc ++ us := by
  induction us generalizing cur acc with
  | nil =>
    rw [List.map_nil, show (([] : List (List Str))).flatten = [] from rfl, List.nil_append,
      uncRun_tail2, List.append_nil]
  | cons u us' ih =>
    rw [List.map_cons, List.flatten_cons, List.append_assoc]
    rw [List.all_cons, Bool.and_eq_true] at hus
    obtain ⟨t, d, r2, ra, rb⟩ := u
    rw [uncRun_one t d r2 ra rb _ cur acc hus.1]
    rw [ih _ _ hus.2]
    rw [flushAcc]
    have hf := finalizeUnc_flag ⟨t, d, r2, ra, rb⟩
    dsimp only at hf
    rw [hf]
    simp [List.append_assoc]

/-! ### Lessons-section line machine -/

/-- `\s*(.+)$`-style capture after a single space. -/
theorem wsDotCapture_sp (g : Str) (hg1 : jsTrim g = g) (hg2 : g ≠ [])
    (hg3 : g.all isDot = true) : wsDotCapture (' ' :: g) = some g := by
  rw [wsDotCapture]
  have hd1 : (' ' :: g).dropWhile isWs = g := by
    rw [List.dropWhile_cons, if_pos (show isWs ' ' = true from rfl)]
    exact trimmed_dropWhile g hg1
  rw [hd1, if_neg (by simp [List.isEmpty_iff, hg2]), takeWhile_all_eq isDot g hg3]

/-- A successful category match starts with the marker. -/
theorem lessonCatAt_lead (s : Str) (r : Str × Str) (h : lessonCatAt s = some r) :
    leadTok (chars "- [") s = true := by
  unfold lessonCatAt at h
  split at h
  · simp [leadTok]
  · exact Option.noConfusion h

/-- The category scan fails on marker-free text. -/
theorem lessonCatScan_none (s : Str) (h : occursIn (chars "- [") s = false) :
    lessonCatScan s = none := by
  induction s with
  | nil => rfl
  | cons c rest ih =>
    rw [occursIn_cons_eq, Bool.or_eq_false_iff] at h
    rw [lessonCatScan]
    have hat : lessonCatAt (c :: rest) = none := by
      cases hA : lessonCatAt (c :: rest) with
      | none => rfl
      | some rr =>
        have hlead := lessonCatAt_lead (c :: rest) rr hA
        rw [h.1] at hlead
        exact Bool.noConfusion hlead
    rw [hat]
    exact ih h.2

/-- The category scan finds an immediate match. -/
theorem lessonCatScan_at (s : Str) (r : Str × Str) (h : lessonCatAt s = some r)
    (hne : s ≠ []) : lessonCatScan s = some r := by
  cases s with
  | nil => exact absurd rfl hne
  | cons c rest =>
    rw [lessonCatScan, h]

/-- The category pattern on an emitted categorized lesson line. -/
theorem lessonCatAt_at (w content : Str) (hw1 : w.all isWordC = true) (hw2 : w ≠ [])
    (hc1 : jsTrim content = content) (hc2 : content ≠ []) (hc3 : content.all isDot = true) :
    lessonCatAt ('-' :: (' ' :: ('[' :: (w ++ (']' :: (' ' :: content))))))
      = some (w, content) := by
  rw [lessonCatAt]
  rw [takeWhile_append_stop isWordC w ']' (' ' :: content) hw1 (by decide)]
  rw [if_neg (by simp [List.isEmpty_iff, hw2])]
  rw [List.drop_left]
  show (wsDotCapture (' ' :: content)).map (fun cap => (w, cap)) = some (w, content)
  rw [wsDotCapture_sp content hc1 hc2 hc3]
  rfl

/-- The marker is absent from an emitted category-free lesson line. -/
theorem occ_dashBracket_nocat (content : Str)
    (hc : occursIn (chars "- [") content = false) :
    occursIn (chars "- [") ('-' :: (' ' :: (' ' :: content))) = false := by
  rw [occursIn_cons_eq, occursIn_cons_eq, occursIn_cons_eq, hc]
  rw [show leadTok (chars "- [") ('-' :: (' ' :: (' ' :: content))) = false from rfl]
  rw [show leadTok (chars "- [") (' ' :: (' ' :: content)) = false from rfl]
  rw [show leadTok (chars "- [") (' ' :: content) = false from rfl]
  rfl

/-- Parsing an emitted category-free lesson line. -/
theorem parseLessonLine_nocat (acc : List LessonLearned) (c : Str)
    (h1 : jsTrim c = c) (h2 : c ≠ []) (hb : occursIn (chars "- [") c = false) :
    parseLessonLine acc ('-' :: (' ' :: (' ' :: c))) = acc ++ [⟨c, none, none⟩] := by
  rw [parseLessonLine, lessonCatScan_none _ (occ_dashBracket_nocat c hb)]
  dsimp only
  rw [if_pos (show leadTok (chars "- ") ('-' :: (' ' :: (' ' :: c))) = true from rfl)]
  rw [show ('-' :: (' ' :: (' ' :: c))).drop 2 = ' ' :: c from rfl]
  rw [show (' ' :: c) = [' '] ++ c from rfl, jsTrim_ws_drop [' '] c (by decide), h1]
  rw [if_pos (by simp [List.isEmpty_iff, h2])]

/-- Parsing an emitted categorized lesson line. -/
theorem parseLessonLine_cat (acc : List LessonLearned) (w c : Str)
    (hwcat : isLessonCategory w = true) (hw1 : w.all isWordC = true) (hw2 : w ≠ [])
    (hwtrim : jsTrim w = w)
    (h1 : jsTrim c = c) (h2 : c ≠ []) (h3 : c.all isDot = true) :
    parseLessonLine acc ('-' :: (' ' :: ('[' :: (w ++ (']' :: (' ' :: c))))))
      = acc ++ [⟨c, some w, none⟩] := by
  rw [parseLessonLine,
    lessonCatScan_at _ (w, c) (lessonCatAt_at w c hw1 hw2 h1 h2 h3) (by simp)]
  dsimp only
  rw [hwtrim, h1, if_pos hwcat]

/-- The six enum categories. -/
theorem isLessonCategory_cases (w : Str) (h : isLessonCategory w = true) :
    w = chars "pattern" ∨ w = chars "decision" ∨ w = chars "gotcha" ∨ w = chars "solution" ∨ w = chars "performance" ∨ w = chars "balance" := by
  rw [isLessonCategory] at h
  simp only [Bool.or_eq_true, beq_iff_eq] at h
  tauto

/-- Folding the parser over all emitted lesson lines. -/
theorem lessons_foldl (ls : List LessonLearned) (acc : List LessonLearned)
    (hls : ls.all cleanLessonB = true) :
    (ls.map lessonLine).foldl parseLessonLine acc = acc ++ ls := by
  induction ls generalizing acc with
  | nil => simp
  | cons l ls' ih =>
    rw [List.map_cons, List.foldl_cons]
    rw [List.all_cons, Bool.and_eq_true] at hls
    obtain ⟨cnt, cat, tags⟩ := l
    have hl1 := hls.1
    rw [cleanLessonB] at hl1
    dsimp only at hl1
    cases tags with
    | some tl => simp at hl1
    | none =>
      simp only [Bool.and_true, Bool.and_eq_true, Bool.not_eq_true'] at hl1
      obtain ⟨⟨hcf, hbr⟩, hcat⟩ := hl1
      obtain ⟨h1, h2, h3, -, -⟩ := cleanFieldB_spec cnt hcf
      cases cat with
      | none =>
        rw [show lessonLine ⟨cnt, none, none⟩ = '-' :: (' ' :: (' ' :: cnt)) from rfl]
        rw [parseLessonLine_nocat acc cnt h1 h2 hbr]
        rw [ih _ hls.2]
        simp
      | some w =>
        rcases isLessonCategory_cases w hcat with rfl | rfl | rfl | rfl | rfl | rfl
        · rw [show lessonLine ⟨cnt, some (chars "pattern"), none⟩
              = '-' :: (' ' :: ('[' :: (chars "pattern" ++ (']' :: (' ' :: cnt))))) from rfl]
          rw [parseLessonLine_cat acc (chars "pattern") cnt (by decide) (by decide) (by decide)
            (by decide) h1 h2 h3]
          rw [ih _ hls.2]
          simp
        · rw [show lessonLine ⟨cnt, some (chars "decision"), none⟩
              = '-' :: (' ' :: ('[' :: (chars "decision" ++ (']' :: (' ' :: cnt))))) from rfl]
          rw [parseLessonLine_cat acc (chars "decision") cnt (by decide) (by decide) (by decide)
            (by decide) h1 h2 h3]
          rw [ih _ hls.2]
          simp
        · rw [show lessonLine ⟨cnt, some (chars "gotcha"), none⟩
              = '-' :: (' ' :: ('[' :: (chars "gotcha" ++ (']' :: (' ' :: cnt))))) from rfl]
          rw [parseLessonLine_cat acc (chars "gotcha") cnt (by decide) (by decide) (by decide)
            (by decide) h1 h2 h3]
          rw [ih _ hls.2]
          simp
        · rw [show lessonLine ⟨cnt, some (chars "solution"), none⟩
              = '-' :: (' ' :: ('[' :: (chars "solution" ++ (']' :: (' ' :: cnt))))) from rfl]
          rw [parseLessonLine_cat acc (chars "solution") cnt (by decide) (by decide) (by decide)
            (by decide) h1 h2 h3]
          rw [ih _ hls.2]
          simp
        · rw [show lessonLine ⟨cnt, some (chars "performance"), none⟩
              = '-' :: (' ' :: ('[' :: (chars "performance" ++ (']' :: (' ' :: cnt))))) from rfl]
          rw [parseLessonLine_cat acc (chars "performance") cnt (by decide) (by decide) (by decide)
            (by decide) h1 h2 h3]
          rw [ih _ hls.2]
          simp
        · rw [show lessonLine ⟨cnt, some (chars "balance"), none⟩
              = '-' :: (' ' :: ('[' :: (chars "balance" ++ (']' :: (' ' :: cnt))))) from rfl]
          rw [parseLessonLine_cat acc (chars "balance") cnt (by decide) (by decide) (by decide)
            (by decide) h1 h2 h3]
          rw [ih _ hls.2]
          simp

/-- Emitted lesson lines survive the `- `-filter after trimming. -/
theorem lessonLine_trim_lead (l : LessonLearned) (hl : cleanLessonB l = true) :
    leadTok (chars "- ") (jsTrim (lessonLine l)) = true := by
  obtain ⟨cnt, cat, tags⟩ := l
  rw [cleanLessonB] at hl
  dsimp only at hl
  cases tags with
  | some tl => simp at hl
  | none =>
    simp only [Bool.and_true, Bool.and_eq_true, Bool.not_eq_true'] at hl
    obtain ⟨⟨hcf, hbr⟩, hcat⟩ := hl
    obtain ⟨h1, h2, -, -, -⟩ := cleanFieldB_spec cnt hcf
    cases cat with
    | none =>
      rw [show lessonLine ⟨cnt, none, none⟩ = ('-' :: chars "  ") ++ cnt from rfl]
      rw [jsTrim_concat '-' (chars "  ") cnt (by decide) h1 h2]
      rfl
    | some w =>
      rcases isLessonCategory_cases w hcat with rfl | rfl | rfl | rfl | rfl | rfl
      · rw [show lessonLine ⟨cnt, some (chars "pattern"), none⟩
            = ('-' :: chars " [pattern] ") ++ cnt from rfl]
        rw [jsTrim_concat '-' (chars " [pattern] ") cnt (by decide) h1 h2]
        rfl
      · rw [show lessonLine ⟨cnt, some (chars "decision"), none⟩
            = ('-' :: chars " [decision] ") ++ cnt from rfl]
        rw [jsTrim_concat '-' (chars " [decision] ") cnt (by decide) h1 h2]
        rfl
      · rw [show lessonLine ⟨cnt, some (chars "gotcha"), none⟩
            = ('-' :: chars " [gotcha] ") ++ cnt from rfl]
        rw [jsTrim_concat '-' (chars " [gotcha] ") cnt (by decide) h1 h2]
        rfl
      · rw [show lessonLine ⟨cnt, some (chars "solution"), none⟩
            = ('-' :: chars " [solution] ") ++ cnt from rfl]
        rw [jsTrim_concat '-' (chars " [solution] ") cnt (by decide) h1 h2]
        rfl
      · rw [show lessonLine ⟨cnt, some (chars "performance"), none⟩
            = ('-' :: chars " [performance] ") ++ cnt from rfl]
        rw [jsTrim_concat '-' (chars " [performance] ") cnt (by decide) h1 h2]
        rfl
      · rw [show lessonLine ⟨cnt, some (chars "balance"), none⟩
            = ('-' :: chars " [balance] ") ++ cnt from rfl]
        rw [jsTrim_concat '-' (chars " [balance] ") cnt (by decide) h1 h2]
        rfl

/-- `splitNL` after a leading newline. -/
theorem splitNL_cons_nl (s : Str) : splitNL ('\n' :: s) = [] :: splitNL s := by
  rw [splitNL]
  cases h : splitNL s with
  | nil => exact absurd h (splitNL_ne_nil s)
  | cons l ls =>
    dsimp only
    simp

/-- The empty line list avoids every token. -/
theorem linesAvoid_nil (tok : Str) : linesAvoid tok [] :=
  fun l hl => absurd hl (List.not_mem_nil l)

/-- Extending an avoiding line list on the left. -/
theorem linesAvoid_cons (tok : Str) (l : Str) (ls : List Str)
    (h1 : occursIn tok l = false) (h2 : linesAvoid tok ls) : linesAvoid tok (l :: ls) := by
  intro x hx
  rcases List.mem_cons.mp hx with rfl | hx
  · exact h1
  · exact h2 x hx

/-- Concatenating avoiding line lists. -/
theorem linesAvoid_append (tok : Str) (a b : List Str) (ha : linesAvoid tok a)
    (hb : linesAvoid tok b) : linesAvoid tok (a ++ b) := by
  intro x hx
  rcases List.mem_append.mp hx with h | h
  · exact ha x h
  · exact hb x h

/-- The optional keyed segment avoids a token absent from its only line. -/
theorem optLines_avoid (tok lit : Str) (o : Option Str)
    (ho : ∀ v, o = some v → occursIn tok (lit ++ v) = false) :
    linesAvoid tok (optLines lit o) := by
  intro l hl
  cases o with
  | none => cases hl
  | some v =>
    rw [optLines] at hl
    split at hl
    · cases hl
    · rw [List.mem_singleton] at hl
      subst hl
      exact ho v rfl

/-- A transparent line avoids every `**`-headed token. -/
theorem cleanText_avoid_star (tok l : Str) (hstar : leadTok (chars "**") tok = true)
    (hc : cleanTextB l = true) : occursIn tok l = false := by
  rw [cleanTextB] at hc
  simp only [Bool.and_eq_true, Bool.not_eq_true'] at hc
  exact occ_pre_mono _ _ _ hstar hc.1.2

/-- A transparent line avoids the end sentinel. -/
theorem cleanText_avoid_end (l : Str) (hc : cleanTextB l = true) :
    occursIn METADATA_END l = false := by
  rw [cleanTextB] at hc
  simp only [Bool.and_eq_true, Bool.not_eq_true'] at hc
  exact hc.2

/-- A `**`-headed literal line followed by a `**`-free value avoids the
token, provided the literal alone does and no suffix of it spans. -/
theorem valLine_avoid (tok lit v : Str) (hstar : leadTok (chars "**") tok = true)
    (h1 : occursIn tok lit = false) (h2 : noSpanB tok lit = true)
    (hv : occursIn (chars "**") v = false) :
    occursIn tok (lit ++ v) = false :=
  occ_append_false tok lit v h1 (occ_pre_mono _ _ _ hstar hv) h2

/-- The digits avoid any token containing a non-digit character. -/
theorem digits_avoid (tok : Str) (e : Nat) (c0 : Char) (hc0 : c0 ∈ tok)
    (hnd : c0.isDigit = false) : occursIn tok (natDigits e) = false :=
  occ_class_false tok (natDigits e) Char.isDigit c0 hc0 (natDigits_all e) hnd

/-- Emitted lesson lines are transparent. -/
theorem lessonLine_clean (l : LessonLearned) (hl : cleanLessonB l = true) :
    cleanTextB (lessonLine l) = true := by
  obtain ⟨cnt, cat, tags⟩ := l
  rw [cleanLessonB] at hl
  dsimp only at hl
  cases tags with
  | some tl => simp at hl
  | none =>
    simp only [Bool.and_true, Bool.and_eq_true, Bool.not_eq_true'] at hl
    obtain ⟨⟨hcf, hbr⟩, hcat⟩ := hl
    cases cat with
    | none =>
      rw [show lessonLine ⟨cnt, none, none⟩ = chars "-  " ++ cnt from rfl]
      exact cleanTextB_append (chars "-  ") cnt (by decide) (by decide) (by decide)
        (cleanFieldB_text cnt hcf)
    | some w =>
      rcases isLessonCategory_cases w hcat with rfl | rfl | rfl | rfl | rfl | rfl
      · rw [show lessonLine ⟨cnt, some (chars "pattern"), none⟩
            = chars "- [pattern] " ++ cnt from rfl]
        exact cleanTextB_append (chars "- [pattern] ") cnt (by decide) (by decide) (by decide)
          (cleanFieldB_text cnt hcf)
      · rw [show lessonLine ⟨cnt, some (chars "decision"), none⟩
            = chars "- [decision] " ++ cnt from rfl]
        exact cleanTextB_append (chars "- [decision] ") cnt (by decide) (by decide) (by decide)
          (cleanFieldB_text cnt hcf)
      · rw [show lessonLine ⟨cnt, some (chars "gotcha"), none⟩
            = chars "- [gotcha] " ++ cnt from rfl]
        exact cleanTextB_append (chars "- [gotcha] ") cnt (by decide) (by decide) (by decide)
          (cleanFieldB_text cnt hcf)
      · rw [show lessonLine ⟨cnt, some (chars "solution"), none⟩
            = chars "- [solution] " ++ cnt from rfl]
        exact cleanTextB_append (chars "- [solution] ") cnt (by decide) (by decide) (by decide)
          (cleanFieldB_text cnt hcf)
      · rw [show lessonLine ⟨cnt, some (chars "performance"), none⟩
            = chars "- [performance] " ++ cnt from rfl]
        exact cleanTextB_append (chars "- [performance] ") cnt (by decide) (by decide) (by decide)
          (cleanFieldB_text cnt hcf)
      · rw [show lessonLine ⟨cnt, some (chars "balance"), none⟩
            = chars "- [balance] " ++ cnt from rfl]
        exact cleanTextB_append (chars "- [balance] ") cnt (by decide) (by decide) (by decide)
          (cleanFieldB_text cnt hcf)

/-! ### Body-shape lemmas -/

/-- `bodyLines` in segment normal form. -/
theorem bodyLines_view (g : Option Str) (e : Nat) (er cb : Option Str)
    (us : List Uncertainty) (ls : List LessonLearned) :
    bodyLines ⟨g, e, er, cb, us, ls⟩
      = [chars "**Goal:** " ++ jsOr g (chars "Not specified"),
         chars "**Effort:** " ++ natDigits e]
        ++ optLines (chars "**Effort Reason:** ") er
        ++ optLines (chars "**Complexity Bias:** ") cb
        ++ ([[], chars "**Uncertainties:**"])
        ++ (us.map uncertaintyLines).flatten
        ++ ([[], chars "**Lessons Learned:**"])
        ++ ls.map lessonLine := by
  cases er <;> cases cb <;> rfl

/-- All emitted uncertainty lines are transparent. -/
theorem uncertaintyLines_clean (u : Uncertainty) (hu : cleanUncertaintyB u = true) :
    ∀ l ∈ uncertaintyLines u, cleanTextB l = true := by
  obtain ⟨t, d, r2, ra, rb⟩ := u
  rw [cleanUncertaintyB] at hu
  dsimp only at hu
  simp only [Bool.and_eq_true] at hu
  obtain ⟨⟨⟨⟨ht, hd⟩, hr⟩, hra⟩, hrb⟩ := hu
  intro l hl
  rw [uncertaintyLines_eq] at hl
  dsimp only at hl
  simp only [List.mem_append] at hl
  rcases hl with ((((hl | hl) | hl) | hl) | hl)
  · rw [List.mem_singleton] at hl
    subst hl
    cases hbox : optTruthy r2
    · rw [if_neg (by simp [hbox])]
      rw [show chars "- [" ++ [' '] ++ chars "] " ++ t = chars "- [ ] " ++ t from rfl]
      exact cleanTextB_append (chars "- [ ] ") t (by decide) (by decide) (by decide)
        (cleanFieldB_text t ht)
    · rw [if_pos rfl]
      rw [show chars "- [" ++ ['x'] ++ chars "] " ++ t = chars "- [x] " ++ t from rfl]
      exact cleanTextB_append (chars "- [x] ") t (by decide) (by decide) (by decide)
        (cleanFieldB_text t ht)
  · exact optLines_clean _ d (by decide) (by decide) (by decide) hd l hl
  · exact optLines_clean _ r2 (by decide) (by decide) (by decide) hr l hl
  · exact optLines_clean _ rb (by decide) (by decide) (by decide) hrb l hl
  · exact optLines_clean _ ra (by decide) (by decide) (by decide) hra l hl

/-- All flattened uncertainty lines are transparent. -/
theorem uncFlat_clean (us : List Uncertainty) (hus : us.all cleanUncertaintyB = true) :
    ∀ l ∈ (us.map uncertaintyLines).flatten, cleanTextB l = true := by
  intro l hl
  rw [List.mem_flatten] at hl
  obtain ⟨L, hL, hlL⟩ := hl
  obtain ⟨u, hu, rfl⟩ := List.mem_map.mp hL
  exact uncertaintyLines_clean u (List.all_eq_true.mp hus u hu) l hlL

/-- All mapped lesson lines are transparent. -/
theorem lessonsMap_clean (ls : List LessonLearned) (hls : ls.all cleanLessonB = true) :
    ∀ l ∈ ls.map lessonLine, cleanTextB l = true := by
  intro l hl
  obtain ⟨x, hx, rfl⟩ := List.mem_map.mp hl
  exact lessonLine_clean x (List.all_eq_true.mp hls x hx)

/-- The raw split of the Lessons section filters down to the emitted lines. -/
theorem lessonLines_filter (ls : List LessonLearned) (hls : ls.all cleanLessonB = true) :
    ((([] : Str) :: (ls.map lessonLine ++ [[]])).filter
        (fun l => leadTok (chars "- ") (jsTrim l)))
      = ls.map lessonLine := by
  rw [List.filter_cons, if_neg (by decide), List.filter_append]
  rw [show ([[]] : List Str).filter (fun l => leadTok (chars "- ") (jsTrim l)) = []
    from by decide]
  rw [List.append_nil]
  have hself : (ls.map lessonLine).filter (fun l => leadTok (chars "- ") (jsTrim l))
      = ls.map lessonLine := by
    rw [List.filter_eq_self]
    intro a ha
    obtain ⟨x, hx, rfl⟩ := List.mem_map.mp ha
    exact lessonLine_trim_lead x (List.all_eq_true.mp hls x hx)
  rw [hself]

/-- Triangulating the block text onto a keyed capture line. -/
theorem shape_capture (bodyL pre post : List Str) (tok g : Str)
    (hbody : bodyL = pre ++ ((tok ++ (' ' :: g)) :: post)) :
    '\n' :: joinLines bodyL
      = '\n' :: (joinLines pre ++ (tok ++ (' ' :: (g ++ '\n' :: joinLines post)))) := by
  rw [hbody, joinLines_append_eq, joinLines_cons]
  simp [List.append_assoc]

/-- `searchCapture` over the whole block, located through the line list. -/
theorem searchCapture_body (bodyL pre post : List Str) (tok g : Str)
    (hbody : bodyL = pre ++ ((tok ++ (' ' :: g)) :: post))
    (hnl : ('\n' ∈ tok) → False) (htok : tok ≠ []) (hpre : linesAvoid tok pre)
    (hg1 : jsTrim g = g) (hg2 : g ≠ []) (hg3 : g.all isDot = true) :
    searchCapture tok ('\n' :: joinLines bodyL) = some g :=
  searchCapture_at tok g (joinLines post) pre _
    (shape_capture bodyL pre post tok g hbody) hnl htok hpre hg1 hg2 hg3

/-- `searchRun` over the whole block, located through the line list. -/
theorem searchRun_body (bodyL pre post : List Str) (tok g : Str) (p : Char → Bool)
    (hbody : bodyL = pre ++ ((tok ++ (' ' :: g)) :: post))
    (hnl : ('\n' ∈ tok) → False) (htok : tok ≠ []) (hpre : linesAvoid tok pre)
    (hg2 : g ≠ []) (hg3 : g.all p = true)
    (hg4 : ∀ c ∈ g, isWs c = false) (hnlp : p '\n' = false) :
    searchRun tok p ('\n' :: joinLines bodyL) = some g :=
  searchRun_at tok g (joinLines post) p pre _
    (shape_capture bodyL pre post tok g hbody) hnl htok hpre hg2 hg3 hg4 hnlp

/-- `sectionAfter` over the whole block, for a section closed by a later
`**` header. -/
theorem sectionAfter_body_mid (bodyL pre mid post : List Str) (tok hdr2Tail : Str)
    (hbody : bodyL = pre ++ (tok :: (mid ++ ((chars "**" ++ hdr2Tail) :: post))))
    (hnl : ('\n' ∈ tok) → False) (htok : tok ≠ []) (hpre : linesAvoid tok pre)
    (hmid : linesAvoid (chars "**") mid) :
    sectionAfter tok ('\n' :: joinLines bodyL) = some ('\n' :: joinLines mid) := by
  apply sectionAfter_mid tok hdr2Tail ('\n' :: joinLines post) pre mid _ ?_ hnl htok hpre hmid
  rw [hbody, joinLines_append_eq, joinLines_cons, joinLines_append_eq, joinLines_cons]

/-- `sectionAfter` over the whole block, for the final section. -/
theorem sectionAfter_body_last (bodyL pre lastL : List Str) (tok : Str)
    (hbody : bodyL = pre ++ (tok :: lastL))
    (hnl : ('\n' ∈ tok) → False) (htok : tok ≠ []) (hpre : linesAvoid tok pre)
    (hlast : linesAvoid (chars "**") lastL) :
    sectionAfter tok ('\n' :: joinLines bodyL) = some ('\n' :: joinLines lastL) := by
  apply sectionAfter_last tok pre lastL _ ?_ hnl htok hpre hlast
  rw [hbody, joinLines_append_eq, joinLines_cons]

/-- The absent optional segment avoids everything. -/
theorem optLines_none_avoid (tok lit : Str) : linesAvoid tok (optLines lit none) := by
  intro l hl
  rw [optLines] at hl
  exact absurd hl (List.not_mem_nil l)

/-- Splitting a keyed literal before its trailing space. -/
theorem lit_space_split (tok v : Str) : (tok ++ [' ']) ++ v = tok ++ (' ' :: v) := by
  simp [List.append_assoc]

/-- C1 (amended) core: decoding the encoder output of a codec-safe metadata
value reproduces it exactly. -/
theorem c1_core (plain : Str) (g : Option Str) (e : Nat) (er cb : Option Str)
    (us : List Uncertainty) (ls : List LessonLearned)
    (hm : cleanMetadataB ⟨g, e, er, cb, us, ls⟩ = true) :
    parseMetadata (buildDescriptionWithMetadata plain ⟨g, e, er, cb, us, ls⟩)
      = ⟨g, e, er, cb, us, ls⟩ := by
  rw [cleanMetadataB] at hm
  dsimp only at hm
  simp only [Bool.and_eq_true] at hm
  obtain ⟨⟨⟨⟨hg, her⟩, hcb⟩, hus⟩, hls⟩ := hm
  have hgv : cleanFieldB (jsOr g (chars "Not specified")) = true := by
    cases g with
    | none => decide
    | some g0 =>
      dsimp only at hg
      simp only [Bool.and_eq_true] at hg
      rw [jsOr]
      obtain ⟨-, h2, -, -, -⟩ := cleanFieldB_spec g0 hg.1
      rw [if_neg (by simp [List.isEmpty_iff, h2])]
      exact hg.1
  obtain ⟨hgv1, hgv2, hgv3, hgv4, hgv5⟩ := cleanFieldB_spec _ hgv
  have hstarPre : ∀ tok : Str, leadTok (chars "**") tok = true →
      occursIn tok (chars "**Goal:** ") = false → noSpanB tok (chars "**Goal:** ") = true →
      occursIn tok (chars "**Effort:** ") = false → noSpanB tok (chars "**Effort:** ") = true →
      linesAvoid tok [chars "**Goal:** " ++ jsOr g (chars "Not specified"),
        chars "**Effort:** " ++ natDigits e] := by
    intro tok hstar hA1 hA2 hB1 hB2
    refine linesAvoid_cons _ _ _ ?_ (linesAvoid_cons _ _ _ ?_ (linesAvoid_nil _))
    · exact valLine_avoid tok _ _ hstar hA1 hA2 hgv4
    · exact occ_append_false tok _ _ hB1
        (digits_avoid tok e '*' (leadTok_mem _ _ hstar '*' (by decide)) (by decide)) hB2
  have hstarReason : ∀ tok : Str, leadTok (chars "**") tok = true →
      occursIn tok (chars "**Effort Reason:** ") = false →
      noSpanB tok (chars "**Effort Reason:** ") = true →
      linesAvoid tok (optLines (chars "**Effort Reason:** ") er) := by
    intro tok hstar h1 h2
    refine optLines_avoid _ _ _ ?_
    intro v hv
    rw [hv, cleanOptFieldB] at her
    obtain ⟨-, -, -, hvstar, -⟩ := cleanFieldB_spec v her
    exact valLine_avoid tok _ _ hstar h1 h2 hvstar
  have hstarBias : ∀ tok : Str, leadTok (chars "**") tok = true →
      occursIn tok (chars "**Complexity Bias:** low") = false →
      occursIn tok (chars "**Complexity Bias:** medium") = false →
      occursIn tok (chars "**Complexity Bias:** high") = false →
      linesAvoid tok (optLines (chars "**Complexity Bias:** ") cb) := by
    intro tok hstar hb1 hb2 hb3
    refine optLines_avoid _ _ _ ?_
    intro v hv
    rw [hv] at hcb
    dsimp only at hcb
    simp only [Bool.or_eq_true, beq_iff_eq] at hcb
    rcases hcb with (rfl | rfl) | rfl
    · rw [show chars "**Complexity Bias:** " ++ chars "low"
        = chars "**Complexity Bias:** low" from rfl]
      exact hb1
    · rw [show chars "**Complexity Bias:** " ++ chars "medium"
        = chars "**Complexity Bias:** medium" from rfl]
      exact hb2
    · rw [show chars "**Complexity Bias:** " ++ chars "high"
        = chars "**Complexity Bias:** high" from rfl]
      exact hb3
  have hstarUnc : ∀ tok : Str, leadTok (chars "**") tok = true →
      linesAvoid tok ((us.map uncertaintyLines).flatten) :=
    fun tok hstar l hl => cleanText_avoid_star tok l hstar (uncFlat_clean us hus l hl)
  have hstarLes : ∀ tok : Str, leadTok (chars "**") tok = true →
      linesAvoid tok (ls.map lessonLine) :=
    fun tok hstar l hl => cleanText_avoid_star tok l hstar (lessonsMap_clean ls hls l hl)
  have htokne : ∀ tok : Str, leadTok (chars "**") tok = true → tok ≠ [] := by
    intro tok hstar he
    rw [he] at hstar
    exact Bool.noConfusion hstar
  have hbodyAvoid : ∀ tok : Str, leadTok (chars "**") tok = true →
      occursIn tok (chars "**Goal:** ") = false → noSpanB tok (chars "**Goal:** ") = true →
      occursIn tok (chars "**Effort:** ") = false → noSpanB tok (chars "**Effort:** ") = true →
      linesAvoid tok (optLines (chars "**Effort Reason:** ") er) →
      linesAvoid tok (optLines (chars "**Complexity Bias:** ") cb) →
      occursIn tok (chars "**Uncertainties:**") = false →
      occursIn tok (chars "**Lessons Learned:**") = false →
      linesAvoid tok (bodyLines ⟨g, e, er, cb, us, ls⟩) := by
    intro tok hstar h1 h2 h3 h4 hR hB h5 h6
    rw [bodyLines_view]
    refine linesAvoid_append _ _ _ (linesAvoid_append _ _ _ (linesAvoid_append _ _ _
      (linesAvoid_append _ _ _ (linesAvoid_append _ _ _ (linesAvoid_append _ _ _
        (hstarPre tok hstar h1 h2 h3 h4) hR) hB)
        (linesAvoid_cons _ _ _ (occ_nil_false tok (htokne tok hstar))
          (linesAvoid_cons _ _ _ h5 (linesAvoid_nil _))))
        (hstarUnc tok hstar))
        (linesAvoid_cons _ _ _ (occ_nil_false tok (htokne tok hstar))
          (linesAvoid_cons _ _ _ h6 (linesAvoid_nil _))))
      (hstarLes tok hstar)
  have hENDall : linesAvoid METADATA_END (bodyLines ⟨g, e, er, cb, us, ls⟩) := by
    rw [bodyLines_view]
    refine linesAvoid_append _ _ _ (linesAvoid_append _ _ _ (linesAvoid_append _ _ _
      (linesAvoid_append _ _ _ (linesAvoid_append _ _ _ (linesAvoid_append _ _ _
        ?_ ?_) ?_) ?_) ?_) ?_) ?_
    · refine linesAvoid_cons _ _ _ ?_ (linesAvoid_cons _ _ _ ?_ (linesAvoid_nil _))
      · exact occ_append_false _ _ _ (by decide) hgv5 (by decide)
      · exact occ_append_false _ _ _ (by decide)
          (digits_avoid _ e '-' (by decide) (by decide)) (by decide)
    · refine optLines_avoid _ _ _ ?_
      intro v hv
      rw [hv, cleanOptFieldB] at her
      obtain ⟨-, -, -, -, hvend⟩ := cleanFieldB_spec v her
      exact occ_append_false _ _ _ (by decide) hvend (by decide)
    · refine optLines_avoid _ _ _ ?_
      intro v hv
      rw [hv] at hcb
      dsimp only at hcb
      simp only [Bool.or_eq_true, beq_iff_eq] at hcb
      rcases hcb with (rfl | rfl) | rfl
      · decide
      · decide
      · decide
    · exact linesAvoid_cons _ _ _ (by decide)
        (linesAvoid_cons _ _ _ (by decide) (linesAvoid_nil _))
    · exact fun l hl => cleanText_avoid_end l (uncFlat_clean us hus l hl)
    · exact linesAvoid_cons _ _ _ (by decide)
        (linesAvoid_cons _ _ _ (by decide) (linesAvoid_nil _))
    · exact fun l hl => cleanText_avoid_end l (lessonsMap_clean ls hls l hl)
  have hblock := extractBlock_encode plain ⟨g, e, er, cb, us, ls⟩ hENDall
  have hscGoal : searchCapture (chars "**Goal:**")
      ('\n' :: joinLines (bodyLines ⟨g, e, er, cb, us, ls⟩))
      = some (jsOr g (chars "Not specified")) := by
    refine searchCapture_body _ [] ([chars "**Effort:** " ++ natDigits e]
        ++ optLines (chars "**Effort Reason:** ") er
        ++ optLines (chars "**Complexity Bias:** ") cb
        ++ ([[], chars "**Uncertainties:**"])
        ++ (us.map uncertaintyLines).flatten
        ++ ([[], chars "**Lessons Learned:**"])
        ++ ls.map lessonLine)
      (chars "**Goal:**") (jsOr g (chars "Not specified")) ?_ (by decide) (by decide)
      (linesAvoid_nil _) hgv1 hgv2 hgv3
    rw [bodyLines_view,
      show chars "**Goal:** " = chars "**Goal:**" ++ [' '] from rfl, lit_space_split]
    simp [List.append_assoc]
  have hscEff : searchRun (chars "**Effort:**") Char.isDigit
      ('\n' :: joinLines (bodyLines ⟨g, e, er, cb, us, ls⟩))
      = some (natDigits e) := by
    refine searchRun_body _ [chars "**Goal:** " ++ jsOr g (chars "Not specified")]
      (optLines (chars "**Effort Reason:** ") er
        ++ optLines (chars "**Complexity Bias:** ") cb
        ++ ([[], chars "**Uncertainties:**"])
        ++ (us.map uncertaintyLines).flatten
        ++ ([[], chars "**Lessons Learned:**"])
        ++ ls.map lessonLine)
      (chars "**Effort:**") (natDigits e) Char.isDigit ?_ (by decide) (by decide)
      (linesAvoid_cons _ _ _
        (valLine_avoid _ _ _ (by decide) (by decide) (by decide) hgv4) (linesAvoid_nil _))
      (natDigits_ne_nil e) (natDigits_all e)
      (fun c hc => isDigit_not_ws c (List.all_eq_true.mp (natDigits_all e) c hc))
      (by decide)
    rw [bodyLines_view,
      show chars "**Effort:** " = chars "**Effort:**" ++ [' '] from rfl, lit_space_split]
    simp [List.append_assoc]
  have hscR : searchCapture (chars "**Effort Reason:**")
      ('\n' :: joinLines (bodyLines ⟨g, e, er, cb, us, ls⟩)) = er := by
    cases er with
    | none =>
      refine searchCapture_none_of _ _ ?_
      exact occ_consNL_joinLines_false _ _ (by decide) (by decide)
        (hbodyAvoid _ (by decide) (by decide) (by decide) (by decide) (by decide)
          (optLines_none_avoid _ _)
          (hstarBias _ (by decide) (by decide) (by decide) (by decide))
          (by decide) (by decide))
    | some rv =>
      rw [cleanOptFieldB] at her
      obtain ⟨hrv1, hrv2, hrv3, -, -⟩ := cleanFieldB_spec rv her
      refine searchCapture_body _ [chars "**Goal:** " ++ jsOr g (chars "Not specified"),
        chars "**Effort:** " ++ natDigits e]
        (optLines (chars "**Complexity Bias:** ") cb
        ++ ([[], chars "**Uncertainties:**"])
        ++ (us.map uncertaintyLines).flatten
        ++ ([[], chars "**Lessons Learned:**"])
        ++ ls.map lessonLine)
        (chars "**Effort Reason:**") rv ?_ (by decide) (by decide)
        (hstarPre _ (by decide) (by decide) (by decide) (by decide) (by decide))
        hrv1 hrv2 hrv3
      rw [bodyLines_view, optLines, if_neg (by simp [List.isEmpty_iff, hrv2]),
        show chars "**Effort Reason:** " = chars "**Effort Reason:**" ++ [' '] from rfl,
        lit_space_split]
      simp [List.append_assoc]
  have hscB : searchRun (chars "**Complexity Bias:**") isWordC
      ('\n' :: joinLines (bodyLines ⟨g, e, er, cb, us, ls⟩)) = cb := by
    cases cb with
    | none =>
      refine searchRun_none_of _ _ _ ?_
      exact occ_consNL_joinLines_false _ _ (by decide) (by decide)
        (hbodyAvoid _ (by decide) (by decide) (by decide) (by decide) (by decide)
          (hstarReason _ (by decide) (by decide) (by decide))
          (optLines_none_avoid _ _)
          (by decide) (by decide))
    | some b =>
      dsimp only at hcb
      simp only [Bool.or_eq_true, beq_iff_eq] at hcb
      have hbody0 : bodyLines ⟨g, e, er, some b, us, ls⟩
          = ([chars "**Goal:** " ++ jsOr g (chars "Not specified"),
        chars "**Effort:** " ++ natDigits e]
        ++ optLines (chars "**Effort Reason:** ") er)
            ++ ((chars "**Complexity Bias:**" ++ (' ' :: b)) :: (([[], chars "**Uncertainties:**"])
        ++ (us.map uncertaintyLines).flatten
        ++ ([[], chars "**Lessons Learned:**"])
        ++ ls.map lessonLine)) := by
        rw [bodyLines_view, optLines, if_neg ?_,
          show chars "**Complexity Bias:** " = chars "**Complexity Bias:**" ++ [' ']
            from rfl, lit_space_split]
        · simp [List.append_assoc]
        · rcases hcb with (rfl | rfl) | rfl <;> simp [List.isEmpty_iff] <;> decide
      refine searchRun_body _ ([chars "**Goal:** " ++ jsOr g (chars "Not specified"),
        chars "**Effort:** " ++ natDigits e]
        ++ optLines (chars "**Effort Reason:** ") er)
        (([[], chars "**Uncertainties:**"])
        ++ (us.map uncertaintyLines).flatten
        ++ ([[], chars "**Lessons Learned:**"])
        ++ ls.map lessonLine)
        (chars "**Complexity Bias:**") b isWordC hbody0 (by decide) (by decide)
        (linesAvoid_append _ _ _
          (hstarPre _ (by decide) (by decide) (by decide) (by decide) (by decide))
          (hstarReason _ (by decide) (by decide) (by decide)))
        ?_ ?_ ?_ (by decide)
      · rcases hcb with (rfl | rfl) | rfl <;> decide
      · rcases hcb with (rfl | rfl) | rfl <;> decide
      · rcases hcb with (rfl | rfl) | rfl <;> decide
  have hsecU : sectionAfter (chars "**Uncertainties:**")
      ('\n' :: joinLines (bodyLines ⟨g, e, er, cb, us, ls⟩))
      = some ('\n' :: joinLines ((us.map uncertaintyLines).flatten ++ [[]])) := by
    refine sectionAfter_body_mid _ ([chars "**Goal:** " ++ jsOr g (chars "Not specified"),
        chars "**Effort:** " ++ natDigits e]
        ++ optLines (chars "**Effort Reason:** ") er
        ++ optLines (chars "**Complexity Bias:** ") cb
        ++ [[]])
      ((us.map uncertaintyLines).flatten ++ [[]]) (ls.map lessonLine)
      (chars "**Uncertainties:**") (chars "Lessons Learned:**") ?_ (by decide) (by decide)
      ?_ ?_
    · rw [show chars "**" ++ chars "Lessons Learned:**"
        = chars "**Lessons Learned:**" from rfl]
      rw [bodyLines_view]
      simp [List.append_assoc]
    · refine linesAvoid_append _ _ _ (linesAvoid_append _ _ _ (linesAvoid_append _ _ _
        (hstarPre _ (by decide) (by decide) (by decide) (by decide) (by decide))
        (hstarReason _ (by decide) (by decide) (by decide)))
        (hstarBias _ (by decide) (by decide) (by decide) (by decide)))
        (linesAvoid_cons _ _ _ (occ_nil_false _ (by decide)) (linesAvoid_nil _))
    · refine linesAvoid_append _ _ _ (hstarUnc _ (by decide))
        (linesAvoid_cons _ _ _ (occ_nil_false _ (by decide)) (linesAvoid_nil _))
  have hsecL : sectionAfter (chars "**Lessons Learned:**")
      ('\n' :: joinLines (bodyLines ⟨g, e, er, cb, us, ls⟩))
      = some ('\n' :: joinLines (ls.map lessonLine)) := by
    refine sectionAfter_body_last _ ([chars "**Goal:** " ++ jsOr g (chars "Not specified"),
        chars "**Effort:** " ++ natDigits e]
        ++ optLines (chars "**Effort Reason:** ") er
        ++ optLines (chars "**Complexity Bias:** ") cb
        ++ ([[], chars "**Uncertainties:**"])
        ++ (us.map uncertaintyLines).flatten
        ++ [[]])
      (ls.map lessonLine) (chars "**Lessons Learned:**") ?_ (by decide) (by decide) ?_
      (hstarLes _ (by decide))
    · rw [bodyLines_view]
      simp [List.append_assoc]
    · refine linesAvoid_append _ _ _ (linesAvoid_append _ _ _ (linesAvoid_append _ _ _
        (linesAvoid_append _ _ _ (linesAvoid_append _ _ _
          (hstarPre _ (by decide) (by decide) (by decide) (by decide) (by decide))
          (hstarReason _ (by decide) (by decide) (by decide)))
          (hstarBias _ (by decide) (by decide) (by decide) (by decide)))
        (linesAvoid_cons _ _ _ (occ_nil_false _ (by decide))
          (linesAvoid_cons _ _ _ (by decide) (linesAvoid_nil _))))
        (hstarUnc _ (by decide)))
        (linesAvoid_cons _ _ _ (occ_nil_false _ (by decide)) (linesAvoid_nil _))
  rw [parseMetadata, hblock]
  dsimp only
  rw [hscGoal, hscEff, hscR, hscB, hsecU, hsecL]
  dsimp only
  simp only [IssueMetadata.mk.injEq]
  refine ⟨?_, ?_, ?_, ?_, ?_, ?_⟩
  · cases g with
    | none =>
      rw [if_pos (show jsOr none (chars "Not specified") = chars "Not specified" from rfl)]
    | some g0 =>
      dsimp only at hg
      simp only [Bool.and_eq_true] at hg
      obtain ⟨hg0, hgne⟩ := hg
      obtain ⟨hh1, hh2, -, -, -⟩ := cleanFieldB_spec g0 hg0
      have hjs : jsOr (some g0) (chars "Not specified") = g0 := by
        rw [jsOr, if_neg (by simp [List.isEmpty_iff, hh2])]
      rw [hjs]
      have hne2 : g0 ≠ chars "Not specified" := by
        intro heq
        rw [heq] at hgne
        simp at hgne
      rw [if_neg hne2, hh1]
  · exact natDigits_val e
  · cases er with
    | none => rfl
    | some rv =>
      rw [cleanOptFieldB] at her
      obtain ⟨hrv1, hrv2, -, -, -⟩ := cleanFieldB_spec rv her
      dsimp only
      rw [hrv1, if_neg (by simp [List.isEmpty_iff, hrv2])]
  · cases cb with
    | none => rfl
    | some b => rfl
  · rw [splitNL_cons_nl, splitNL_joinLines _ ?_, List.append_assoc,
      show ([[]] ++ [[]] : List Str) = [[], []] from rfl, uncRun_empty_step,
      uncRun_all us none [] hus]
    · rfl
    · intro l hl hnl
      rcases List.mem_append.mp hl with h | h
      · exact cleanTextB_noNL l (uncFlat_clean us hus l h) hnl
      · rw [List.mem_singleton] at h
        subst h
        exact absurd hnl (List.not_mem_nil _)
  · rw [splitNL_cons_nl, splitNL_joinLines _ ?_, lessonLines_filter ls hls,
      lessons_foldl ls [] hls]
    · rfl
    · intro l hl hnl
      exact cleanTextB_noNL l (lessonsMap_clean ls hls l hl) hnl

/-- C1 (amended): for every plain text and every codec-safe metadata value —
single-line, trimmed, non-empty strings free of `**` and of the sentinel
tokens; a goal other than the literal "Not specified"; an enum-valid
complexity bias; enum-valid lesson categories with no tags, and lesson
content free of the category marker "- [" (the unanchored category pattern
would otherwise re-match inside the content) — decoding the encoder output
reproduces the goal, effort, effortReason and complexityBias and preserves
the order and contents of the uncertainty and lesson lists. -/
theorem c1_roundtrip_amended (plain : Str) (m : IssueMetadata)
    (hm : cleanMetadataB m = true) :
    parseMetadata (buildDescriptionWithMetadata plain m) = m := by
  obtain ⟨g, e, er, cb, us, ls⟩ := m
  exact c1_core plain g e er cb us ls hm

/-- C1 (amended) witness: the round-trip at a concrete two-uncertainty,
two-lesson metadata value. -/
theorem c1_roundtrip_amended_witness :
    cleanMetadataB cleanMeta = true
    ∧ parseMetadata (buildDescriptionWithMetadata (chars "plain text") cleanMeta)
        = cleanMeta :=
  ⟨by decide, c1_roundtrip_amended (chars "plain text") cleanMeta (by decide)⟩

/-! ### C9: stripping under sentinel-freedom alone -/

/-- Sentinel-freedom gives end-sentinel absence. -/
theorem sentinelFreeB_end (s : Str) (h : sentinelFreeB s = true) :
    occursIn METADATA_END s = false := by
  rw [sentinelFreeB] at h
  simp only [Bool.and_eq_true, Bool.not_eq_true'] at h
  exact h.2

/-- Prepending a non-dash character preserves end-sentinel absence. -/
theorem end_head_false (c : Char) (s : Str) (hc : c ≠ '-')
    (hs : occursIn METADATA_END s = false) :
    occursIn METADATA_END (c :: s) = false := by
  rw [occursIn_cons_eq, hs]
  have hl : leadTok METADATA_END (c :: s) = false := by
    rw [show METADATA_END = '-' :: chars "--END-METADATA---" from rfl]
    simp only [leadTok]
    cases hbe : ('-' == c)
    · rw [Bool.false_and]
    · exact absurd (eq_of_beq hbe).symm hc
  rw [hl]
  rfl

/-- Dropping to the start of a token line after a clean block. -/
theorem drop_at_tok (pre : List Str) (tok t : Str) :
    ('\n' :: (joinLines pre ++ (tok ++ t))).drop ((joinLines pre).length + 1)
      = tok ++ t := by
  have h : ('\n' :: joinLines pre).length = (joinLines pre).length + 1 := by
    simp
  rw [show ('\n' :: (joinLines pre ++ (tok ++ t)))
      = ('\n' :: joinLines pre) ++ (tok ++ t) from rfl]
  exact List.drop_left' h

/-- The checklist title line avoids the end sentinel. -/
theorem uncLine_end_title (t : Str) (r2 : Option Str)
    (ht : occursIn METADATA_END t = false) :
    occursIn METADATA_END
      (chars "- [" ++ (if optTruthy r2 then ['x'] else [' ']) ++ chars "] " ++ t)
      = false := by
  cases hbox : optTruthy r2
  · rw [if_neg (by simp)]
    rw [show chars "- [" ++ [' '] ++ chars "] " ++ t = chars "- [ ] " ++ t from rfl]
    exact occ_append_false _ _ _ (by decide) ht (by decide)
  · rw [if_pos rfl]
    rw [show chars "- [" ++ ['x'] ++ chars "] " ++ t = chars "- [x] " ++ t from rfl]
    exact occ_append_false _ _ _ (by decide) ht (by decide)

/-- All emitted lines of a sentinel-free uncertainty avoid the end sentinel. -/
theorem uncLines_end_avoid (u : Uncertainty)
    (hu : (sentinelFreeB u.title && sentinelFreeOptB u.description
      && sentinelFreeOptB u.resolution && sentinelFreeOptB u.resolvedAt
      && sentinelFreeOptB u.resolvedBy) = true) :
    linesAvoid METADATA_END (uncertaintyLines u) := by
  obtain ⟨t, d, r2, ra, rb⟩ := u
  dsimp only at hu
  simp only [Bool.and_eq_true] at hu
  obtain ⟨⟨⟨⟨ht, hd⟩, hr⟩, hra⟩, hrb⟩ := hu
  rw [uncertaintyLines_eq]
  dsimp only
  refine linesAvoid_append _ _ _ (linesAvoid_append _ _ _ (linesAvoid_append _ _ _
    (linesAvoid_append _ _ _ ?_ ?_) ?_) ?_) ?_
  · exact linesAvoid_cons _ _ _ (uncLine_end_title t r2 (sentinelFreeB_end t ht))
      (linesAvoid_nil _)
  · refine optLines_avoid _ _ _ ?_
    intro v hv
    rw [hv] at hd
    exact occ_append_false _ _ _ (by decide) (sentinelFreeB_end v hd) (by decide)
  · refine optLines_avoid _ _ _ ?_
    intro v hv
    rw [hv] at hr
    exact occ_append_false _ _ _ (by decide) (sentinelFreeB_end v hr) (by decide)
  · refine optLines_avoid _ _ _ ?_
    intro v hv
    rw [hv] at hrb
    exact occ_append_false _ _ _ (by decide) (sentinelFreeB_end v hrb) (by decide)
  · refine optLines_avoid _ _ _ ?_
    intro v hv
    rw [hv] at hra
    exact occ_append_false _ _ _ (by decide) (sentinelFreeB_end v hra) (by decide)

/-- The emitted line of a sentinel-free lesson avoids the end sentinel. -/
theorem lessonLine_end_avoid (l : LessonLearned)
    (hl : (sentinelFreeB l.content && sentinelFreeOptB l.category) = true) :
    occursIn METADATA_END (lessonLine l) = false := by
  obtain ⟨cnt, cat, tags⟩ := l
  dsimp only at hl
  simp only [Bool.and_eq_true] at hl
  obtain ⟨hcnt, hcat⟩ := hl
  have hce := sentinelFreeB_end cnt hcnt
  cases cat with
  | none =>
    rw [show lessonLine ⟨cnt, none, tags⟩ = chars "-  " ++ cnt from rfl]
    exact occ_append_false _ _ _ (by decide) hce (by decide)
  | some c =>
    rw [show lessonLine ⟨cnt, some c, tags⟩
      = chars "- " ++ (if c.isEmpty then [] else '[' :: c ++ [']']) ++ [' '] ++ cnt
      from rfl]
    by_cases hcemp : c.isEmpty = true
    · rw [if_pos hcemp]
      rw [show chars "- " ++ ([] : Str) ++ [' '] ++ cnt = chars "-  " ++ cnt from rfl]
      exact occ_append_false _ _ _ (by decide) hce (by decide)
    · rw [if_neg hcemp]
      rw [show chars "- " ++ ('[' :: c ++ [']']) ++ [' '] ++ cnt
        = chars "- " ++ ('[' :: (c ++ (']' :: (' ' :: cnt)))) from by
          simp [List.append_assoc]]
      refine occ_append_false _ _ _ (by decide) ?_ (by decide)
      refine end_head_false '[' _ (by decide) ?_
      refine occ_append_false_head _ _ _ (sentinelFreeB_end c hcat) ?_ ?_
      · exact end_head_false ']' _ (by decide) (end_head_false ' ' _ (by decide) hce)
      · intro cc ccs heq
        injection heq with h1 h2
        rw [← h1]
        decide

/-- Under sentinel-freedom the body avoids the end sentinel. -/
theorem bodyEnd_sentinel (g : Option Str) (e : Nat) (er cb : Option Str)
    (us : List Uncertainty) (ls : List LessonLearned)
    (hm : sentinelFreeMetaB ⟨g, e, er, cb, us, ls⟩ = true) :
    linesAvoid METADATA_END (bodyLines ⟨g, e, er, cb, us, ls⟩) := by
  rw [sentinelFreeMetaB] at hm
  dsimp only at hm
  simp only [Bool.and_eq_true] at hm
  obtain ⟨⟨⟨⟨hg, her⟩, hcb⟩, hus⟩, hls⟩ := hm
  rw [bodyLines_view]
  refine linesAvoid_append _ _ _ (linesAvoid_append _ _ _ (linesAvoid_append _ _ _
    (linesAvoid_append _ _ _ (linesAvoid_append _ _ _ (linesAvoid_append _ _ _
      ?_ ?_) ?_) ?_) ?_) ?_) ?_
  · refine linesAvoid_cons _ _ _ ?_ (linesAvoid_cons _ _ _ ?_ (linesAvoid_nil _))
    · cases g with
      | none => decide
      | some g0 =>
        rw [sentinelFreeOptB] at hg
        rw [jsOr]
        by_cases hge : g0.isEmpty = true
        · rw [if_pos hge]
          decide
        · rw [if_neg hge]
          exact occ_append_false _ _ _ (by decide) (sentinelFreeB_end g0 hg) (by decide)
    · exact occ_append_false _ _ _ (by decide)
        (digits_avoid _ e '-' (by decide) (by decide)) (by decide)
  · refine optLines_avoid _ _ _ ?_
    intro v hv
    rw [hv, sentinelFreeOptB] at her
    exact occ_append_false _ _ _ (by decide) (sentinelFreeB_end v her) (by decide)
  · refine optLines_avoid _ _ _ ?_
    intro v hv
    rw [hv, sentinelFreeOptB] at hcb
    exact occ_append_false _ _ _ (by decide) (sentinelFreeB_end v hcb) (by decide)
  · exact linesAvoid_cons _ _ _ (by decide)
      (linesAvoid_cons _ _ _ (by decide) (linesAvoid_nil _))
  · intro l hl
    rw [List.mem_flatten] at hl
    obtain ⟨L, hL, hlL⟩ := hl
    obtain ⟨u, hu, rfl⟩ := List.mem_map.mp hL
    exact uncLines_end_avoid u (List.all_eq_true.mp hus u hu) l hlL
  · exact linesAvoid_cons _ _ _ (by decide)
      (linesAvoid_cons _ _ _ (by decide) (linesAvoid_nil _))
  · intro l hl
    obtain ⟨x, hx, rfl⟩ := List.mem_map.mp hl
    exact lessonLine_end_avoid x (List.all_eq_true.mp hls x hx)

/-- C9 (amended) core: stripping the encoder output of a sentinel-free
metadata value yields the trimmed plain text. -/
theorem c9_core (plain : Str) (g : Option Str) (e : Nat) (er cb : Option Str)
    (us : List Uncertainty) (ls : List LessonLearned)
    (hm : sentinelFreeMetaB ⟨g, e, er, cb, us, ls⟩ = true) :
    extractPlainDescription (buildDescriptionWithMetadata plain ⟨g, e, er, cb, us, ls⟩)
      = jsTrim plain := by
  have hENDavoid := bodyEnd_sentinel g e er cb us ls hm
  have hshape : buildDescriptionWithMetadata plain ⟨g, e, er, cb, us, ls⟩
      = METADATA_SEPARATOR
        ++ ('\n' :: (joinLines (bodyLines ⟨g, e, er, cb, us, ls⟩)
          ++ (METADATA_END ++ ('\n' :: ('\n' :: plain))))) := by
    rw [encode_eq, buildLines_eq, joinLines_cons, joinLines_append_eq]
    have h1 : joinLines [METADATA_END] = METADATA_END ++ ['\n'] := by
      rw [joinLines_cons]
      rfl
    rw [h1]
    simp only [List.append_assoc, List.cons_append, List.singleton_append, List.nil_append]
  rw [hshape, extractPlainDescription, firstOcc_self_lead METADATA_SEPARATOR _ (by decide)]
  dsimp only
  have hdrop : (METADATA_SEPARATOR
      ++ ('\n' :: (joinLines (bodyLines ⟨g, e, er, cb, us, ls⟩)
        ++ (METADATA_END ++ ('\n' :: ('\n' :: plain)))))).drop
      (0 + METADATA_SEPARATOR.length)
      = '\n' :: (joinLines (bodyLines ⟨g, e, er, cb, us, ls⟩)
        ++ (METADATA_END ++ ('\n' :: ('\n' :: plain)))) := by
    rw [Nat.zero_add, List.drop_left]
  rw [hdrop]
  have hfoEnd : firstOcc METADATA_END
      ('\n' :: (joinLines (bodyLines ⟨g, e, er, cb, us, ls⟩)
        ++ (METADATA_END ++ ('\n' :: ('\n' :: plain)))))
      = some ((joinLines (bodyLines ⟨g, e, er, cb, us, ls⟩)).length + 1) :=
    firstOcc_tok_pos METADATA_END _ (bodyLines ⟨g, e, er, cb, us, ls⟩)
      (by decide) (by decide) hENDavoid
  have hfoNN : firstOcc endMarkNN
      ('\n' :: (joinLines (bodyLines ⟨g, e, er, cb, us, ls⟩)
        ++ (METADATA_END ++ ('\n' :: ('\n' :: plain)))))
      = some ((joinLines (bodyLines ⟨g, e, er, cb, us, ls⟩)).length + 1) := by
    apply firstOcc_intro
    · rw [drop_at_tok (bodyLines ⟨g, e, er, cb, us, ls⟩) METADATA_END
        ('\n' :: ('\n' :: plain))]
      rw [show METADATA_END ++ ('\n' :: ('\n' :: plain)) = endMarkNN ++ plain from by
        rw [endMarkNN, show chars "\n\n" = ['\n', '\n'] from rfl]
        simp [List.append_assoc]]
      exact leadTok_append_self _ _
    · intro j hj
      cases hlt : leadTok endMarkNN
        (('\n' :: (joinLines (bodyLines ⟨g, e, er, cb, us, ls⟩)
          ++ (METADATA_END ++ ('\n' :: ('\n' :: plain))))).drop j)
      · rfl
      · exfalso
        have h2 : leadTok METADATA_END
            (('\n' :: (joinLines (bodyLines ⟨g, e, er, cb, us, ls⟩)
              ++ (METADATA_END ++ ('\n' :: ('\n' :: plain))))).drop j) = true :=
          leadTok_mono METADATA_END (chars "\n\n") _ hlt
        have h3 := firstOcc_min METADATA_END _ _ j hfoEnd hj
        rw [h3] at h2
        exact Bool.noConfusion h2
  rw [hfoNN]
  dsimp only
  have hdrop2 : (METADATA_SEPARATOR
      ++ ('\n' :: (joinLines (bodyLines ⟨g, e, er, cb, us, ls⟩)
        ++ (METADATA_END ++ ('\n' :: ('\n' :: plain)))))).drop
      (0 + METADATA_SEPARATOR.length
        + ((joinLines (bodyLines ⟨g, e, er, cb, us, ls⟩)).length + 1)
        + endMarkNN.length)
      = plain := by
    rw [show METADATA_SEPARATOR
        ++ ('\n' :: (joinLines (bodyLines ⟨g, e, er, cb, us, ls⟩)
          ++ (METADATA_END ++ ('\n' :: ('\n' :: plain)))))
        = (METADATA_SEPARATOR
            ++ (('\n' :: joinLines (bodyLines ⟨g, e, er, cb, us, ls⟩)) ++ endMarkNN))
          ++ plain from by
      rw [endMarkNN, show chars "\n\n" = ['\n', '\n'] from rfl]
      simp [List.append_assoc]]
    apply List.drop_left'
    rw [endMarkNN]
    simp only [List.length_append, List.length_cons, List.length_nil]
    omega
  rw [List.take_zero, List.nil_append, hdrop2]

/-- C9 (amended): for every plain text and every metadata value none of
whose strings contain the sentinel tokens,
`stripMetadata(encode(plain, M))` equals `plain.trim()`: stripping removes
the marker block plus exactly one following blank-line separator and trims
the remainder. -/
theorem c9_strip_amended (plain : Str) (m : IssueMetadata)
    (hm : sentinelFreeMetaB m = true) :
    extractPlainDescription (buildDescriptionWithMetadata plain m) = jsTrim plain := by
  obtain ⟨g, e, er, cb, us, ls⟩ := m
  exact c9_core plain g e er cb us ls hm

/-- C9 (amended) witness: stripping at a concrete metadata value and an
untrimmed plain text. -/
theorem c9_strip_amended_witness :
    sentinelFreeMetaB cleanMeta = true
    ∧ extractPlainDescription
        (buildDescriptionWithMetadata (chars "  body text  ") cleanMeta)
        = jsTrim (chars "  body text  ") :=
  ⟨by decide, c9_strip_amended (chars "  body text  ") cleanMeta (by decide)⟩

end ATM
